import Mathlib

/-!
# TDTL evaluator and value model

A shallow embedding of the value model (`collectjs_types.go`) and of the
expression evaluator (`evaluator.go`) of the TDTL rule language, with the
theorems proved about them.

Conventions of the embedding:

* a Go `string` / `[]byte` is a list of bytes (`GoString`);
* an `int64` is an `Int`, wrapped with `wrapInt64` wherever Go arithmetic can
  overflow;
* `float64` is a type parameter `F` together with the primitive operations
  the program uses on it (`Float64Ops F`);
* a call that can panic or recurse without bound returns an `Exec`: the value
  it returns, the panic it raises, or `outOfFuel` when the recursion budget
  given to the model is used up.
-/

namespace Tdtl

/-! ## Go primitives -/

/-- Go `string`: a sequence of bytes. -/
abbrev GoString := List UInt8

/-- The UTF-8 bytes of a string literal, as the Go compiler stores it. -/
def str (s : String) : GoString := s.toList.flatMap String.utf8EncodeChar

/-- Two's-complement wrap-around of a mathematical integer into `int64`. -/
def wrapInt64 (x : Int) : Int := (x + 2 ^ 63) % 2 ^ 64 - 2 ^ 63

/-- The values of `int64`. -/
def isInt64 (x : Int) : Prop := -(2 ^ 63) ≤ x ∧ x < 2 ^ 63

instance (x : Int) : Decidable (isInt64 x) := by
  unfold isInt64
  exact inferInstance

/-- Go `strings.Compare`: 0 if a == b, -1 if a < b, +1 if a > b, in
lexicographic byte order. -/
def Compare : GoString → GoString → Int
  | [], [] => 0
  | [], _ :: _ => -1
  | _ :: _, [] => 1
  | a :: as, b :: bs => if a < b then -1 else if b < a then 1 else Compare as bs

/-- The decimal digits of a natural number, most significant first. -/
def natDigits (n : Nat) : GoString := (Nat.toDigits 10 n).map fun c => c.toNat.toUInt8

/-- Go `fmt.Sprintf("%d", i)` for an `int64`. -/
def formatInt (i : Int) : GoString :=
  if i < 0 then 45 :: natDigits i.natAbs else natDigits i.natAbs

/-- Go `fmt.Sprintf("%t", b)`. -/
def formatBool (b : Bool) : GoString := if b then str "true" else str "false"

/-- Go `strconv.ParseBool`; `none` stands for a non-nil error. -/
def parseBool (s : GoString) : Option Bool :=
  if s = str "1" ∨ s = str "t" ∨ s = str "T" ∨ s = str "TRUE" ∨ s = str "true"
      ∨ s = str "True" then some true
  else if s = str "0" ∨ s = str "f" ∨ s = str "F" ∨ s = str "FALSE" ∨ s = str "false"
      ∨ s = str "False" then some false
  else none

/-- The value of a non-empty string of decimal digits (`strconv.ParseUint`
with base 10, before its range check), `none` on any other byte. -/
def parseDigits : GoString → Nat → Option Nat
  | [], acc => some acc
  | c :: cs, acc =>
    if 48 ≤ c ∧ c ≤ 57 then parseDigits cs (acc * 10 + (c.toNat - 48)) else none

/-- Go `strconv.ParseInt(s, 10, 64)`; `none` stands for a non-nil error
(syntax or range). -/
def parseInt (s : GoString) : Option Int :=
  match s with
  | [] => none
  | c :: cs =>
    let neg := c == 45
    let body := if c == 43 ∨ c == 45 then cs else c :: cs
    match body with
    | [] => none
    | _ :: _ =>
      match parseDigits body 0 with
      | none => none
      | some un =>
        if !neg ∧ un ≥ 2 ^ 63 then none
        else if neg ∧ un > 2 ^ 63 then none
        else some (if neg then -(un : Int) else (un : Int))

/-- The primitive `float64` operations the program uses. Arithmetic and
comparison are those of the Go operators; `mod` is `math.Mod`, `ofInt` the
conversion `float64(i)`, `toInt` the conversion `int64(f)`, `format` is
`fmt.Sprintf("%f", f)` and `parse` is `strconv.ParseFloat(s, 64)` with `none`
for a non-nil error. -/
structure Float64Ops (F : Type) where
  add : F → F → F
  sub : F → F → F
  mul : F → F → F
  div : F → F → F
  mod : F → F → F
  eq : F → F → Bool
  lt : F → F → Bool
  le : F → F → Bool
  ofInt : Int → F
  toInt : F → Int
  format : F → GoString
  parse : GoString → Option F

/-- A decimal fixed-point stand-in for `float64` (an integer count of
millionths), used to run the definitions on concrete inputs. The theorems
below hold for every `Float64Ops`. -/
def fixedPointOps : Float64Ops Int where
  add a b := a + b
  sub a b := a - b
  mul a b := Int.tdiv (a * b) 1000000
  div a b := Int.tdiv (a * 1000000) b
  mod a b := Int.tmod a b
  eq a b := a == b
  lt a b := a < b
  le a b := a ≤ b
  ofInt i := i * 1000000
  toInt a := Int.tdiv a 1000000
  format a :=
    let frac := natDigits (a.natAbs % 1000000)
    (if a < 0 then [45] else []) ++ natDigits (a.natAbs / 1000000) ++ [46]
      ++ List.replicate (6 - frac.length) 48 ++ frac
  parse s :=
    match s.splitOn 46 with
    | [ip] => (parseInt ip).map (· * 1000000)
    | [ip, fp] =>
      match parseInt ip, parseDigits (fp ++ List.replicate (6 - fp.length) 48) 0 with
      | some i, some f =>
        if fp.length ≤ 6 then some (if ip.head? = some 45 then i * 1000000 - f else i * 1000000 + f)
        else none
      | _, _ => none
    | _ => none

/-! ## The value model (`collectjs_types.go`) -/

/-- The type tag `Type` of a node. -/
inductive NodeType where
  | Undefined
  | Null
  | Bool
  | Number
  | Int
  | Float
  | String
  | JSON
  | Object
  | Array
  deriving DecidableEq, Repr

/-- The struct `JSONNode` (`Collect` is an alias of it). `err` is `none` for a
nil error and otherwise holds the error's message. -/
structure JSONNode where
  value : List UInt8
  path : GoString
  datatype : NodeType
  offset : Int
  err : Option GoString
  deriving DecidableEq, Repr

/-- The dynamic values of the interface `Node`. A `JSONNode` is held either by
value (`JSONNode`) or through a pointer (`JSONNodeRef`, the Go type
`*JSONNode`): `addr` identifies the pointer and `j` is the struct it points to. -/
inductive Node (F : Type) where
  | BoolNode (b : Bool)
  | IntNode (i : Int)
  | FloatNode (f : F)
  | StringNode (s : GoString)
  | JSONNode (j : Tdtl.JSONNode)
  | JSONNodeRef (addr : Nat) (j : Tdtl.JSONNode)
  deriving DecidableEq, Repr

/-- The shared sentinel `UNDEFINED_RESULT = &JSONNode{datatype: Undefined}`. -/
def UNDEFINED_RESULT {F : Type} : Node F :=
  .JSONNodeRef 0 { value := [], path := [], datatype := .Undefined, offset := 0, err := none }

/-- The second package-level pointer `NULL_RESULT = &JSONNode{datatype: Undefined}`. -/
def NULL_RESULT {F : Type} : Node F :=
  .JSONNodeRef 1 { value := [], path := [], datatype := .Undefined, offset := 0, err := none }

/-- The method `BoolNode.To`. -/
def BoolNode.To {F : Type} (r : Bool) (typ : NodeType) : Node F :=
  match typ with
  | .Bool => .BoolNode r
  | .String => .StringNode (formatBool r)
  | _ => UNDEFINED_RESULT

/-- The method `IntNode.To`. -/
def IntNode.To {F : Type} (fo : Float64Ops F) (r : Int) (typ : NodeType) : Node F :=
  match typ with
  | .Number => .IntNode r
  | .Int => .IntNode r
  | .Float => .FloatNode (fo.ofInt r)
  | .String => .StringNode (formatInt r)
  | _ => UNDEFINED_RESULT

/-- The method `FloatNode.To`. -/
def FloatNode.To {F : Type} (fo : Float64Ops F) (r : F) (typ : NodeType) : Node F :=
  match typ with
  | .Number => .FloatNode r
  | .Float => .FloatNode r
  | .Int => .IntNode (fo.toInt r)
  | .String => .StringNode (fo.format r)
  | _ => UNDEFINED_RESULT

/-- The `Int` case of `StringNode.To`. -/
def StringNode.toInt {F : Type} (r : GoString) : Node F :=
  match parseInt r with
  | none => UNDEFINED_RESULT
  | some b => .IntNode b

/-- The `Float` case of `StringNode.To`. -/
def StringNode.toFloat {F : Type} (fo : Float64Ops F) (r : GoString) : Node F :=
  match fo.parse r with
  | none => UNDEFINED_RESULT
  | some b => .FloatNode b

/-- The method `StringNode.To`. The `Number` case looks for a `.` in the text
(`strings.Index(string(r), ".") == -1`) and continues as `Int` or `Float`. -/
def StringNode.To {F : Type} (fo : Float64Ops F) (r : GoString) (typ : NodeType) : Node F :=
  match typ with
  | .String => .StringNode r
  | .Bool =>
    match parseBool r with
    | none => UNDEFINED_RESULT
    | some b => .BoolNode b
  | .Number => if ¬ (46 ∈ r) then StringNode.toInt r else StringNode.toFloat fo r
  | .Int => StringNode.toInt r
  | .Float => StringNode.toFloat fo r
  | _ => UNDEFINED_RESULT

/-- The method `JSONNode.String`. -/
def JSONNode.String (r : JSONNode) : GoString := r.value

/-- The method `JSONNode.To` (value receiver `cc`): the JSON tags return the
struct itself, the scalar tags go through `cc.To(String)`, which is
`StringNode(cc.String())`. -/
def JSONNode.To {F : Type} (fo : Float64Ops F) (cc : JSONNode) (typ : NodeType) : Node F :=
  match typ with
  | .JSON => .JSONNode cc
  | .Object => .JSONNode cc
  | .Array => .JSONNode cc
  | .Bool => StringNode.To fo cc.String .Bool
  | .Number => StringNode.To fo cc.String .Number
  | .Int => StringNode.To fo cc.String .Int
  | .Float => StringNode.To fo cc.String .Float
  | .String => .StringNode cc.String
  | .Null => UNDEFINED_RESULT
  | .Undefined => UNDEFINED_RESULT

/-- The method `Type` of the interface `Node`. -/
def Node.Type {F : Type} : Node F → NodeType
  | .BoolNode _ => .Bool
  | .IntNode _ => .Int
  | .FloatNode _ => .Float
  | .StringNode _ => .String
  | .JSONNode j => j.datatype
  | .JSONNodeRef _ j => j.datatype

/-- The method `To` of the interface `Node`, dispatched on the dynamic type. A
`*JSONNode` is dereferenced for the value receiver of `JSONNode.To`. -/
def Node.To {F : Type} (fo : Float64Ops F) (n : Node F) (typ : NodeType) : Node F :=
  match n with
  | .BoolNode b => BoolNode.To b typ
  | .IntNode i => IntNode.To fo i typ
  | .FloatNode f => FloatNode.To fo f typ
  | .StringNode s => StringNode.To fo s typ
  | .JSONNode j => JSONNode.To fo j typ
  | .JSONNodeRef _ j => JSONNode.To fo j typ

/-- The method `Raw` of the interface `Node`. -/
def Node.Raw {F : Type} (fo : Float64Ops F) : Node F → List UInt8
  | .BoolNode b => formatBool b
  | .IntNode i => formatInt i
  | .FloatNode f => fo.format f
  | .StringNode s => [34] ++ s ++ [34]
  | .JSONNode j => if j.datatype = .String then ([34] ++ j.value) ++ [34] else j.String
  | .JSONNodeRef _ j => if j.datatype = .String then ([34] ++ j.value) ++ [34] else j.String

/-! ## Operator tokens and execution results -/

/-- Modelled from the spec: the operator token constants of the generated
package `parser` (`parser.TDTLParserADD`, `parser.TDTLLexerEQ`, ...), which is
not among the sources. The operator of a binary expression is an integer token
from a closed set covering `ADD, SUB, MUL, DIV, MOD, EQ, NE, LT, LTE, GT, GTE,
AND, OR, NOT`; the lexer and the parser constant of one operator are the same
token. `other` is any token outside that set. -/
inductive Op where
  | ADD
  | SUB
  | MUL
  | DIV
  | MOD
  | EQ
  | NE
  | LT
  | LTE
  | GT
  | GTE
  | AND
  | OR
  | NOT
  | other (tok : Int)
  deriving DecidableEq, Repr

/-- The run-time panics of the Go code modelled here. -/
inductive Panic where
  | integerDivideByZero
  | uncomparableType
  deriving DecidableEq, Repr

/-- The result of running a call: it returns `a`, it panics, or the recursion
budget of the model ran out before it returned. -/
inductive Exec (α : Type) where
  | ret (a : α)
  | panic (p : Panic)
  | outOfFuel
  deriving DecidableEq, Repr

/-- Sequencing of two computations: the second runs on the value the first
returns; a panic or an exhausted budget of the first is the result. -/
def Exec.bind {α β : Type} (x : Exec α) (f : α → Exec β) : Exec β :=
  match x with
  | .ret a => f a
  | .panic p => .panic p
  | .outOfFuel => .outOfFuel

/-! ## Binary operators (`evaluator.go`) -/

/-- The function `isBooleanOP`. -/
def isBooleanOP (op : Op) : Bool :=
  match op with
  | .EQ => true
  | .GT => true
  | .LT => true
  | .GTE => true
  | .LTE => true
  | _ => false

/-- The function `isLogicOP`. -/
def isLogicOP (op : Op) : Bool :=
  match op with
  | .AND => true
  | .OR => true
  | .NOT => true
  | _ => false

/-- The function `evalBinaryInt` on `int64` operands. `+ - *` wrap around;
`/` and `%` truncate toward zero, and `%` by zero is Go's integer-divide-by-zero
panic (only `DIV` tests `rhs == 0`). -/
def evalBinaryInt {F : Type} (op : Op) (lhs rhs : Int) : Exec (Node F) :=
  match op with
  | .ADD => .ret (.IntNode (wrapInt64 (lhs + rhs)))
  | .SUB => .ret (.IntNode (wrapInt64 (lhs - rhs)))
  | .MUL => .ret (.IntNode (wrapInt64 (lhs * rhs)))
  | .DIV => if rhs = 0 then .ret UNDEFINED_RESULT else .ret (.IntNode (wrapInt64 (Int.tdiv lhs rhs)))
  | .MOD => if rhs = 0 then .panic .integerDivideByZero else .ret (.IntNode (Int.tmod lhs rhs))
  | .EQ => .ret (.BoolNode (lhs == rhs))
  | .NE => .ret (.BoolNode (lhs != rhs))
  | .LT => .ret (.BoolNode (lhs < rhs))
  | .LTE => .ret (.BoolNode (lhs ≤ rhs))
  | .GT => .ret (.BoolNode (lhs > rhs))
  | .GTE => .ret (.BoolNode (lhs ≥ rhs))
  | _ => .ret UNDEFINED_RESULT

/-- The function `evalBinaryFloat`. -/
def evalBinaryFloat {F : Type} (fo : Float64Ops F) (op : Op) (lhs rhs : F) : Node F :=
  match op with
  | .ADD => .FloatNode (fo.add lhs rhs)
  | .SUB => .FloatNode (fo.sub lhs rhs)
  | .MUL => .FloatNode (fo.mul lhs rhs)
  | .DIV => if fo.eq rhs (fo.ofInt 0) then UNDEFINED_RESULT else .FloatNode (fo.div lhs rhs)
  | .MOD => .FloatNode (fo.mod lhs rhs)
  | .EQ => .BoolNode (fo.eq lhs rhs)
  | .NE => .BoolNode (!fo.eq lhs rhs)
  | .LT => .BoolNode (fo.lt lhs rhs)
  | .LTE => .BoolNode (fo.le lhs rhs)
  | .GT => .BoolNode (fo.lt rhs lhs)
  | .GTE => .BoolNode (fo.le rhs lhs)
  | _ => UNDEFINED_RESULT

/-- The function `evalBinaryBool`. -/
def evalBinaryBool {F : Type} (op : Op) (lhs rhs : Bool) : Node F :=
  match op with
  | .AND => .BoolNode (lhs && rhs)
  | .OR => .BoolNode (lhs || rhs)
  | .EQ => .BoolNode (lhs == rhs)
  | .NE => .BoolNode (lhs != rhs)
  | .NOT => .BoolNode (!rhs)
  | _ => UNDEFINED_RESULT

/-- The function `evalBinaryString`; `evalBinary` is the function it calls back
into when the operator is not one of `isBooleanOP`. -/
def evalBinaryString {F : Type} (fo : Float64Ops F)
    (evalBinary : Op → Node F → Node F → Exec (Node F)) (op : Op) (lhs rhs : GoString) :
    Exec (Node F) :=
  if !isBooleanOP op then
    evalBinary op (StringNode.To fo lhs .Number) (StringNode.To fo rhs .Number)
  else
    let ret := Compare lhs rhs
    match op with
    | .EQ => .ret (.BoolNode (ret == 0))
    | .LT => .ret (.BoolNode (ret < 0))
    | .LTE => .ret (.BoolNode (ret ≤ 0))
    | .GT => .ret (.BoolNode (ret > 0))
    | .GTE => .ret (.BoolNode (ret ≥ 0))
    | .NE => .ret (.BoolNode (ret != 0))
    | _ => .ret UNDEFINED_RESULT

/-- The function `evalBinary`. Each recursive call of the source spends one
unit of `fuel`. The type switch has a case for `*JSONNode` only: a `JSONNode`
held by value takes the `default` branch (as left operand) or none of the
inner cases (as right operand). -/
def evalBinary {F : Type} (fo : Float64Ops F) : Nat → Op → Node F → Node F → Exec (Node F)
  | 0, _, _, _ => .outOfFuel
  | fuel + 1, op, lhs, rhs =>
    match lhs with
    | .StringNode l =>
      match rhs with
      | .FloatNode _ => evalBinary fo fuel op (StringNode.To fo l .Number) rhs
      | .IntNode _ => evalBinary fo fuel op (StringNode.To fo l .Number) rhs
      | .BoolNode _ => evalBinary fo fuel op (StringNode.To fo l .Bool) rhs
      | .StringNode r => evalBinaryString fo (evalBinary fo fuel) op l r
      | _ => .ret UNDEFINED_RESULT
    | .FloatNode l =>
      match rhs with
      | .FloatNode r => .ret (evalBinaryFloat fo op l r)
      | .IntNode r => .ret (evalBinaryFloat fo op l (fo.ofInt r))
      | .StringNode r =>
        match StringNode.To fo r .Float with
        | .FloatNode r => .ret (evalBinaryFloat fo op l r)
        | _ => .ret UNDEFINED_RESULT
      | _ => .ret UNDEFINED_RESULT
    | .IntNode l =>
      match rhs with
      | .IntNode r => evalBinaryInt op l r
      | .FloatNode r => .ret (evalBinaryFloat fo op (fo.ofInt l) r)
      | .StringNode r =>
        match StringNode.To fo r .Number with
        | .FloatNode r => .ret (evalBinaryFloat fo op (fo.ofInt l) r)
        | .IntNode r => evalBinaryInt op l r
        | _ => .ret UNDEFINED_RESULT
      | _ => .ret UNDEFINED_RESULT
    | .BoolNode l =>
      match rhs with
      | .BoolNode r => .ret (evalBinaryBool op l r)
      | .StringNode r =>
        match StringNode.To fo r .Bool with
        | .BoolNode r => .ret (evalBinaryBool op l r)
        | _ => .ret UNDEFINED_RESULT
      | .JSONNodeRef _ _ =>
        if isBooleanOP op then evalBinary fo fuel op (.BoolNode false) rhs
        else .ret UNDEFINED_RESULT
      | _ => .ret UNDEFINED_RESULT
    | .JSONNodeRef _ _ =>
      if isBooleanOP op then .ret (.BoolNode false)
      else if isLogicOP op then evalBinary fo fuel op (.BoolNode false) rhs
      else .ret UNDEFINED_RESULT
    | .JSONNode _ => .ret UNDEFINED_RESULT

/-- The function `evalBinaryOverload`: the overload of `+` on strings. `none`
is the nil result that sends the caller on to `evalBinary`. Each recursive
call of the source spends one unit of `fuel`. -/
def evalBinaryOverload {F : Type} (fo : Float64Ops F) :
    Nat → Op → Node F → Node F → Exec (Option (Node F))
  | 0, _, _, _ => .outOfFuel
  | fuel + 1, op, lhs, rhs =>
    match op with
    | .ADD =>
      match lhs, rhs with
      | .StringNode l, .IntNode r =>
        evalBinaryOverload fo fuel op (.StringNode l) (IntNode.To fo r .String)
      | .StringNode l, .FloatNode r =>
        evalBinaryOverload fo fuel op (.StringNode l) (FloatNode.To fo r .String)
      | .StringNode l, .StringNode r => .ret (some (.StringNode (l ++ r)))
      | .IntNode l, .StringNode r =>
        evalBinaryOverload fo fuel op (IntNode.To fo l .String) (.StringNode r)
      | .FloatNode l, .StringNode r =>
        evalBinaryOverload fo fuel op (FloatNode.To fo l .String) (.StringNode r)
      | _, _ => .ret none
    | _ => .ret none

/-! ## The expression AST and the context -/

mutual
/-- Modelled from the spec: the expression AST the evaluator consumes, whose
Go declarations (`Expr`, `SelectStatementExpr`, `FieldsExpr`, `FilterExpr`,
`BinaryExpr`, `CallExpr`, `JSONPathExpr`, `SwitchExpr`, `DimensionsExpr`,
`WindowExpr`) are not among the sources; the fields are those the evaluator
reads. `nil` is the nil interface value, `Lit` a literal node used as an
expression. -/
inductive Expr (F : Type) where
  | nil
  | Select (fields : List (FieldExpr F)) (filter : Option (FilterExpr F))
      (topic : Option (List GoString)) (dimensions : Bool)
  | Fields (list : List (FieldExpr F))
  | Filter (f : FilterExpr F)
  | Binary (Op : Op) (LHS RHS : Expr F)
  | Call (c : CallExpr F)
  | JSONPath (val : GoString)
  | Switch (s : SwitchExpr F)
  | Dimensions
  | Window
  | Lit (n : Node F)
/-- One field of a field list: its expression and its alias. -/
inductive FieldExpr (F : Type) where
  | mk (exp : Expr F) (aliasName : GoString)
/-- The filter of a statement. -/
inductive FilterExpr (F : Type) where
  | mk (exp : Expr F)
/-- A function call: the function's name and the argument expressions. -/
inductive CallExpr (F : Type) where
  | mk (key : GoString) (args : List (Expr F))
/-- One `case` of a switch. -/
inductive CaseExpr (F : Type) where
  | mk (whenExp : Expr F) (thenExp : Expr F)
/-- A switch: the scrutinee, the cases in order and the default (`nil` when
absent). -/
inductive SwitchExpr (F : Type) where
  | mk (exp : Expr F) (list : List (CaseExpr F)) (last : Expr F)
end

/-- The test `expr == nil` on an expression. -/
def Expr.isNil {F : Type} : Expr F → Bool
  | .nil => true
  | _ => false

/-- The field `exp` of a field. -/
def FieldExpr.exp {F : Type} : FieldExpr F → Expr F
  | .mk e _ => e

/-- The field `alias` of a field. -/
def FieldExpr.alias {F : Type} : FieldExpr F → GoString
  | .mk _ a => a

/-- The field `exp` of a filter. -/
def FilterExpr.exp {F : Type} : FilterExpr F → Expr F
  | .mk e => e

/-- The field `args` of a call. -/
def CallExpr.args {F : Type} : CallExpr F → List (Expr F)
  | .mk _ a => a

/-- The field `when` of a case. -/
def CaseExpr.whenExp {F : Type} : CaseExpr F → Expr F
  | .mk w _ => w

/-- The field `then` of a case. -/
def CaseExpr.thenExp {F : Type} : CaseExpr F → Expr F
  | .mk _ t => t

/-- The field `exp` of a switch. -/
def SwitchExpr.exp {F : Type} : SwitchExpr F → Expr F
  | .mk e _ _ => e

/-- The field `list` of a switch. -/
def SwitchExpr.list {F : Type} : SwitchExpr F → List (CaseExpr F)
  | .mk _ l _ => l

/-- The field `last` of a switch. -/
def SwitchExpr.last {F : Type} : SwitchExpr F → Expr F
  | .mk _ _ l => l

/-- Modelled from the spec: the interface `Context` the evaluator consumes
(its Go declaration is not among the sources): `Value` resolves a JSON path,
`Call` dispatches a function call on the evaluated arguments. -/
structure Context (F : Type) where
  Value : GoString → Node F
  Call : CallExpr F → List (Node F) → Node F

/-- The signature of the package function `set(raw, path, value)` of
`collectjs_patch.go`, which is `sjson.SetRawBytes` of a package that is not
among the sources: the new bytes and the error (`none` for nil). -/
abbrev SetFn := List UInt8 → GoString → List UInt8 → List UInt8 × Option GoString

/-! ## The evaluator (`evaluator.go`)

The functions that call `eval` take it as the argument `ev` (the source's
`eval(ctx, ·)`); `eval` below ties the knot. -/

/-- Go's `==` on two interface values of type `Node`: false for different
dynamic types, the comparison of the carriers for the scalar types, pointer
identity for `*JSONNode`, and a run-time panic for two `JSONNode` structs
(a struct with a slice field is not comparable). -/
def interfaceEq {F : Type} (fo : Float64Ops F) : Node F → Node F → Exec Bool
  | .BoolNode a, .BoolNode b => .ret (a == b)
  | .IntNode a, .IntNode b => .ret (a == b)
  | .FloatNode a, .FloatNode b => .ret (fo.eq a b)
  | .StringNode a, .StringNode b => .ret (a == b)
  | .JSONNode _, .JSONNode _ => .panic .uncomparableType
  | .JSONNodeRef a _, .JSONNodeRef b _ => .ret (a == b)
  | _, _ => .ret false

/-- The function `evalBinaryExpr`. -/
def evalBinaryExpr {F : Type} (fo : Float64Ops F) (fuel : Nat) (ev : Expr F → Exec (Node F))
    (op : Op) (LHS RHS : Expr F) : Exec (Node F) :=
  (ev LHS).bind fun lhs =>
  (ev RHS).bind fun rhs =>
  (evalBinaryOverload fo fuel op lhs rhs).bind fun ret =>
  match ret with
  | some ret => .ret ret
  | none => evalBinary fo fuel op lhs rhs

/-- The loop of `evalCallExpr` that evaluates the arguments in order. -/
def evalArgs {F : Type} (ev : Expr F → Exec (Node F)) : List (Expr F) → Exec (List (Node F))
  | [] => .ret []
  | e :: rest => (ev e).bind fun v => (evalArgs ev rest).bind fun vs => .ret (v :: vs)

/-- The function `evalCallExpr`; `hook` is the function currently bound to the
package variable `EvalCallExpr`. -/
def evalCallExpr {F : Type} (ctx : Context F) (hook : Context F → CallExpr F → Node F)
    (ev : Expr F → Exec (Node F)) (expr : CallExpr F) : Exec (Node F) :=
  if expr.args.length = 0 then .ret (ctx.Call expr [])
  else
    (evalArgs ev expr.args).bind fun values =>
    let ret := ctx.Call expr values
    if ret.Type ≠ .Undefined then .ret ret else .ret (hook ctx expr)

/-- The initial value of the package variable `EvalCallExpr`. -/
def EvalCallExpr {F : Type} (_ctx : Context F) (_expr : CallExpr F) : Node F := UNDEFINED_RESULT

/-- The `for` loop of `evalSwitchExpr`: `some n` when the loop returned `n`,
`none` when it ran to its end. -/
def evalSwitchCases {F : Type} (fo : Float64Ops F) (ev : Expr F → Exec (Node F)) (value : Node F) :
    List (CaseExpr F) → Exec (Option (Node F))
  | [] => .ret none
  | e :: rest =>
    (ev e.whenExp).bind fun w =>
    (interfaceEq fo value w).bind fun same =>
    if same then (ev e.thenExp).bind fun n => .ret (some n)
    else evalSwitchCases fo ev value rest

/-- The function `evalSwitchExpr`. -/
def evalSwitchExpr {F : Type} (fo : Float64Ops F) (ev : Expr F → Exec (Node F))
    (expr : SwitchExpr F) : Exec (Node F) :=
  (ev expr.exp).bind fun value =>
  (evalSwitchCases fo ev value expr.list).bind fun r =>
  match r with
  | some n => .ret n
  | none => if !expr.last.isNil then ev expr.last else .ret UNDEFINED_RESULT

/-- The function `evalJSONExpr`. -/
def evalJSONExpr {F : Type} (ctx : Context F) (val : GoString) : Node F := ctx.Value val

/-- Modelled from the spec: the struct behind `New("{}")`, "an empty JSON
Object": a copy of the bytes `{}`, the type tag `Object` and no error.
`newCollect` takes the tag and the error from `jsonparser.Get`, which is not
among the sources. -/
def emptyObject : JSONNode :=
  { value := str "{}", path := [], datatype := .Object, offset := 0, err := none }

/-- The method `Collect.Set`: `cc.value, cc.err = set(cc.value, path, value.Raw())`. -/
def Collect.Set {F : Type} (fo : Float64Ops F) (set : SetFn) (cc : JSONNode) (path : GoString)
    (value : Node F) : JSONNode :=
  let r := set cc.value path (value.Raw fo)
  { cc with value := r.1, err := r.2 }

/-- The `for` loop of `evalFieldListExpr`, on the document `v` built so far. -/
def evalFieldListLoop {F : Type} (fo : Float64Ops F) (set : SetFn) (ev : Expr F → Exec (Node F)) :
    JSONNode → List (FieldExpr F) → Exec JSONNode
  | v, [] => .ret v
  | v, expr :: rest =>
    (ev expr.exp).bind fun ret =>
    if expr.alias ≠ [] then evalFieldListLoop fo set ev (Collect.Set fo set v expr.alias ret) rest
    else evalFieldListLoop fo set ev v rest

/-- The function `evalFieldListExpr`; `addr` identifies the pointer that
`New("{}")` allocates and the function returns. -/
def evalFieldListExpr {F : Type} (fo : Float64Ops F) (set : SetFn) (addr : Nat)
    (ev : Expr F → Exec (Node F)) (list : List (FieldExpr F)) : Exec (Node F) :=
  (evalFieldListLoop fo set ev emptyObject list).bind fun v => .ret (.JSONNodeRef addr v)

/-- The function `eval`. Each nested call of the source spends one unit of
`fuel`; the same budget is given to `evalBinary` and `evalBinaryOverload`. -/
def eval {F : Type} (fo : Float64Ops F) (hook : Context F → CallExpr F → Node F) (ctx : Context F) :
    Nat → Expr F → Exec (Node F)
  | 0, _ => .outOfFuel
  | fuel + 1, expr =>
    match expr with
    | .nil => .ret UNDEFINED_RESULT
    | .Filter f => eval fo hook ctx fuel f.exp
    | .Binary op l r => evalBinaryExpr fo fuel (eval fo hook ctx fuel) op l r
    | .JSONPath val => .ret (evalJSONExpr ctx val)
    | .Switch s => evalSwitchExpr fo (eval fo hook ctx fuel) s
    | .Lit (.BoolNode b) => .ret (.BoolNode b)
    | .Lit (.IntNode i) => .ret (.IntNode i)
    | .Lit (.FloatNode f) => .ret (.FloatNode f)
    | .Lit (.StringNode s) => .ret (.StringNode s)
    | .Lit (.JSONNode j) => .ret (.JSONNode j)
    | .Call c => evalCallExpr ctx hook (eval fo hook ctx fuel) c
    | _ => .ret UNDEFINED_RESULT

/-- The interpretation of a filter's value: `switch node := node.(type)
{ case BoolNode: return bool(node) }` followed by `return false`. -/
def boolOfNode {F : Type} : Node F → Bool
  | .BoolNode b => b
  | _ => false

/-- The function `evalFilter`. -/
def evalFilter {F : Type} (ev : Expr F → Exec (Node F)) (expr : Expr F) : Exec Bool :=
  match expr with
  | .nil => .ret true
  | .Select _ filter _ _ =>
    match filter with
    | none => .ret true
    | some f =>
      if f.exp.isNil then .ret true
      else (ev (.Filter f)).bind fun node => .ret (boolOfNode node)
  | .Fields _ => .ret false
  | e => (ev e).bind fun node => .ret (boolOfNode node)

/-- The function `evalRuleQL`. -/
def evalRuleQL {F : Type} (fo : Float64Ops F) (set : SetFn) (addr : Nat)
    (hook : Context F → CallExpr F → Node F) (ctx : Context F) (fuel : Nat) (expr : Expr F) :
    Exec (Node F) :=
  match expr with
  | .nil => .ret UNDEFINED_RESULT
  | .Select fields _ _ _ => evalFieldListExpr fo set addr (eval fo hook ctx fuel) fields
  | .Fields list => evalFieldListExpr fo set addr (eval fo hook ctx fuel) list
  | .Filter f => eval fo hook ctx fuel f.exp
  | .Binary op l r => evalBinaryExpr fo fuel (eval fo hook ctx fuel) op l r
  | .Call c => evalCallExpr ctx hook (eval fo hook ctx fuel) c
  | .JSONPath val => .ret (evalJSONExpr ctx val)
  | .Lit (.BoolNode b) => .ret (.BoolNode b)
  | .Lit (.IntNode i) => .ret (.IntNode i)
  | .Lit (.FloatNode f) => .ret (.FloatNode f)
  | .Lit (.StringNode s) => .ret (.StringNode s)
  | .Lit (.JSONNode j) => .ret (.JSONNode j)
  | _ => .ret UNDEFINED_RESULT

/-- The function `evalSelect`. -/
def evalSelect {F : Type} (fo : Float64Ops F) (set : SetFn) (addr : Nat)
    (ev : Expr F → Exec (Node F)) (expr : Expr F) : Exec (Node F) :=
  match expr with
  | .Select fields _ _ _ => evalFieldListExpr fo set addr ev fields
  | .Fields list => evalFieldListExpr fo set addr ev list
  | _ => .ret UNDEFINED_RESULT

/-! ## Specification-level definitions -/

/-- The scalar variants `BoolNode`, `IntNode`, `FloatNode`, `StringNode`. -/
def Node.isScalar {F : Type} : Node F → Bool
  | .BoolNode _ => true
  | .IntNode _ => true
  | .FloatNode _ => true
  | .StringNode _ => true
  | _ => false

/-- Two scalar nodes of the same variant with the same carrier value; two
`float64` carriers are the same when Go's `==` holds of them. -/
def sameScalar {F : Type} (fo : Float64Ops F) : Node F → Node F → Bool
  | .BoolNode a, .BoolNode b => a == b
  | .IntNode a, .IntNode b => a == b
  | .FloatNode a, .FloatNode b => fo.eq a b
  | .StringNode a, .StringNode b => a == b
  | _, _ => false

/-- The first case, in list order, whose `when` value (given by `ws`) is the
same scalar as the scrutinee `value`. -/
def firstMatch {F : Type} (fo : Float64Ops F) (value : Node F) (ws : CaseExpr F → Node F)
    (list : List (CaseExpr F)) : Option (CaseExpr F) :=
  list.find? fun c => sameScalar fo value (ws c)

/-- A context in which every path holds the string `"c"` and no function is
known. -/
def exampleContext : Context Int :=
  ⟨fun _ => .StringNode (str "c"), fun _ _ => UNDEFINED_RESULT⟩

/-- The switch `switch e.k case "a" then 1 case "b" then 2 else 0`. -/
def exampleSwitch : SwitchExpr Int :=
  .mk (.JSONPath (str "e.k"))
    [.mk (.Lit (.StringNode (str "a"))) (.Lit (.IntNode 1)),
     .mk (.Lit (.StringNode (str "b"))) (.Lit (.IntNode 2))]
    (.Lit (.IntNode 0))

/-- The node a literal `when` expression stands for. -/
def whenLiteral : CaseExpr Int → Node Int
  | .mk (.Lit n) _ => n
  | _ => UNDEFINED_RESULT

/-- The struct behind `NewBool(true)`: the text `true` with the type tag `Bool`. -/
def trueDocument : JSONNode :=
  { value := str "true", path := [], datatype := .Bool, offset := 0, err := none }

/-- One step of the projection: set the alias key of `f` to `value` in the
document `v` when the alias is non-empty, leave `v` unchanged otherwise. -/
def projectField {F : Type} (fo : Float64Ops F) (set : SetFn) (v : JSONNode) (f : FieldExpr F)
    (value : Node F) : JSONNode :=
  if f.alias ≠ [] then Collect.Set fo set v f.alias value else v

/-- The projection as the specification words it: start from the empty object
`{}` and, for each field in declaration order, set the alias key to the value
of the field's expression (given by `vs`) when the alias is non-empty. -/
def projection {F : Type} (fo : Float64Ops F) (set : SetFn) (vs : FieldExpr F → Node F)
    (list : List (FieldExpr F)) : JSONNode :=
  list.foldl (fun v f => projectField fo set v f (vs f)) emptyObject

/-- The aliases of a field list in declaration order, empty aliases left out. -/
def aliases {F : Type} (list : List (FieldExpr F)) : List GoString :=
  (list.filter fun f => f.alias ≠ []).map FieldExpr.alias

/-- Modelled from the spec: the contract of `set(raw, path, value)`, whose
implementation (`sjson.SetRawBytes`) is not among the sources: set "replaces
existing value at the leaf; preserves sibling order", so on a document of the
class `Doc` (with `{}` in it) setting a simple key that the document does not
have, to a raw value of the class `RawValue`, stays in the class and puts the
key after the keys the document has. `keys` reads the keys of a document in
textual order. -/
structure SetContract (set : SetFn) (keys : List UInt8 → List GoString)
    (Doc : List UInt8 → Prop) (Simple : GoString → Prop) (RawValue : List UInt8 → Prop) :
    Prop where
  doc_empty : Doc (str "{}")
  keys_empty : keys (str "{}") = []
  set_doc : ∀ d k v, Doc d → Simple k → RawValue v → Doc (set d k v).1
  set_new : ∀ d k v, Doc d → Simple k → RawValue v → k ∉ keys d →
    keys (set d k v).1 = keys d ++ [k]

/-! ## A reference `set` on flat objects

A small implementation of `set` for documents of the form
`{"k1":v1,"k2":v2}`, used to run the projection on concrete inputs and to show
that the contract `SetContract` can be met. Keys hold no quote; raw values hold
no comma and no closing brace. -/

/-- The text of one member: the quoted key, a colon, the raw value. -/
def renderMember (m : GoString × List UInt8) : List UInt8 := [34] ++ m.1 ++ [34, 58] ++ m.2

/-- The text of the members after the opening brace, closing brace included. -/
def renderMembers : List (GoString × List UInt8) → List UInt8
  | [] => [125]
  | [m] => renderMember m ++ [125]
  | m :: m2 :: ms => renderMember m ++ [44] ++ renderMembers (m2 :: ms)

/-- The text of a flat object. -/
def flatRender (ms : List (GoString × List UInt8)) : List UInt8 := 123 :: renderMembers ms

/-- The members of the text after the opening brace of a non-empty flat
object, in textual order; one unit of `fuel` per member. -/
def readMembers : Nat → List UInt8 → Option (List (GoString × List UInt8))
  | 0, _ => none
  | fuel + 1, d =>
    match d with
    | [] => none
    | b :: rest =>
      if b ≠ 34 then none
      else
        let kr := rest.span fun c => c != 34
        match kr.2 with
        | _ :: c :: r2 =>
          if c ≠ 58 then none
          else
            let vr := r2.span fun c => c != 44 && c != 125
            match vr.2 with
            | [] => none
            | t :: r3 =>
              if t = 125 then (if r3 = [] then some [(kr.1, vr.1)] else none)
              else (readMembers fuel r3).map fun ms => (kr.1, vr.1) :: ms
        | _ => none

/-- The members of a flat object, `none` when the text is not one. -/
def flatMembers (d : List UInt8) : Option (List (GoString × List UInt8)) :=
  match d with
  | [] => none
  | b :: rest =>
    if b ≠ 123 then none
    else if rest = [125] then some []
    else readMembers rest.length rest

/-- Replace the value of the key `k` where it stands, or add the member as the
last one when the key is new. -/
def upsert (k : GoString) (v : List UInt8) :
    List (GoString × List UInt8) → List (GoString × List UInt8)
  | [] => [(k, v)]
  | m :: ms => if m.1 = k then (k, v) :: ms else m :: upsert k v ms

/-- The reference `set` on flat objects. -/
def flatSet : SetFn := fun d k v =>
  match flatMembers d with
  | none => (d, some (str "not a flat object"))
  | some ms => (flatRender (upsert k v ms), none)

/-- The keys of a flat object in textual order. -/
def flatKeys (d : List UInt8) : List GoString :=
  match flatMembers d with
  | none => []
  | some ms => ms.map Prod.fst

/-- A key the reference `set` supports: non-empty, without a quote. -/
def flatKeyOk (k : GoString) : Prop := k ≠ [] ∧ ∀ b ∈ k, b ≠ 34

/-- A raw value the reference `set` supports: non-empty, without a comma or a
closing brace. -/
def flatValueOk (v : List UInt8) : Prop := v ≠ [] ∧ ∀ b ∈ v, b ≠ 44 ∧ b ≠ 125

/-- The documents of the reference `set`: the renderings of member lists with
supported keys and values. -/
def flatDoc (d : List UInt8) : Prop :=
  ∃ ms : List (GoString × List UInt8), d = flatRender ms ∧ ∀ m ∈ ms, flatKeyOk m.1 ∧ flatValueOk m.2

instance (k : GoString) : Decidable (flatKeyOk k) := by
  unfold flatKeyOk
  exact inferInstance

instance (v : List UInt8) : Decidable (flatValueOk v) := by
  unfold flatValueOk
  exact inferInstance

/-- The field list `123 as p1, true (no alias), "g" as p2`. -/
def exampleFields : List (FieldExpr Int) :=
  [.mk (.Lit (.IntNode 123)) (str "p1"), .mk (.Lit (.BoolNode true)) [],
   .mk (.Lit (.StringNode (str "g"))) (str "p2")]

/-- The node a literal field expression stands for. -/
def fieldLiteral : FieldExpr Int → Node Int
  | .mk (.Lit n) _ => n
  | _ => UNDEFINED_RESULT

/-- The text of the projection of `exampleFields`. -/
def exampleProjection : List UInt8 := str "\x7b\"p1\":123,\"p2\":\"g\"\x7d"

/-- The document with the text `exampleProjection`. -/
def exampleDocument : JSONNode :=
  { value := exampleProjection, path := [], datatype := .Object, offset := 0, err := none }

/-! ## Conversions: specification-level definitions -/

/-- The method `Error` of the interface `Node`: nil for the scalar variants,
the field `err` for a `JSONNode`. -/
def Node.Error {F : Type} : Node F → Option GoString
  | .JSONNode j => j.err
  | .JSONNodeRef _ j => j.err
  | _ => none

/-- The targets a text converts to, as the specification words it: a string
maps to itself, "String↔scalar parses" and "String→Number inspects for `.` to
choose Int or Float". -/
def convertibleText {F : Type} (fo : Float64Ops F) (s : GoString) (typ : NodeType) : Bool :=
  match typ with
  | .String => true
  | .Bool => (parseBool s).isSome
  | .Int => (parseInt s).isSome
  | .Float => (fo.parse s).isSome
  | .Number => if 46 ∈ s then (fo.parse s).isSome else (parseInt s).isSome
  | _ => false

/-- The pairs of a node and a target for which the specification has a
conversion rule that succeeds: "every variant maps trivially to itself;
numeric ↔ numeric widens/narrows; String↔scalar parses; any→Null/Undefined
yields Undefined; JsonN coerces via its string representation". -/
def convertible {F : Type} (fo : Float64Ops F) (v : Node F) (typ : NodeType) : Bool :=
  match v with
  | .BoolNode _ => typ = .Bool ∨ typ = .String
  | .IntNode _ => typ = .Number ∨ typ = .Int ∨ typ = .Float ∨ typ = .String
  | .FloatNode _ => typ = .Number ∨ typ = .Int ∨ typ = .Float ∨ typ = .String
  | .StringNode s => convertibleText fo s typ
  | .JSONNode j =>
    typ = .JSON ∨ typ = .Object ∨ typ = .Array ∨ convertibleText fo j.value typ
  | .JSONNodeRef _ j =>
    typ = .JSON ∨ typ = .Object ∨ typ = .Array ∨ convertibleText fo j.value typ

/-! ## The JSON libraries and the document layer (`collectjs.go`, `collectjs_patch.go`)

The packages `jsonparser`, `gjson` and `sjson` and the path translators
`path2GJSON` and `path2JSONPARSER` are not among the sources: the functions the
document layer calls are the fields of a `JSONLib`. An error value is its
message. -/

/-- Modelled from the spec: the type `jsonparser.ValueType`; "types produced by
the scanner are: NotExist, String, Number, Object, Array, Boolean, Null,
Unknown". -/
inductive ValueType where
  | NotExist
  | String
  | Number
  | Object
  | Array
  | Boolean
  | Null
  | Unknown
  deriving DecidableEq, Repr

/-- The type `gjson.Type`, with the six constants that are the keys of the
table `gjsonDatetype`. -/
inductive GjsonType where
  | Null
  | False
  | Number
  | String
  | True
  | JSON
  deriving DecidableEq, Repr

/-- The fields `Type`, `Raw` and `Str` of a `gjson.Result`, which the document
layer reads. -/
structure Result where
  typ : GjsonType
  Raw : GoString
  Str : GoString
  deriving DecidableEq, Repr

/-- The method `gjson.Result.IsArray`: a JSON result whose raw text opens with
a bracket. -/
def Result.IsArray (t : Result) : Bool := t.typ = .JSON ∧ t.Raw.head? = some 91

/-- The method `gjson.Result.IsObject`: a JSON result whose raw text opens with
a brace. -/
def Result.IsObject (t : Result) : Bool := t.typ = .JSON ∧ t.Raw.head? = some 123

/-- The functions of the packages outside the sources that the document layer
calls. `jsonparserGet` is `jsonparser.Get(data)` without keys, of which the
caller keeps the value type and the error; `jsonparserObjectEach` and
`jsonparserArrayEach` give the arguments of the successive calls of the
callback; `sortBy` is `By(fn).Sort(carr)`. -/
structure JSONLib where
  jsonparserGet : List UInt8 → ValueType × Option GoString
  gjsonGetBytes : List UInt8 → GoString → Result
  path2GJSON : GoString → GoString
  path2JSONPARSER : GoString → List GoString
  sjsonSetRawBytes : SetFn
  jsonparserAppend : List UInt8 → List UInt8 → List GoString → List UInt8 × Option GoString
  jsonparserSet : List UInt8 → List UInt8 → List GoString → List UInt8 × Option GoString
  jsonparserDelete : List UInt8 → List GoString → List UInt8
  jsonparserObjectEach : List UInt8 → List (GoString × List UInt8 × ValueType)
  jsonparserArrayEach : List UInt8 → List (List UInt8 × ValueType)
  sortBy : (JSONNode → JSONNode → Bool) → List JSONNode → List JSONNode

/-- The error value `jsonparser.KeyPathNotFoundError`. -/
def KeyPathNotFoundError : GoString := str "Key path not found"

/-- The table `jsonparserDatetype`. -/
def jsonparserDatetype : ValueType → NodeType
  | .NotExist => .Null
  | .String => .String
  | .Number => .Number
  | .Object => .Object
  | .Array => .Array
  | .Boolean => .Bool
  | .Null => .Null
  | .Unknown => .Null

/-- The table `gjsonDatetype`. -/
def gjsonDatetype : GjsonType → NodeType
  | .Null => .Null
  | .Number => .Number
  | .String => .String
  | .True => .Bool
  | .False => .Bool
  | .JSON => .JSON

/-- The function `datetype` on a `jsonparser.ValueType`. -/
def datetypeOfValueType (data : ValueType) : NodeType := jsonparserDatetype data

/-- The function `datetype` on a `gjson.Result`. -/
def datetypeOfResult (data : Result) : NodeType :=
  let typ := gjsonDatetype data.typ
  if typ = .JSON then
    if data.IsArray then .Array
    else if data.IsObject then .Object
    else typ
  else typ

/-- The function `newCollect`. The slice `collect.value[1 : len-1]` of the
`String` case drops the first and the last byte of the copy of `data`. -/
def newCollect (lib : JSONLib) (data : List UInt8) : JSONNode :=
  let r := lib.jsonparserGet data
  match r.2 with
  | none =>
    let datatype := datetypeOfValueType r.1
    { value := if datatype = .String then (data.drop 1).dropLast else data,
      path := [], datatype := datatype, offset := 0, err := none }
  | some err => { value := data, path := [], datatype := .Undefined, offset := 0, err := some err }

/-- The function `newCollectFromJsonResult`. -/
def newCollectFromJsonResult (ret : Result) : JSONNode :=
  let datatype := datetypeOfResult ret
  { value := if datatype = .String then ret.Str else ret.Raw,
    path := [], datatype := datatype, offset := 0, err := none }

/-- The function `newCollectFromJsonparserResult`. -/
def newCollectFromJsonparserResult (dataType : ValueType) (value : List UInt8) : JSONNode :=
  { value := value, path := [], datatype := datetypeOfValueType dataType, offset := 0,
    err := none }

/-- The function `New` on a `string` or a `[]byte`. -/
def New (lib : JSONLib) (raw : List UInt8) : JSONNode := newCollect lib raw

/-- The struct behind `New("[]")`: the bytes `[]` with the type tag `Array` and
no error (see `emptyObject`). -/
def emptyArray : JSONNode :=
  { value := str "[]", path := [], datatype := .Array, offset := 0, err := none }

/-- The method `JSONNode.Raw`. -/
def JSONNode.Raw (r : JSONNode) : List UInt8 :=
  if r.datatype = .String then ([34] ++ r.value) ++ [34] else r.String

/-- The function `get` of `collectjs_patch.go`. -/
def get (lib : JSONLib) (raw : List UInt8) (path : GoString) : JSONNode :=
  newCollectFromJsonResult (lib.gjsonGetBytes raw (lib.path2GJSON path))

/-- The function `set` of `collectjs_patch.go`. -/
def set (lib : JSONLib) (raw : List UInt8) (path : GoString) (value : List UInt8) :
    List UInt8 × Option GoString :=
  lib.sjsonSetRawBytes raw path value

/-- The function `add` of `collectjs_patch.go`. -/
def add (lib : JSONLib) (raw : List UInt8) (path : GoString) (value : List UInt8) :
    List UInt8 × Option GoString :=
  lib.jsonparserAppend raw value (lib.path2JSONPARSER path)

/-- Go `strings.Join`. -/
def Join (elems : List GoString) (sep : GoString) : GoString :=
  match elems with
  | [] => []
  | [a] => a
  | a :: b :: rest => a ++ sep ++ Join (b :: rest) sep

/-- Go `strings.Replace(s, ".", "_", -1)`. -/
def replaceDots (s : GoString) : GoString := s.map fun b => if b = 46 then 95 else b

/-- The method `Collect.Get`: the document itself for an empty path, a new
document read by `get` otherwise. -/
def Collect.Get (lib : JSONLib) (cc : JSONNode) (path : List GoString) : JSONNode :=
  let absPath := Join path (str ".")
  if absPath = [] then cc else get lib cc.value absPath

/-- The body of `Collect.Set` on the raw bytes of the value. -/
def Collect.setRaw (lib : JSONLib) (cc : JSONNode) (path : GoString) (raw : List UInt8) :
    JSONNode :=
  let r := set lib cc.value path raw
  { cc with value := r.1, err := r.2 }

/-- The body of `Collect.Append` on the raw bytes of the value: `add`, and when
its error is `KeyPathNotFoundError` the fallback `set` of the bracketed value
on the bytes that `add` handed back. -/
def Collect.appendRaw (lib : JSONLib) (cc : JSONNode) (path : GoString) (raw : List UInt8) :
    JSONNode :=
  let r := add lib cc.value path raw
  let cc1 : JSONNode := { cc with value := r.1, err := r.2 }
  if cc1.err = some KeyPathNotFoundError then
    let setValue := str "[" ++ raw ++ str "]"
    let r2 := set lib cc1.value path setValue
    { cc1 with value := r2.1, err := r2.2 }
  else cc1

/-- The method `Collect.Append`. -/
def Collect.Append {F : Type} (fo : Float64Ops F) (lib : JSONLib) (cc : JSONNode)
    (path : GoString) (value : Node F) : JSONNode :=
  Collect.appendRaw lib cc path (value.Raw fo)

/-- The calls of the callback that `forEach` makes, in order: the members of
an `Object`, the elements of an `Array` under the keys `[0]`, `[1]`, ... -/
def forEachEntries (lib : JSONLib) (raw : List UInt8) (datatype : NodeType) :
    List (GoString × JSONNode) :=
  (if datatype = .Object then
      (lib.jsonparserObjectEach raw).map fun e =>
        (e.1, newCollectFromJsonparserResult e.2.2 e.2.1)
    else [])
  ++ (if datatype = .Array then
      (lib.jsonparserArrayEach raw).enum.map fun e =>
        (str "[" ++ natDigits e.1 ++ str "]", newCollectFromJsonparserResult e.2.2 e.2.1)
    else [])

/-- What a method with a pointer receiver leaves behind: the receiver after the
call, and the document it returns, `none` when the returned pointer is the
receiver itself. -/
structure CallResult where
  receiver : JSONNode
  returned : Option JSONNode
  deriving DecidableEq, Repr

/-- The result of `Collect.Merge`: the receiver `cc` after the call and whether
the returned pointer is the argument `mc` (otherwise it is `cc`). The argument
is left as it was (`mc.Foreach` stores back the bytes it iterated). -/
structure MergeResult where
  self : JSONNode
  returnsOther : Bool
  deriving DecidableEq, Repr

/-- The document behind the pointer that `Collect.Merge` returned. -/
def MergeResult.node (r : MergeResult) (mc : JSONNode) : JSONNode :=
  if r.returnsOther then mc else r.self

/-- The method `Collect.Merge`; `cc` and `mc` are distinct documents. -/
def Collect.Merge (lib : JSONLib) (cc mc : JSONNode) : MergeResult :=
  if cc.datatype ≠ .Object ∧ mc.datatype ≠ .Object then
    { self := { cc with err := some (str "datatype is not object") }, returnsOther := false }
  else if cc.datatype = .Null then { self := cc, returnsOther := true }
  else
    { self := (forEachEntries lib mc.value mc.datatype).foldl
        (fun cc e => Collect.setRaw lib cc e.1 e.2.Raw) cc,
      returnsOther := false }

/-- The inner loop of the callback of `Collect.MergeBy`: the stringified values
at the paths, up to the first empty one (`break`). -/
def mergeByKeys (lib : JSONLib) (value : JSONNode) : List GoString → List GoString
  | [] => []
  | path :: rest =>
    let keyValueRaw := (Collect.Get lib value [path]).String
    if keyValueRaw.length = 0 then [] else keyValueRaw :: mergeByKeys lib value rest

/-- The callback of `Collect.MergeBy` on the element `value`, as a step on the
document `ret`. The assignment `ret.err = err` stores the nil `err` of the
enclosing function. -/
def mergeByStep (lib : JSONLib) (paths : List GoString) (ret value : JSONNode) : JSONNode :=
  let keys := mergeByKeys lib value paths
  if keys.length = 0 then ret
  else
    let keyValue := replaceDots (Join keys (str "+"))
    let nv := (Collect.Merge lib (Collect.Get lib ret [keyValue]) value).node value
    let ret1 : JSONNode := if nv.err ≠ none then { ret with err := none } else ret
    Collect.setRaw lib ret1 keyValue nv.Raw

/-- The method `Collect.MergeBy`. -/
def Collect.MergeBy (lib : JSONLib) (c : JSONNode) (paths : List GoString) : CallResult :=
  if c.datatype ≠ .Array then
    { receiver := { c with err := some (str "MergeBy: datatype is not array") }, returned := none }
  else
    { receiver := c,
      returned := some ((forEachEntries lib c.value c.datatype).foldl
        (fun ret e => mergeByStep lib paths ret e.2) emptyObject) }

/-- The callback of `Collect.GroupBy` on the element `value`, as a step on the
document `ret`. -/
def groupByStep (lib : JSONLib) (path : GoString) (ret value : JSONNode) : JSONNode :=
  let keyValue := (get lib value.Raw path).String
  if keyValue.length = 0 then ret
  else Collect.appendRaw lib ret (replaceDots keyValue) value.Raw

/-- The method `Collect.GroupBy`. -/
def Collect.GroupBy (lib : JSONLib) (cc : JSONNode) (path : GoString) : CallResult :=
  if cc.datatype ≠ .Array then
    { receiver := { cc with err := some (str "datatype is not array") }, returned := none }
  else
    { receiver := cc,
      returned := some ((forEachEntries lib cc.value cc.datatype).foldl
        (fun ret e => groupByStep lib path ret e.2) emptyObject) }

/-- The method `Collect.SortBy`, as the receiver after the call. -/
def Collect.SortBy (lib : JSONLib) (cc : JSONNode) (fn : JSONNode → JSONNode → Bool) :
    JSONNode :=
  if cc.datatype ≠ .Array ∧ cc.datatype ≠ .Object then
    { cc with err := some (str "SortBy:datatype is not array or object") }
  else
    let carr := (forEachEntries lib cc.value cc.datatype).map fun e => e.2
    let ret := (lib.sortBy fn carr).foldl (fun ret c => Collect.appendRaw lib ret [] c.Raw)
      emptyArray
    { cc with value := ret.value, datatype := ret.datatype }
/-! ## A reference JSON library

A small implementation of the library functions on single-key paths, used to
run the document layer on concrete inputs and to show that the contracts below
can be met. It reads a value by its first byte: an array up to the first
closing bracket, an object up to the first closing brace, a string up to the
next quote, any other text up to a comma, a closing brace or a closing
bracket. -/

/-- The text of the value at the head of `d`, and the text after it. -/
def refReadValue (d : List UInt8) : Option (List UInt8 × List UInt8) :=
  match d with
  | [] => none
  | b :: rest =>
    if b = 91 ∨ b = 123 ∨ b = 34 then
      let close : UInt8 := if b = 91 then 93 else if b = 123 then 125 else 34
      let s := rest.span fun c => c != close
      match s.2 with
      | [] => none
      | c :: r => some (b :: (s.1 ++ [c]), r)
    else
      let s := d.span fun c => c != 44 && c != 125 && c != 93
      some (s.1, s.2)

/-- The members of the text after the opening brace of a non-empty object, in
textual order; one unit of `fuel` per member. -/
def refReadMembers : Nat → List UInt8 → Option (List (GoString × List UInt8))
  | 0, _ => none
  | fuel + 1, d =>
    match d with
    | [] => none
    | b :: rest =>
      if b ≠ 34 then none
      else
        let kr := rest.span fun c => c != 34
        match kr.2 with
        | _ :: c :: r2 =>
          if c ≠ 58 then none
          else
            match refReadValue r2 with
            | none => none
            | some vr =>
              match vr.2 with
              | [] => none
              | t :: r4 =>
                if t = 125 then (if r4 = [] then some [(kr.1, vr.1)] else none)
                else if t = 44 then (refReadMembers fuel r4).map fun ms => (kr.1, vr.1) :: ms
                else none
        | _ => none

/-- The members of an object text, `none` when the text is not one. -/
def refMembers (d : List UInt8) : Option (List (GoString × List UInt8)) :=
  match d with
  | [] => none
  | b :: rest =>
    if b ≠ 123 then none
    else if rest = [125] then some []
    else refReadMembers rest.length rest

/-- The elements of the text after the opening bracket of a non-empty array, in
textual order; one unit of `fuel` per element. -/
def refReadElements : Nat → List UInt8 → Option (List (List UInt8))
  | 0, _ => none
  | fuel + 1, d =>
    match refReadValue d with
    | none => none
    | some vr =>
      match vr.2 with
      | [] => none
      | t :: r =>
        if t = 93 then (if r = [] then some [vr.1] else none)
        else if t = 44 then (refReadElements fuel r).map fun es => vr.1 :: es
        else none

/-- The elements of an array text, `none` when the text is not one. -/
def refElements (d : List UInt8) : Option (List (List UInt8)) :=
  match d with
  | [] => none
  | b :: rest =>
    if b ≠ 91 then none
    else if rest = [93] then some []
    else refReadElements rest.length rest

/-- The text of the elements after the opening bracket, closing bracket
included. -/
def renderElements : List (List UInt8) → List UInt8
  | [] => [93]
  | [e] => e ++ [93]
  | e :: e2 :: es => e ++ [44] ++ renderElements (e2 :: es)

/-- The text of an array with the given element texts. -/
def renderArray (es : List (List UInt8)) : List UInt8 := 91 :: renderElements es

/-- The text of an array text with one more element at its end. -/
def arrayPush (r v : List UInt8) : List UInt8 :=
  if r = [91, 93] then 91 :: (v ++ [93]) else r.dropLast ++ 44 :: (v ++ [93])

/-- The raw value under the key `k` among the members. -/
def lookupMember (k : GoString) : List (GoString × List UInt8) → Option (List UInt8)
  | [] => none
  | m :: ms => if m.1 = k then some m.2 else lookupMember k ms

/-- The value type the scanner gives a raw value, by its first byte. -/
def refValueType (r : List UInt8) : ValueType :=
  match r with
  | [] => .NotExist
  | b :: _ =>
    if b = 34 then .String
    else if b = 123 then .Object
    else if b = 91 then .Array
    else if b = 116 ∨ b = 102 then .Boolean
    else if b = 110 then .Null
    else if b = 45 ∨ (48 ≤ b ∧ b ≤ 57) then .Number
    else .Unknown

/-- Whether a string text closes: a quote that no backslash escapes follows. -/
def refStringCloses : Bool → List UInt8 → Bool
  | _, [] => false
  | escaped, c :: cs =>
    if escaped then refStringCloses false cs
    else if c = 92 then refStringCloses true cs
    else if c = 34 then true
    else refStringCloses false cs

/-- The reference `jsonparser.Get(data)`: the value type by the first byte, and
an error for the empty text, for a string, array or object that does not
close, for a misspelt literal and for an unknown first byte. -/
def refGet (d : List UInt8) : ValueType × Option GoString :=
  match d with
  | [] => (.NotExist, some (str "Malformed JSON error"))
  | _ :: rest =>
    match refValueType d with
    | .String =>
      if refStringCloses false rest then (.String, none)
      else (.String, some (str "Value is string, but can't find closing '\"' symbol"))
    | .Array =>
      if 93 ∈ rest then (.Array, none)
      else (.Array, some (str "Value is array, but can't find closing ']' symbol"))
    | .Object =>
      if 125 ∈ rest then (.Object, none)
      else (.Object, some (str "Value looks like object, but can't find closing '\x7d' symbol"))
    | .Boolean =>
      if d = str "true" ∨ d = str "false" then (.Boolean, none)
      else (.Unknown, some (str "Unknown value type"))
    | .Null =>
      if d = str "null" then (.Null, none) else (.Unknown, some (str "Unknown value type"))
    | .Number => (.Number, none)
    | _ => (.Unknown, some (str "Unknown value type"))

/-- The `gjson.Result` of a raw value. -/
def resultOfRaw (r : List UInt8) : Result :=
  match refValueType r with
  | .String => { typ := .String, Raw := r, Str := (r.drop 1).dropLast }
  | .Object => { typ := .JSON, Raw := r, Str := [] }
  | .Array => { typ := .JSON, Raw := r, Str := [] }
  | .Boolean => { typ := if r.head? = some 116 then .True else .False, Raw := r, Str := [] }
  | .Number => { typ := .Number, Raw := r, Str := [] }
  | _ => { typ := .Null, Raw := r, Str := [] }

/-- The reference `gjson.GetBytes` on a single key: the result of the member's
raw value, the zero `Result` (type `Null`, empty text) when the document has no
such member. -/
def refGetBytes (d : List UInt8) (path : GoString) : Result :=
  match refMembers d with
  | none => { typ := .Null, Raw := [], Str := [] }
  | some ms =>
    match lookupMember path ms with
    | none => { typ := .Null, Raw := [], Str := [] }
    | some r => resultOfRaw r

/-- The reference `sjson.SetRawBytes` on a single key. -/
def refSet : SetFn := fun d k v =>
  if k = [] then (d, some (str "path cannot be empty"))
  else
    match refMembers d with
    | none => (d, some (str "not an object"))
    | some ms => (flatRender (upsert k v ms), none)

/-- The reference `jsonparser.Append`: on no key the document is the array, on
one key the member under it is. A missing member is `KeyPathNotFoundError`; on
every error the document is handed back as it was given. -/
def refAppend (d v : List UInt8) (keys : List GoString) : List UInt8 × Option GoString :=
  match keys with
  | [] => if refValueType d = .Array then (arrayPush d v, none) else (d, some (str "not an array"))
  | [k] =>
    match refMembers d with
    | none => (d, some (str "not an object"))
    | some ms =>
      match lookupMember k ms with
      | none => (d, some KeyPathNotFoundError)
      | some r =>
        if refValueType r = .Array then (flatRender (upsert k (arrayPush r v) ms), none)
        else (d, some (str "not an array"))
  | _ => (d, some KeyPathNotFoundError)

/-- The reference `jsonparser.Set` on a single key. -/
def refJsonparserSet (d v : List UInt8) (keys : List GoString) : List UInt8 × Option GoString :=
  match keys with
  | [k] => refSet d k v
  | _ => (d, some KeyPathNotFoundError)

/-- The reference `jsonparser.Delete` on a single key. -/
def refDelete (d : List UInt8) (keys : List GoString) : List UInt8 :=
  match keys, refMembers d with
  | [k], some ms => flatRender (ms.filter fun m => m.1 ≠ k)
  | _, _ => d

/-- The text the scanner hands to a callback for a raw value: a string without
its quotes, any other value as it stands. -/
def refCallbackValue (r : List UInt8) : List UInt8 :=
  if refValueType r = .String then (r.drop 1).dropLast else r

/-- The reference `jsonparser.ObjectEach`. -/
def refObjectEach (d : List UInt8) : List (GoString × List UInt8 × ValueType) :=
  match refMembers d with
  | none => []
  | some ms => ms.map fun m => (m.1, refCallbackValue m.2, refValueType m.2)

/-- The reference `jsonparser.ArrayEach`. -/
def refArrayEach (d : List UInt8) : List (List UInt8 × ValueType) :=
  match refElements d with
  | none => []
  | some es => es.map fun e => (refCallbackValue e, refValueType e)

/-- Insertion of `c` before the first document it is less than. -/
def refInsert (less : JSONNode → JSONNode → Bool) (c : JSONNode) : List JSONNode → List JSONNode
  | [] => [c]
  | a :: as => if less c a then c :: a :: as else a :: refInsert less c as

/-- The reference library. -/
def refLib : JSONLib where
  jsonparserGet := refGet
  gjsonGetBytes := refGetBytes
  path2GJSON := fun p => p
  path2JSONPARSER := fun p => if p = [] then [] else [p]
  sjsonSetRawBytes := refSet
  jsonparserAppend := refAppend
  jsonparserSet := refJsonparserSet
  jsonparserDelete := refDelete
  jsonparserObjectEach := refObjectEach
  jsonparserArrayEach := refArrayEach
  sortBy := fun less carr => carr.foldl (fun acc c => refInsert less c acc) []

/-- A document with the text `x` and the type tag `String`. -/
def stringDocument : JSONNode :=
  { value := str "x", path := [], datatype := .String, offset := 0, err := none }

/-- The array document `[{"a":"1","x":1}]`: one element, which has the member
`a` and lacks the member `b`. -/
def mergeByInput : JSONNode :=
  { value := str "[\x7b\"a\":\"1\",\"x\":1\x7d]", path := [], datatype := .Array, offset := 0,
    err := none }

/-- The object document `{"1":{"a":"1","x":1}}`. -/
def mergeByOutput : JSONNode :=
  { value := str "\x7b\"1\":\x7b\"a\":\"1\",\"x\":1\x7d\x7d", path := [], datatype := .Object,
    offset := 0, err := none }

/-- The element `{"a":"1","x":1}` of `mergeByInput`, as `forEach` hands it to
the callback. -/
def mergeByElement : JSONNode :=
  { value := str "\x7b\"a\":\"1\",\"x\":1\x7d", path := [], datatype := .Object, offset := 0,
    err := none }

/-! ## Round trip through the raw text: specification-level definitions -/

/-- A decimal stand-in for `float64` with seven fractional digits (an integer
count of ten-millionths). Like `%f`, its `format` writes six fractional digits,
so it rounds the seventh away; `parse` reads a decimal text exactly. -/
def sevenDigitOps : Float64Ops Int where
  add a b := a + b
  sub a b := a - b
  mul a b := Int.tdiv (a * b) 10000000
  div a b := Int.tdiv (a * 10000000) b
  mod a b := Int.tmod a b
  eq a b := a == b
  lt a b := a < b
  le a b := a ≤ b
  ofInt i := i * 10000000
  toInt a := Int.tdiv a 10000000
  format a :=
    fixedPointOps.format (if a < 0 then -(((a.natAbs + 5) / 10 : Nat) : Int)
      else (((a.natAbs + 5) / 10 : Nat) : Int))
  parse s := (fixedPointOps.parse s).map fun m => m * 10

/-- The node `New(n.Raw()).To(n.Type())`. -/
def roundTrip {F : Type} (fo : Float64Ops F) (lib : JSONLib) (n : Node F) : Node F :=
  JSONNode.To fo (New lib (n.Raw fo)) n.Type

/-- Whether `newCollect` takes its `String` branch on `data`: `jsonparser.Get`
reports no error and a type that `datetype` maps to `String`, so that the first
and the last byte are dropped. -/
def readsAsString (lib : JSONLib) (data : List UInt8) : Prop :=
  (lib.jsonparserGet data).2 = none ∧ datetypeOfValueType (lib.jsonparserGet data).1 = .String

instance (lib : JSONLib) (data : List UInt8) : Decidable (readsAsString lib data) := by
  unfold readsAsString
  exact inferInstance

/-! ## The contract of the primitives on an object document -/

/-- Modelled from the spec: the contract of the primitives `get`, `set` and
`append` (gjson, sjson and `jsonparser.Append`, none among the sources) on the
object documents of a class `Doc`, for the keys of a class `Simple` and the
element texts of a class `Elem`. `view` reads the members of a document, keys
and raw values, in textual order. "get walks the path": the result for a key
of the document is that of its raw value. "append: if the leaf is an array,
appends", and if the leaf does not exist it fails with `KeyPathNotFoundError`
on the bytes it was given. "set creates intermediate objects as needed ...
preserves sibling order": a new key comes after the members the document
has. -/
structure ObjectContract (lib : JSONLib) (view : List UInt8 → List (GoString × List UInt8))
    (Doc : List UInt8 → Prop) (Simple : GoString → Prop) (Elem : List UInt8 → Prop) : Prop where
  doc_empty : Doc (str "{}")
  view_empty : view (str "{}") = []
  simple_ne : ∀ k, Simple k → k ≠ []
  view_nodup : ∀ d, Doc d → ((view d).map Prod.fst).Nodup
  get_present : ∀ d k r, Doc d → Simple k → (k, r) ∈ view d →
    lib.gjsonGetBytes d (lib.path2GJSON k) = resultOfRaw r
  add_missing : ∀ d k v, Doc d → Simple k → Elem v → k ∉ (view d).map Prod.fst →
    add lib d k v = (d, some KeyPathNotFoundError)
  set_missing : ∀ d k v, Doc d → Simple k → Elem v → k ∉ (view d).map Prod.fst →
    (set lib d k (renderArray [v])).2 = none
    ∧ Doc (set lib d k (renderArray [v])).1
    ∧ view (set lib d k (renderArray [v])).1 = view d ++ [(k, renderArray [v])]
  add_present : ∀ d k v es, Doc d → Simple k → Elem v → (k, renderArray es) ∈ view d →
    es ≠ [] →
    (add lib d k v).2 = none
    ∧ Doc (add lib d k v).1
    ∧ view (add lib d k v).1
      = (view d).map fun m => if m.1 = k then (k, renderArray (es ++ [v])) else m

/-! ## Grouping: specification-level definitions -/

/-- The stringified value at `path` in an element, as the callback of `GroupBy`
computes it: `get(value.Raw(), path).String()`. -/
def groupKeyValue (lib : JSONLib) (path : GoString) (value : JSONNode) : GoString :=
  (get lib value.Raw path).String

/-- The elements that grouping keeps, in input order, each with its key: the
elements whose stringified value at `path` is not empty, under that value with
every `.` replaced by `_`, as raw texts. -/
def groupPairs (lib : JSONLib) (path : GoString) (entries : List (GoString × JSONNode)) :
    List (GoString × List UInt8) :=
  entries.filterMap fun e =>
    if (groupKeyValue lib path e.2).length = 0 then none
    else some (replaceDots (groupKeyValue lib path e.2), e.2.Raw)

/-- One more element `r` under the key `k`: at the end of the group of `k`, or
as a new last group when no group has the key. -/
def insertGroup (k : GoString) (r : List UInt8) :
    List (GoString × List (List UInt8)) → List (GoString × List (List UInt8))
  | [] => [(k, [r])]
  | g :: gs => if g.1 = k then (k, g.2 ++ [r]) :: gs else g :: insertGroup k r gs

/-- The groups of a list of keyed elements: each key once, in order of first
occurrence, with its elements in input order. -/
def groupElements (pairs : List (GoString × List UInt8)) : List (GoString × List (List UInt8)) :=
  pairs.foldl (fun gs p => insertGroup p.1 p.2 gs) []

/-- The members of the object that stores each group as an array under its
key. -/
def renderGroups (gs : List (GoString × List (List UInt8))) : List (GoString × List UInt8) :=
  gs.map fun g => (g.1, renderArray g.2)

/-- The keyed elements a list of groups holds. -/
def groupMembers (gs : List (GoString × List (List UInt8))) : List (GoString × List UInt8) :=
  gs.flatMap fun g => g.2.map fun x => (g.1, x)

/-! ## The reference library on group documents -/

/-- The members of a document as the reference library reads them. -/
def refView (d : List UInt8) : List (GoString × List UInt8) :=
  match refMembers d with
  | none => []
  | some ms => ms

/-- An element text the reference library supports inside an array: non-empty
and without a closing bracket. -/
def refElemOk (e : List UInt8) : Prop := e ≠ [] ∧ ∀ b ∈ e, b ≠ 93

instance (e : List UInt8) : Decidable (refElemOk e) := by
  unfold refElemOk
  exact inferInstance

/-- The group documents: the objects that store non-empty arrays of supported
elements under distinct supported keys. -/
def groupDoc (d : List UInt8) : Prop :=
  ∃ gs : List (GoString × List (List UInt8)),
    d = flatRender (renderGroups gs) ∧ (gs.map Prod.fst).Nodup
    ∧ ∀ g ∈ gs, flatKeyOk g.1 ∧ g.2 ≠ [] ∧ ∀ e ∈ g.2, refElemOk e

/-- The object document `{"x":[1,2]}`: one group, under the key `x`. -/
def appendInput : JSONNode :=
  { value := str "\x7b\"x\":[1,2]\x7d", path := [], datatype := .Object, offset := 0,
    err := none }

/-- The array document `[{"k":"x","v":1},{"k":"y","v":2},{"k":"x","v":3}]`. -/
def groupByInput : JSONNode :=
  { value := str "[\x7b\"k\":\"x\",\"v\":1\x7d,\x7b\"k\":\"y\",\"v\":2\x7d,\x7b\"k\":\"x\",\"v\":3\x7d]",
    path := [], datatype := .Array, offset := 0, err := none }

/-- The array document `[{"k":""}]`: one element, whose member `k` is the empty
string. -/
def groupByEmptyInput : JSONNode :=
  { value := str "[\x7b\"k\":\"\"\x7d]", path := [], datatype := .Array, offset := 0,
    err := none }

/-- The element `{"k":""}` of `groupByEmptyInput`, as `forEach` hands it to the
callback. -/
def groupByEmptyElement : JSONNode :=
  { value := str "\x7b\"k\":\"\"\x7d", path := [], datatype := .Object, offset := 0,
    err := none }

/-! ## The typed constructors (`collectjs.go`) -/

/-- The function `NewInt64`: the text `fmt.Sprintf("%v", raw)`, which for an
`int64` is its decimal form, with the type tag `Int`. -/
def NewInt64 (raw : Int) : JSONNode :=
  { value := formatInt raw, path := [], datatype := .Int, offset := 0, err := none }

/-- The function `NewBool`: the text `fmt.Sprintf("%v", raw)`, which for a
`bool` is `true` or `false`, with the type tag `Bool`. -/
def NewBool (raw : Bool) : JSONNode :=
  { value := formatBool raw, path := [], datatype := .Bool, offset := 0, err := none }

/-- The function `NewString`. -/
def NewString (raw : GoString) : JSONNode :=
  { value := raw, path := [], datatype := .String, offset := 0, err := none }

/-- The method `Collect.Node`: `cc.To(cc.datatype)`. -/
def Collect.Node {F : Type} (fo : Float64Ops F) (cc : JSONNode) : Node F :=
  JSONNode.To fo cc cc.datatype

/-! ## Equality of scalars: specification-level definitions -/

/-- The variants `BoolNode`, `IntNode` and `StringNode`. -/
def Node.isBoolIntString {F : Type} : Node F → Bool
  | .BoolNode _ => true
  | .IntNode _ => true
  | .StringNode _ => true
  | _ => false

/-- Whether, in a pair of a string and a node of another variant, the string
parses as the other side's type: as a number (`To(Number)`) next to an
`IntNode`, as a boolean (`To(Bool)`) next to a `BoolNode`. Every other pair
passes. -/
def parsesAsOther {F : Type} (fo : Float64Ops F) : Node F → Node F → Bool
  | .StringNode s, .IntNode _ => (StringNode.To fo s .Number).isScalar
  | .IntNode _, .StringNode s => (StringNode.To fo s .Number).isScalar
  | .StringNode s, .BoolNode _ => (StringNode.To fo s .Bool).isScalar
  | .BoolNode _, .StringNode s => (StringNode.To fo s .Bool).isScalar
  | _, _ => true

/-! ## `Foreach`, `Map`, `KeyBy` and `Combine` (`collectjs.go`) -/

/-- What a method that takes a callback leaves behind: the receiver after the
call and the arguments of the successive calls of the callback. -/
structure ForeachResult where
  receiver : JSONNode
  calls : List (GoString × JSONNode)
  deriving DecidableEq, Repr

/-- The method `Collect.Foreach`: `cc.value = forEach(cc.value, cc.datatype, fn)`,
where `forEach` calls `fn` on `forEachEntries` and returns the bytes it was
given. -/
def Collect.Foreach (lib : JSONLib) (cc : JSONNode) : ForeachResult :=
  { receiver := { cc with value := cc.value },
    calls := forEachEntries lib cc.value cc.datatype }

/-- The method `Collect.Copy`. -/
def Collect.Copy (lib : JSONLib) (cc : JSONNode) : JSONNode := newCollect lib cc.value

/-- The method `Collect.Map`: the callback sets, in the copy `ret`, the key to
what `handle` returns; the receiver then takes the bytes and the type tag of
`ret`. The calls are those of `handle`. -/
def Collect.Map {F : Type} (fo : Float64Ops F) (lib : JSONLib) (cc : JSONNode)
    (handle : GoString → JSONNode → Tdtl.Node F) : ForeachResult :=
  let ret := (Collect.Foreach lib cc).calls.foldl
    (fun ret e => Collect.Set fo (set lib) ret e.1 (handle e.1 e.2)) (Collect.Copy lib cc)
  { receiver := { (Collect.Foreach lib cc).receiver with
      value := ret.value, datatype := ret.datatype },
    calls := (Collect.Foreach lib cc).calls }

/-- The callback of `Collect.KeyBy` on the element `value`, as a step on the
document `ret`. -/
def keyByStep (lib : JSONLib) (path : GoString) (ret value : JSONNode) : JSONNode :=
  let keyValue := Collect.Get lib value [path]
  Collect.setRaw lib ret keyValue.String value.Raw

/-- The method `Collect.KeyBy`. The guard sets the error and does not return:
the loop runs on every document. -/
def Collect.KeyBy (lib : JSONLib) (c : JSONNode) (path : GoString) : CallResult :=
  let c1 : JSONNode :=
    if c.datatype ≠ .Array then { c with err := some (str "KeyBy:datatype is not array") } else c
  { receiver := c1,
    returned := some ((forEachEntries lib c1.value c1.datatype).foldl
      (fun ret e => keyByStep lib path ret e.2) emptyObject) }

/-- The object document `{"a":{"id":"x"}}`. -/
def keyByInput : JSONNode :=
  { value := str "\x7b\"a\":\x7b\"id\":\"x\"\x7d\x7d", path := [], datatype := .Object,
    offset := 0, err := none }

/-- The object document `{"x":{"id":"x"}}`. -/
def keyByOutput : JSONNode :=
  { value := str "\x7b\"x\":\x7b\"id\":\"x\"\x7d\x7d", path := [], datatype := .Object,
    offset := 0, err := none }

/-- The variables the loop of `Combine` updates: `ret`, the field `cKey.err`
and `idx`. -/
structure CombineState where
  ret : List UInt8
  keyErr : Option GoString
  idx : Nat
  deriving DecidableEq, Repr

/-- The path `fmt.Sprintf("[%d]", idx)`. -/
def indexPath (idx : Nat) : GoString := str "[" ++ natDigits idx ++ str "]"

/-- The callback of `Combine` on the element `value` of the keys: `ret, err =
jsonparser.Set(ret, get(cValue.value, "[idx]").Raw(), value.String())`, the
error stored in `cKey.err` when it is not nil, and `idx++`. -/
def combineStep (lib : JSONLib) (cValue : JSONNode) (st : CombineState) (value : JSONNode) :
    CombineState :=
  let r := lib.jsonparserSet st.ret (get lib cValue.value (indexPath st.idx)).Raw [value.String]
  { ret := r.1, keyErr := if r.2 ≠ none then r.2 else st.keyErr, idx := st.idx + 1 }

/-- What `Combine` leaves behind: the document of the keys after the call, the
bytes it returns (the nil slice is the empty list) and the error it returns. -/
structure CombineResult where
  cKey : JSONNode
  ret : List UInt8
  err : Option GoString
  deriving DecidableEq, Repr

/-- The function `Combine`. -/
def Combine (lib : JSONLib) (cKey cValue : JSONNode) : CombineResult :=
  if cKey.datatype ≠ .Array then
    { cKey := cKey, ret := [], err := some (str "datatype is not array") }
  else if cValue.datatype ≠ .Array then
    { cKey := cKey, ret := [], err := some (str "datatype is not array") }
  else
    let st := (Collect.Foreach lib cKey).calls.foldl
      (fun st e => combineStep lib cValue st e.2)
      { ret := str "{}", keyErr := cKey.err, idx := 0 }
    { cKey := { (Collect.Foreach lib cKey).receiver with err := st.keyErr },
      ret := st.ret, err := st.keyErr }

/-! ## `Combine`: specification-level definitions -/

/-- The entries `keys[i] (as string) -> values[i]` that `Combine` writes, in
order, counting from the index `k`: the `i`-th element of the keys as a string,
with the raw text that `get` reads at `[i]` in the values. -/
def combinePairsFrom (lib : JSONLib) (cValue : JSONNode) (k : Nat)
    (entries : List (GoString × JSONNode)) : List (GoString × List UInt8) :=
  (entries.enumFrom k).map fun p =>
    (p.2.2.String, (get lib cValue.value (indexPath p.1)).Raw)

/-- The entries `keys[i] (as string) -> values[i]` for every element of the
keys. -/
def combinePairs (lib : JSONLib) (cKey cValue : JSONNode) : List (GoString × List UInt8) :=
  combinePairsFrom lib cValue 0 (forEachEntries lib cKey.value cKey.datatype)

/-- The members of an object after the entries were set one after the other:
a new key goes to the end, a key that is there takes the new value. -/
def setAll (ms : List (GoString × List UInt8)) (pairs : List (GoString × List UInt8)) :
    List (GoString × List UInt8) :=
  pairs.foldl (fun ms p => upsert p.1 p.2 ms) ms

/-- Modelled from the spec: the contract of `jsonparser.Set(data, value, key)`
on a single key, whose implementation is not among the sources: set "replaces
existing value at the leaf; preserves sibling order" and creates what is
missing, so on a document of the class `Doc` (with `{}` in it) setting a simple
key to a raw value of the class `RawValue` reports no error, stays in the class
and puts the value where the key stands, or at the end when the key is new.
`view` reads the members of a document in textual order. -/
structure KeySetContract (lib : JSONLib) (view : List UInt8 → List (GoString × List UInt8))
    (Doc : List UInt8 → Prop) (Simple : GoString → Prop) (RawValue : List UInt8 → Prop) :
    Prop where
  doc_empty : Doc (str "{}")
  view_empty : view (str "{}") = []
  set_key : ∀ d k v, Doc d → Simple k → RawValue v →
    (lib.jsonparserSet d v [k]).2 = none
    ∧ Doc (lib.jsonparserSet d v [k]).1
    ∧ view (lib.jsonparserSet d v [k]).1 = upsert k v (view d)

/-! ## The reference library with array indices -/

/-- The index `i` of a path of the form `[i]`. -/
def indexOfPath (path : GoString) : Option Nat :=
  match path with
  | [] => none
  | b :: rest =>
    if b = 91 ∧ rest.getLast? = some 93 ∧ rest.dropLast ≠ [] then parseDigits rest.dropLast 0
    else none

/-- The reference `gjson.GetBytes` with array indices: on a path `[i]` the
result of the `i`-th element of the array, the zero `Result` when there is
none; on any other path as `refGetBytes`. -/
def refGetBytesIndexed (d : List UInt8) (path : GoString) : Result :=
  match indexOfPath path with
  | none => refGetBytes d path
  | some i =>
    match refElements d with
    | none => { typ := .Null, Raw := [], Str := [] }
    | some es =>
      match es.get? i with
      | none => { typ := .Null, Raw := [], Str := [] }
      | some r => resultOfRaw r

/-- The reference library, reading array indices as well. -/
def refLibIndexed : JSONLib := { refLib with gjsonGetBytes := refGetBytesIndexed }

/-- A raw value the reference reader takes whole, whatever follows it. -/
def selfDelimited (v : List UInt8) : Prop :=
  ∀ rest, refReadValue (v ++ rest) = some (v, rest)

/-- The object documents of the reference library: the renderings of member
lists with supported keys and values that the reader takes whole. -/
def keyedDoc (d : List UInt8) : Prop :=
  ∃ ms : List (GoString × List UInt8),
    d = flatRender ms ∧ ∀ m ∈ ms, flatKeyOk m.1 ∧ selfDelimited m.2

/-- The array document `["a","b"]`. -/
def combineKeys : JSONNode :=
  { value := str "[\"a\",\"b\"]", path := [], datatype := .Array, offset := 0, err := none }

/-- The array document `["x","y"]`. -/
def combineValues : JSONNode :=
  { value := str "[\"x\",\"y\"]", path := [], datatype := .Array, offset := 0, err := none }

/-- The array document `["a"]`. -/
def combineShortKeys : JSONNode :=
  { value := str "[\"a\"]", path := [], datatype := .Array, offset := 0, err := none }

/-! ## Theorems: binary operators -/

theorem Exec.ret_bind {α β : Type} (a : α) (f : α → Exec β) : (Exec.ret a).bind f = f a := rfl

theorem evalBinary_bool_jsonref_outOfFuel {F : Type} (fo : Float64Ops F) (fuel : Nat) (op : Op)
    (b : Bool) (addr : Nat) (j : JSONNode) (h : isBooleanOP op = true) :
    evalBinary fo fuel op (.BoolNode b) (.JSONNodeRef addr j) = .outOfFuel := by
  induction fuel generalizing b with
  | zero => rfl
  | succ n ih =>
    show (if isBooleanOP op = true then evalBinary fo n op (.BoolNode false) (.JSONNodeRef addr j)
      else .ret UNDEFINED_RESULT) = .outOfFuel
    rw [if_pos h]
    exact ih false

/-- C1. A comparison operator (`EQ, LT, LTE, GT, GTE`) applied to a `BoolNode`
on the left and a `*JSONNode` on the right (the Undefined sentinel included)
never returns: `evalBinary` calls itself with `BoolNode(false)` and the same
right operand, so every recursion budget is used up. The expression
`true == 1 / 0` reaches this case through `eval`, since `1 / 0` is the
Undefined sentinel. -/
theorem evalBinary_bool_jsonref_never_returns {F : Type} (fo : Float64Ops F) (fuel : Nat)
    (b : Bool) (addr : Nat) (j : JSONNode) :
    evalBinary fo fuel .EQ (.BoolNode b) (.JSONNodeRef addr j) = .outOfFuel
    ∧ evalBinary fo fuel .LT (.BoolNode b) (.JSONNodeRef addr j) = .outOfFuel
    ∧ evalBinary fo fuel .LTE (.BoolNode b) (.JSONNodeRef addr j) = .outOfFuel
    ∧ evalBinary fo fuel .GT (.BoolNode b) (.JSONNodeRef addr j) = .outOfFuel
    ∧ evalBinary fo fuel .GTE (.BoolNode b) (.JSONNodeRef addr j) = .outOfFuel
    ∧ ∀ (hook : Context F → CallExpr F → Node F) (ctx : Context F),
        eval fo hook ctx fuel
          (.Binary .EQ (.Lit (.BoolNode true))
            (.Binary .DIV (.Lit (.IntNode 1)) (.Lit (.IntNode 0)))) = .outOfFuel := by
  refine ⟨evalBinary_bool_jsonref_outOfFuel fo fuel _ b addr j rfl,
    evalBinary_bool_jsonref_outOfFuel fo fuel _ b addr j rfl,
    evalBinary_bool_jsonref_outOfFuel fo fuel _ b addr j rfl,
    evalBinary_bool_jsonref_outOfFuel fo fuel _ b addr j rfl,
    evalBinary_bool_jsonref_outOfFuel fo fuel _ b addr j rfl, ?_⟩
  intro hook ctx
  match fuel with
  | 0 => rfl
  | 1 => rfl
  | 2 => rfl
  | n + 3 =>
    have hdiv : eval fo hook ctx (n + 2) (.Binary .DIV (.Lit (.IntNode 1)) (.Lit (.IntNode 0)))
        = .ret UNDEFINED_RESULT := by
      simp [eval, evalBinaryExpr, Exec.bind, evalBinaryOverload, evalBinary, evalBinaryInt]
    have htrue : eval fo hook ctx (n + 2) (.Lit (.BoolNode true)) = .ret (.BoolNode true) := rfl
    show evalBinaryExpr fo (n + 2) (eval fo hook ctx (n + 2)) .EQ _ _ = .outOfFuel
    simp only [evalBinaryExpr, hdiv, htrue, Exec.ret_bind]
    have hov : evalBinaryOverload fo (n + 2) .EQ (.BoolNode true) (UNDEFINED_RESULT : Node F)
        = .ret none := rfl
    rw [hov, Exec.ret_bind]
    exact evalBinary_bool_jsonref_outOfFuel fo (n + 2) _ true _ _ rfl

/-- C2. The operator `MOD` on an `IntNode` and `IntNode 0` does not return the
Undefined sentinel: `lhs % rhs` is evaluated without a test on `rhs`, which is
Go's integer-divide-by-zero panic. The expression `10 % 0` reaches it through
`eval`. -/
theorem evalBinary_int_mod_zero_panics {F : Type} (fo : Float64Ops F) (fuel : Nat) (a : Int) :
    evalBinary fo (fuel + 1) .MOD (.IntNode a) (.IntNode 0) = .panic .integerDivideByZero
    ∧ ∀ (hook : Context F → CallExpr F → Node F) (ctx : Context F),
        eval fo hook ctx (fuel + 3) (.Binary .MOD (.Lit (.IntNode 10)) (.Lit (.IntNode 0)))
          = .panic .integerDivideByZero := by
  constructor
  · simp [evalBinary, evalBinaryInt]
  · intro hook ctx
    simp [eval, evalBinaryExpr, Exec.bind, evalBinaryOverload, evalBinary, evalBinaryInt]

theorem wrapInt64_of_isInt64 {x : Int} (h : isInt64 x) : wrapInt64 x = x := by
  unfold isInt64 at h
  unfold wrapInt64
  rw [Int.emod_eq_of_lt (by omega) (by omega)]
  omega

theorem tdiv_isInt64 {a b : Int} (ha : isInt64 a) (hb : b ≠ 0)
    (hne : ¬ (a = -(2 ^ 63) ∧ b = -1)) : isInt64 (Int.tdiv a b) := by
  unfold isInt64 at *
  have h1 : (Int.tdiv a b).natAbs = a.natAbs / b.natAbs := Int.natAbs_tdiv a b
  have hb1 : 1 ≤ b.natAbs := by omega
  have h2 : a.natAbs / b.natAbs ≤ a.natAbs := Nat.div_le_self _ _
  by_cases hb2 : b.natAbs = 1
  · rcases Int.natAbs_eq b with hb3 | hb3
    · have : b = 1 := by omega
      subst this
      simp
      omega
    · have : b = -1 := by omega
      subst this
      have : a ≠ -(2 ^ 63) := fun h => hne ⟨h, rfl⟩
      have h3 : Int.tdiv a (-1) = -a := by
        rw [Int.tdiv_neg]
        simp
      rw [h3]
      omega
  · have h3 : a.natAbs / b.natAbs < 2 ^ 63 := by
      have hb3 : 2 ≤ b.natAbs := by omega
      have : a.natAbs / b.natAbs ≤ a.natAbs / 2 := Nat.div_le_div_left hb3 (by omega)
      omega
    omega

/-- C3. The operator `DIV` on `int64` operands: division by `IntNode 0` returns
the Undefined sentinel, and for a non-zero divisor `b` the result is the
`IntNode` of the quotient truncated toward zero, as an `int64` (the single
overflowing pair `-2^63 / -1` wraps around; for every other pair the quotient
is exact). -/
theorem evalBinary_int_div {F : Type} (fo : Float64Ops F) (fuel : Nat) (a : Int) :
    evalBinary fo (fuel + 1) .DIV (.IntNode a) (.IntNode 0) = .ret UNDEFINED_RESULT
    ∧ ∀ b : Int, b ≠ 0 →
        evalBinary fo (fuel + 1) .DIV (.IntNode a) (.IntNode b)
          = .ret (.IntNode (wrapInt64 (Int.tdiv a b)))
        ∧ (isInt64 a → ¬ (a = -(2 ^ 63) ∧ b = -1) → wrapInt64 (Int.tdiv a b) = Int.tdiv a b) := by
  refine ⟨by simp [evalBinary, evalBinaryInt], fun b hb => ⟨by simp [evalBinary, evalBinaryInt, hb], ?_⟩⟩
  intro ha hne
  exact wrapInt64_of_isInt64 (tdiv_isInt64 ha hb hne)

theorem byte_eq_of_not_lt {x y : UInt8} (h1 : ¬ x < y) (h2 : ¬ y < x) : x = y := by
  apply UInt8.eq_of_toBitVec_eq
  apply BitVec.eq_of_toNat_eq
  have a1 := UInt8.not_lt.mp h1
  have a2 := UInt8.not_lt.mp h2
  rw [UInt8.le_def, BitVec.le_def] at a1 a2
  omega

/-- `strings.Compare` returns 0 exactly on equal strings. -/
theorem Compare_eq_zero_iff (a b : GoString) : Compare a b = 0 ↔ a = b := by
  induction a generalizing b with
  | nil => cases b <;> simp [Compare]
  | cons x xs ih =>
    cases b with
    | nil => simp [Compare]
    | cons y ys =>
      simp only [Compare]
      by_cases h1 : x < y
      · have : x ≠ y := UInt8.ne_of_lt h1
        simp [h1, this]
      · by_cases h2 : y < x
        · have : x ≠ y := fun h => (UInt8.ne_of_lt h2) h.symm
          simp [h1, h2, this]
        · have : x = y := byte_eq_of_not_lt h1 h2
          simp [h1, h2, this, ih]

/-- In the budget-free part of `evalBinary`: on two strings and an operator
that `isBooleanOP` accepts, the result is the `BoolNode` of the comparison of
`strings.Compare` with 0. -/
theorem evalBinary_string_boolean_op {F : Type} (fo : Float64Ops F) (fuel : Nat) (op : Op)
    (a b : GoString) (h : isBooleanOP op = true) :
    evalBinary fo (fuel + 1) op (.StringNode a) (.StringNode b)
      = .ret (.BoolNode (match op with
          | .EQ => Compare a b == 0
          | .LT => Compare a b < 0
          | .LTE => Compare a b ≤ 0
          | .GT => Compare a b > 0
          | .GTE => Compare a b ≥ 0
          | _ => false)) := by
  cases op <;> simp [isBooleanOP] at h <;> simp [evalBinary, evalBinaryString, isBooleanOP]

/-- C4. On the strings `"a"` and `"b"` the operator `NE` does not return
`BoolNode true`: `isBooleanOP` has no case for `NE`, so `evalBinaryString`
never reaches its own `NE` case; it converts both strings to numbers, both
conversions fail, and the result is the Undefined sentinel. The same happens
for `"a" != "a"`. -/
theorem evalBinary_string_ne_undefined {F : Type} (fo : Float64Ops F) (fuel : Nat) :
    evalBinary fo (fuel + 2) .NE (.StringNode (str "a")) (.StringNode (str "b"))
      = .ret UNDEFINED_RESULT
    ∧ evalBinary fo (fuel + 2) .NE (.StringNode (str "a")) (.StringNode (str "a"))
      = .ret UNDEFINED_RESULT := by
  have h1 : (StringNode.To fo (str "a") .Number : Node F) = UNDEFINED_RESULT := by
    have : ¬ ((46 : UInt8) ∈ str "a") := by decide
    have hp : parseInt (str "a") = none := by decide
    simp [StringNode.To, StringNode.toInt, this, hp]
  have h2 : (StringNode.To fo (str "b") .Number : Node F) = UNDEFINED_RESULT := by
    have : ¬ ((46 : UInt8) ∈ str "b") := by decide
    have hp : parseInt (str "b") = none := by decide
    simp [StringNode.To, StringNode.toInt, this, hp]
  constructor
  · simp only [evalBinary, evalBinaryString, isBooleanOP]
    simp [h1, h2, UNDEFINED_RESULT, evalBinary, isBooleanOP, isLogicOP]
  · simp only [evalBinary, evalBinaryString, isBooleanOP]
    simp [h1, UNDEFINED_RESULT, evalBinary, isBooleanOP, isLogicOP]

/-- The examples of the string comparison: `"a" < "b"` is true, `"b" < "a"` is
false, `"a" == "a"` is true. -/
theorem evalBinary_string_examples :
    evalBinary fixedPointOps 1 .LT (.StringNode (str "a")) (.StringNode (str "b"))
      = .ret (.BoolNode true)
    ∧ evalBinary fixedPointOps 1 .LT (.StringNode (str "b")) (.StringNode (str "a"))
      = .ret (.BoolNode false)
    ∧ evalBinary fixedPointOps 1 .EQ (.StringNode (str "a")) (.StringNode (str "a"))
      = .ret (.BoolNode true) := by
  decide

/-- C5. The overload of `ADD`: two strings are concatenated; a string and an
`IntNode` (in either order) are concatenated in operand order after the integer
is written in decimal. `evalBinaryOverload` returns this non-nil result, so
`eval` of the binary expression returns it without entering `evalBinary`. -/
theorem evalBinaryOverload_add_concat {F : Type} (fo : Float64Ops F)
    (hook : Context F → CallExpr F → Node F) (ctx : Context F) (fuel : Nat)
    (s t : GoString) (i : Int) :
    evalBinaryOverload fo (fuel + 1) .ADD (.StringNode s) (.StringNode t)
      = .ret (some (.StringNode (s ++ t)))
    ∧ evalBinaryOverload fo (fuel + 2) .ADD (.StringNode s) (.IntNode i)
      = .ret (some (.StringNode (s ++ formatInt i)))
    ∧ evalBinaryOverload fo (fuel + 2) .ADD (.IntNode i) (.StringNode s)
      = .ret (some (.StringNode (formatInt i ++ s)))
    ∧ eval fo hook ctx (fuel + 4) (.Binary .ADD (.Lit (.StringNode s)) (.Lit (.StringNode t)))
      = .ret (.StringNode (s ++ t))
    ∧ eval fo hook ctx (fuel + 4) (.Binary .ADD (.Lit (.StringNode s)) (.Lit (.IntNode i)))
      = .ret (.StringNode (s ++ formatInt i))
    ∧ eval fo hook ctx (fuel + 4) (.Binary .ADD (.Lit (.IntNode i)) (.Lit (.StringNode s)))
      = .ret (.StringNode (formatInt i ++ s)) := by
  simp [evalBinaryOverload, IntNode.To, eval, evalBinaryExpr, Exec.bind]

/-- The decimal form written by `formatInt` on sample values. -/
theorem formatInt_examples :
    formatInt 0 = str "0" ∧ formatInt 42 = str "42" ∧ formatInt (-7) = str "-7"
    ∧ formatInt (-9223372036854775808) = str "-9223372036854775808" := by
  decide

/-! ## Theorems: filter, call and switch -/

/-- C6. For a select statement `s`: `evalFilter` is true when `s` has no filter
(the filter is nil or its expression is nil); otherwise it is `b` when `eval`
of the filter returns `BoolNode b`, and false when it returns a node of any
other variant. -/
theorem evalFilter_select {F : Type} (ev : Expr F → Exec (Node F)) (fields : List (FieldExpr F))
    (filter : Option (FilterExpr F)) (topic : Option (List GoString)) (dimensions : Bool) :
    (filter = none → evalFilter ev (.Select fields filter topic dimensions) = .ret true)
    ∧ (∀ f, filter = some f → f.exp.isNil = true →
        evalFilter ev (.Select fields filter topic dimensions) = .ret true)
    ∧ (∀ f b, filter = some f → f.exp.isNil = false → ev (.Filter f) = .ret (.BoolNode b) →
        evalFilter ev (.Select fields filter topic dimensions) = .ret b)
    ∧ (∀ f n, filter = some f → f.exp.isNil = false → ev (.Filter f) = .ret n →
        (∀ b, n ≠ .BoolNode b) →
        evalFilter ev (.Select fields filter topic dimensions) = .ret false) := by
  refine ⟨?_, ?_, ?_, ?_⟩
  · intro h
    subst h
    rfl
  · intro f h hn
    subst h
    simp [evalFilter, hn]
  · intro f b h hn hev
    subst h
    simp [evalFilter, hn, hev, Exec.bind, boolOfNode]
  · intro f n h hn hev hb
    subst h
    simp only [evalFilter, hn, hev, Exec.bind]
    cases n with
    | BoolNode b => exact absurd rfl (hb b)
    | _ => rfl

/-- The filter of a concrete statement, run through `eval`: `1 < 2` lets the
statement pass, the literal `1` does not, and so does not a missing path. -/
theorem evalFilter_examples :
    evalFilter (eval fixedPointOps EvalCallExpr ⟨fun _ => UNDEFINED_RESULT, fun _ _ => UNDEFINED_RESULT⟩ 5)
      (.Select [] (some (.mk (.Binary .LT (.Lit (.IntNode 1)) (.Lit (.IntNode 2))))) none false)
      = .ret true
    ∧ evalFilter (eval fixedPointOps EvalCallExpr ⟨fun _ => UNDEFINED_RESULT, fun _ _ => UNDEFINED_RESULT⟩ 5)
      (.Select [] (some (.mk (.Lit (.IntNode 1)))) none false) = .ret false
    ∧ evalFilter (eval fixedPointOps EvalCallExpr ⟨fun _ => UNDEFINED_RESULT, fun _ _ => UNDEFINED_RESULT⟩ 5)
      (.Select [] (some (.mk (.JSONPath (str "e.k")))) none false) = .ret false
    ∧ evalFilter (eval fixedPointOps EvalCallExpr ⟨fun _ => UNDEFINED_RESULT, fun _ _ => UNDEFINED_RESULT⟩ 5)
      (.Select [] none none false) = .ret true := by
  decide

/-- C7. A call without arguments returns what the context's `Call` returns,
whatever its type: the fallback hook is never consulted. With a context that
answers Undefined and a hook that answers `IntNode 1`, the result is the
Undefined sentinel and not the hook's `IntNode 1`. -/
theorem evalCallExpr_zero_args_skips_hook {F : Type} (ctx : Context F)
    (hook : Context F → CallExpr F → Node F) (ev : Expr F → Exec (Node F)) (key : GoString) :
    evalCallExpr ctx hook ev (.mk key []) = .ret (ctx.Call (.mk key []) [])
    ∧ evalCallExpr (F := Int) ⟨fun _ => UNDEFINED_RESULT, fun _ _ => UNDEFINED_RESULT⟩
        (fun _ _ => .IntNode 1) (fun _ => .outOfFuel) (.mk (str "now") [])
        = .ret UNDEFINED_RESULT := by
  constructor <;> simp [evalCallExpr, CallExpr.args]

/-- A call with at least one argument, whose arguments evaluate to `values`:
the context's answer when its type is not Undefined, the hook's answer
otherwise. -/
theorem evalCallExpr_with_args {F : Type} (ctx : Context F)
    (hook : Context F → CallExpr F → Node F) (ev : Expr F → Exec (Node F)) (key : GoString)
    (a : Expr F) (as : List (Expr F)) (values : List (Node F))
    (h : evalArgs ev (a :: as) = .ret values) :
    evalCallExpr ctx hook ev (.mk key (a :: as))
      = .ret (if (ctx.Call (.mk key (a :: as)) values).Type ≠ .Undefined
          then ctx.Call (.mk key (a :: as)) values else hook ctx (.mk key (a :: as))) := by
  simp only [evalCallExpr, CallExpr.args, h, Exec.bind]
  simp
  split <;> rfl

theorem interfaceEq_scalar {F : Type} (fo : Float64Ops F) (a b : Node F)
    (ha : a.isScalar = true) (hb : b.isScalar = true) :
    interfaceEq fo a b = .ret (sameScalar fo a b) := by
  cases a <;> cases b <;> simp_all [interfaceEq, sameScalar, Node.isScalar]

theorem evalSwitchCases_scalar {F : Type} (fo : Float64Ops F) (ev : Expr F → Exec (Node F))
    (value : Node F) (ws : CaseExpr F → Node F) (hs : value.isScalar = true)
    (list : List (CaseExpr F))
    (hw : ∀ c ∈ list, ev c.whenExp = .ret (ws c) ∧ (ws c).isScalar = true) :
    evalSwitchCases fo ev value list
      = match firstMatch fo value ws list with
        | some c => (ev c.thenExp).bind fun n => .ret (some n)
        | none => .ret none := by
  induction list with
  | nil => rfl
  | cons c rest ih =>
    have hc := hw c (List.mem_cons_self _ _)
    have hrest := ih fun d hd => hw d (List.mem_cons_of_mem _ hd)
    simp only [evalSwitchCases, hc.1, Exec.ret_bind, interfaceEq_scalar fo value (ws c) hs hc.2]
    by_cases hm : sameScalar fo value (ws c) = true
    · simp [firstMatch, List.find?, hm]
    · simp only [hm]
      rw [hrest]
      simp [firstMatch, List.find?, hm]

/-- C8. For a switch whose scrutinee and `when` expressions evaluate to scalar
nodes: the result is the value of the `then` of the first case, in list order,
whose `when` value is the same scalar as the scrutinee; when no case matches it
is the value of `last` if `last` is present and the Undefined sentinel
otherwise. For `BoolNode`, `IntNode` and `StringNode` being the same scalar is
being the same node. -/
theorem evalSwitchExpr_first_match {F : Type} (fo : Float64Ops F) (ev : Expr F → Exec (Node F))
    (expr : SwitchExpr F) (value : Node F) (ws : CaseExpr F → Node F)
    (hv : ev expr.exp = .ret value) (hs : value.isScalar = true)
    (hw : ∀ c ∈ expr.list, ev c.whenExp = .ret (ws c) ∧ (ws c).isScalar = true) :
    evalSwitchExpr fo ev expr
      = (match firstMatch fo value ws expr.list with
        | some c => ev c.thenExp
        | none => if expr.last.isNil then .ret UNDEFINED_RESULT else ev expr.last)
    ∧ ∀ a b : Node F, a.isScalar = true → (∀ f, a ≠ .FloatNode f) →
        (sameScalar fo a b = true ↔ a = b) := by
  constructor
  · simp only [evalSwitchExpr, hv, Exec.ret_bind,
      evalSwitchCases_scalar fo ev value ws hs expr.list hw]
    cases hfm : firstMatch fo value ws expr.list with
    | none => cases hl : expr.last.isNil <;> simp [Exec.ret_bind]
    | some c =>
      show ((ev c.thenExp).bind fun n => .ret (some n)).bind _ = ev c.thenExp
      cases ev c.thenExp <;> rfl
  · intro a b ha hf
    cases a <;> cases b <;> simp_all [sameScalar, Node.isScalar]

/-- The switch of the example, on a context where `e.k` is `"c"`: no case
matches and the default `0` is returned. -/
theorem evalSwitchExpr_first_match_witness :
    evalSwitchExpr fixedPointOps (eval fixedPointOps EvalCallExpr exampleContext 3) exampleSwitch
      = .ret (.IntNode 0) :=
  (evalSwitchExpr_first_match fixedPointOps (eval fixedPointOps EvalCallExpr exampleContext 3)
    exampleSwitch (.StringNode (str "c")) whenLiteral (by decide) (by decide) (by decide)).1.trans
    (by decide)

/-! ## Theorems: conversion of a node to its own type -/

/-- C10, counterexample. The `JSONNode` with the text `true` and the type tag
`Bool` (what `NewBool(true)` builds), held by value or through a pointer,
converted to its own type tag is the scalar `BoolNode true`, not the node
itself. -/
theorem To_own_type_json_counterexample :
    (Node.JSONNode trueDocument : Node Int).To fixedPointOps (Node.JSONNode trueDocument : Node Int).Type
      = .BoolNode true
    ∧ (Node.JSONNode trueDocument : Node Int).To fixedPointOps (Node.JSONNode trueDocument : Node Int).Type
      ≠ .JSONNode trueDocument
    ∧ (Node.JSONNodeRef 2 trueDocument : Node Int).To fixedPointOps
        (Node.JSONNodeRef 2 trueDocument : Node Int).Type = .BoolNode true
    ∧ (Node.JSONNodeRef 2 trueDocument : Node Int).To fixedPointOps
        (Node.JSONNodeRef 2 trueDocument : Node Int).Type ≠ .JSONNodeRef 2 trueDocument := by
  decide

/-- C10, amended. Every `BoolNode`, `IntNode`, `FloatNode` and `StringNode`
converted to its own type tag is the node itself. A `JSONNode` whose tag is
`JSON`, `Object` or `Array` converted to its own tag is the same struct, and a
`*JSONNode` with such a tag yields the struct it points to, by value. A
`JSONNode` with another tag is converted through its text: the `StringNode` of
the text for `String`, the conversion of that `StringNode` for `Bool`, `Number`,
`Int` and `Float`, the Undefined sentinel for `Null` and `Undefined`. -/
theorem To_own_type {F : Type} (fo : Float64Ops F) :
    (∀ b : Bool, (Node.BoolNode b : Node F).To fo (Node.BoolNode b : Node F).Type = .BoolNode b)
    ∧ (∀ i : Int, (Node.IntNode i : Node F).To fo (Node.IntNode i : Node F).Type = .IntNode i)
    ∧ (∀ f : F, (Node.FloatNode f).To fo (Node.FloatNode f).Type = .FloatNode f)
    ∧ (∀ s : GoString,
        (Node.StringNode s : Node F).To fo (Node.StringNode s : Node F).Type = .StringNode s)
    ∧ (∀ j : JSONNode, j.datatype = .JSON ∨ j.datatype = .Object ∨ j.datatype = .Array →
        (Node.JSONNode j : Node F).To fo (Node.JSONNode j : Node F).Type = .JSONNode j)
    ∧ (∀ (addr : Nat) (j : JSONNode),
        j.datatype = .JSON ∨ j.datatype = .Object ∨ j.datatype = .Array →
        (Node.JSONNodeRef addr j : Node F).To fo (Node.JSONNodeRef addr j : Node F).Type
          = .JSONNode j)
    ∧ (∀ j : JSONNode, j.datatype = .String →
        (Node.JSONNode j : Node F).To fo (Node.JSONNode j : Node F).Type = .StringNode j.value)
    ∧ (∀ j : JSONNode,
        j.datatype = .Bool ∨ j.datatype = .Number ∨ j.datatype = .Int ∨ j.datatype = .Float →
        (Node.JSONNode j : Node F).To fo (Node.JSONNode j : Node F).Type
          = StringNode.To fo j.value j.datatype)
    ∧ (∀ j : JSONNode, j.datatype = .Null ∨ j.datatype = .Undefined →
        (Node.JSONNode j : Node F).To fo (Node.JSONNode j : Node F).Type = UNDEFINED_RESULT) := by
  refine ⟨fun b => rfl, fun i => rfl, fun f => rfl, fun s => rfl, ?_, ?_, ?_, ?_, ?_⟩
  · intro j h
    rcases h with h | h | h <;> simp [Node.To, Node.Type, JSONNode.To, h]
  · intro addr j h
    rcases h with h | h | h <;> simp [Node.To, Node.Type, JSONNode.To, h]
  · intro j h
    simp [Node.To, Node.Type, JSONNode.To, JSONNode.String, h]
  · intro j h
    rcases h with h | h | h | h <;> simp [Node.To, Node.Type, JSONNode.To, JSONNode.String, h]
  · intro j h
    rcases h with h | h <;> simp [Node.To, Node.Type, JSONNode.To, h]

/-! ## Theorems: projection of a field list -/

theorem evalFieldListLoop_eq_foldl {F : Type} (fo : Float64Ops F) (set : SetFn)
    (ev : Expr F → Exec (Node F)) (vs : FieldExpr F → Node F) (list : List (FieldExpr F))
    (v : JSONNode) (hev : ∀ f ∈ list, ev f.exp = .ret (vs f)) :
    evalFieldListLoop fo set ev v list
      = .ret (list.foldl (fun v f => projectField fo set v f (vs f)) v) := by
  induction list generalizing v with
  | nil => rfl
  | cons f rest ih =>
    have hf := hev f (List.mem_cons_self _ _)
    have hrest := fun w => ih w fun g hg => hev g (List.mem_cons_of_mem _ hg)
    simp only [evalFieldListLoop, hf, Exec.ret_bind, List.foldl_cons, projectField]
    by_cases ha : f.alias = []
    · simp only [ha, ne_eq, not_true_eq_false, if_false]
      simpa [projectField] using hrest v
    · simp only [ha, ne_eq, not_false_eq_true, if_true]
      simpa [projectField] using hrest (Collect.Set fo set v f.alias (vs f))

theorem keys_foldl_projectField {F : Type} (fo : Float64Ops F) (set : SetFn)
    (vs : FieldExpr F → Node F) (keys : List UInt8 → List GoString) (Doc : List UInt8 → Prop)
    (Simple : GoString → Prop) (RawValue : List UInt8 → Prop)
    (hc : SetContract set keys Doc Simple RawValue) (list : List (FieldExpr F)) (v : JSONNode)
    (hd : Doc v.value)
    (hf : ∀ f ∈ list, f.alias ≠ [] → Simple f.alias ∧ RawValue ((vs f).Raw fo))
    (hn : (keys v.value ++ aliases list).Nodup) :
    keys (list.foldl (fun v f => projectField fo set v f (vs f)) v).value
      = keys v.value ++ aliases list := by
  induction list generalizing v with
  | nil => simp [aliases]
  | cons f rest ih =>
    have hrest : ∀ g ∈ rest, g.alias ≠ [] → Simple g.alias ∧ RawValue ((vs g).Raw fo) :=
      fun g hg => hf g (List.mem_cons_of_mem _ hg)
    rw [List.foldl_cons]
    by_cases ha : f.alias = []
    · have hal : aliases (f :: rest) = aliases rest := by simp [aliases, List.filter, ha]
      have hp : projectField fo set v f (vs f) = v := by simp [projectField, ha]
      rw [hp, hal]
      rw [hal] at hn
      exact ih v hd hrest hn
    · have hal : aliases (f :: rest) = f.alias :: aliases rest := by
        simp [aliases, List.filter, ha]
      have hfa := hf f (List.mem_cons_self _ _) ha
      rw [hal] at hn
      have hnew : f.alias ∉ keys v.value := by
        intro hmem
        have := List.nodup_append.mp hn
        exact this.2.2 hmem (List.mem_cons_self _ _)
      have hp : (projectField fo set v f (vs f)).value = (set v.value f.alias ((vs f).Raw fo)).1 := by
        simp [projectField, ha, Collect.Set]
      have hk : keys (projectField fo set v f (vs f)).value = keys v.value ++ [f.alias] := by
        rw [hp]
        exact hc.set_new _ _ _ hd hfa.1 hfa.2 hnew
      have hd2 : Doc (projectField fo set v f (vs f)).value := by
        rw [hp]
        exact hc.set_doc _ _ _ hd hfa.1 hfa.2
      have hn2 : (keys (projectField fo set v f (vs f)).value ++ aliases rest).Nodup := by
        rw [hk]
        simpa using hn
      rw [ih _ hd2 hrest hn2, hk, hal]
      simp

/-- C9. For a field list whose expressions evaluate (to the values `vs`),
`evalFieldListExpr` returns the document obtained by starting from the empty
object `{}` and, for each field in declaration order, setting the alias key to
the field's value when the alias is non-empty. A field with an empty alias
leaves the projection unchanged, the empty field list yields `{}`, and with a
`set` that meets its contract the keys of the result are the distinct simple
aliases in declaration order. -/
theorem evalFieldListExpr_projection {F : Type} (fo : Float64Ops F) (set : SetFn) (addr : Nat)
    (ev : Expr F → Exec (Node F)) (list : List (FieldExpr F)) (vs : FieldExpr F → Node F)
    (hev : ∀ f ∈ list, ev f.exp = .ret (vs f)) :
    evalFieldListExpr fo set addr ev list = .ret (.JSONNodeRef addr (projection fo set vs list))
    ∧ evalFieldListExpr fo set addr ev [] = .ret (.JSONNodeRef addr emptyObject)
    ∧ emptyObject.value = str "{}"
    ∧ (∀ (v : JSONNode) (f : FieldExpr F) (value : Node F), f.alias = [] →
        projectField fo set v f value = v)
    ∧ (∀ (keys : List UInt8 → List GoString) (Doc : List UInt8 → Prop)
        (Simple : GoString → Prop) (RawValue : List UInt8 → Prop),
        SetContract set keys Doc Simple RawValue →
        (∀ f ∈ list, f.alias ≠ [] → Simple f.alias ∧ RawValue ((vs f).Raw fo)) →
        (aliases list).Nodup →
        keys (projection fo set vs list).value = aliases list) := by
  refine ⟨?_, rfl, rfl, ?_, ?_⟩
  · simp only [evalFieldListExpr, evalFieldListLoop_eq_foldl fo set ev vs list emptyObject hev,
      Exec.ret_bind, projection]
  · intro v f value ha
    simp [projectField, ha]
  · intro keys Doc Simple RawValue hc hf hn
    have h := keys_foldl_projectField fo set vs keys Doc Simple RawValue hc list emptyObject
      hc.doc_empty hf (by simpa [emptyObject, hc.keys_empty] using hn)
    simpa [projection, emptyObject, hc.keys_empty] using h


/-! ## Theorems: the reference `set` meets the contract -/

theorem span_append_stop (p : UInt8 → Bool) (k : List UInt8) (x : UInt8) (r : List UInt8)
    (hk : ∀ b ∈ k, p b = true) (hx : p x = false) :
    (k ++ x :: r).span p = (k, x :: r) := by
  rw [List.span_eq_take_drop]
  induction k with
  | nil => simp [List.takeWhile, List.dropWhile, hx]
  | cons a as ih =>
    have ha : p a = true := hk a (List.mem_cons_self _ _)
    have has := ih fun b hb => hk b (List.mem_cons_of_mem _ hb)
    rw [Prod.mk.injEq] at has ⊢
    simp only [List.cons_append, List.takeWhile_cons, List.dropWhile_cons, ha, if_true]
    exact ⟨by rw [has.1], has.2⟩

theorem renderMembers_cons (m : GoString × List UInt8) (ms : List (GoString × List UInt8)) :
    renderMembers (m :: ms)
      = 34 :: (m.1 ++ 34 :: 58 :: (m.2 ++ (if ms = [] then [125] else 44 :: renderMembers ms))) := by
  cases ms with
  | nil => simp [renderMembers, renderMember]
  | cons m2 rest => simp [renderMembers, renderMember]

theorem readMembers_renderMembers (ms : List (GoString × List UInt8)) (n : Nat)
    (hne : ms ≠ []) (hlen : ms.length ≤ n) (hok : ∀ m ∈ ms, flatKeyOk m.1 ∧ flatValueOk m.2) :
    readMembers n (renderMembers ms) = some ms := by
  induction ms generalizing n with
  | nil => exact absurd rfl hne
  | cons m rest ih =>
    obtain ⟨n, rfl⟩ : ∃ n', n = n' + 1 := ⟨n - 1, by simp at hlen; omega⟩
    have hm := hok m (List.mem_cons_self _ _)
    have hkey : ∀ b ∈ m.1, (b != 34) = true := fun b hb => by simpa using hm.1.2 b hb
    have hval : ∀ b ∈ m.2, (b != 44 && b != 125) = true := fun b hb => by
      simpa using hm.2.2 b hb
    rw [renderMembers_cons]
    simp only [readMembers, ne_eq, not_true_eq_false, if_false]
    rw [span_append_stop (fun c => c != 34) m.1 34 _ hkey (by decide)]
    simp only [ne_eq, not_true_eq_false, if_false]
    cases rest with
    | nil =>
      simp only [if_true]
      rw [span_append_stop (fun c => c != 44 && c != 125) m.2 125 [] hval (by decide)]
      simp
    | cons m2 rest2 =>
      simp only [reduceCtorEq, if_false]
      rw [span_append_stop (fun c => c != 44 && c != 125) m.2 44 _ hval (by decide)]
      have hrec := ih n (by simp) (by simpa using hlen)
        fun x hx => hok x (List.mem_cons_of_mem _ hx)
      simp [hrec]

theorem length_le_renderMembers (ms : List (GoString × List UInt8)) :
    ms.length ≤ (renderMembers ms).length := by
  induction ms with
  | nil => simp
  | cons m rest ih =>
    rw [renderMembers_cons]
    cases rest with
    | nil => simp
    | cons m2 rest2 =>
      simp only [reduceCtorEq, if_false, List.length_cons, List.length_append] at ih ⊢
      omega

theorem flatMembers_flatRender (ms : List (GoString × List UInt8))
    (hok : ∀ m ∈ ms, flatKeyOk m.1 ∧ flatValueOk m.2) :
    flatMembers (flatRender ms) = some ms := by
  cases ms with
  | nil => simp [flatMembers, flatRender, renderMembers]
  | cons m rest =>
    have hne : renderMembers (m :: rest) ≠ [125] := by
      rw [renderMembers_cons]
      simp
    simp only [flatMembers, flatRender, ne_eq, not_true_eq_false, if_false, hne]
    exact readMembers_renderMembers _ _ (by simp) (length_le_renderMembers _) hok

theorem upsert_ok (k : GoString) (v : List UInt8) (ms : List (GoString × List UInt8))
    (hk : flatKeyOk k) (hv : flatValueOk v) (hok : ∀ m ∈ ms, flatKeyOk m.1 ∧ flatValueOk m.2) :
    ∀ m ∈ upsert k v ms, flatKeyOk m.1 ∧ flatValueOk m.2 := by
  induction ms with
  | nil =>
    intro m hm
    simp [upsert] at hm
    subst hm
    exact ⟨hk, hv⟩
  | cons a rest ih =>
    intro m hm
    have ha := hok a (List.mem_cons_self _ _)
    have hrest := ih fun x hx => hok x (List.mem_cons_of_mem _ hx)
    simp only [upsert] at hm
    split at hm
    · rcases List.mem_cons.mp hm with h | h
      · subst h
        exact ⟨hk, hv⟩
      · exact hok m (List.mem_cons_of_mem _ h)
    · rcases List.mem_cons.mp hm with h | h
      · subst h
        exact ha
      · exact hrest m h

theorem upsert_new (k : GoString) (v : List UInt8) (ms : List (GoString × List UInt8))
    (hnew : k ∉ ms.map Prod.fst) : (upsert k v ms).map Prod.fst = ms.map Prod.fst ++ [k] := by
  induction ms with
  | nil => rfl
  | cons a rest ih =>
    have h1 : a.1 ≠ k := fun h => hnew (by simp [h])
    have h2 : k ∉ rest.map Prod.fst := fun h => hnew (by simp [List.mem_map] at h ⊢; right; exact h)
    simp [upsert, h1, ih h2]

/-- The reference `set` on flat objects meets the contract of `set`. -/
theorem flatSet_contract : SetContract flatSet flatKeys flatDoc flatKeyOk flatValueOk where
  doc_empty := ⟨[], by decide, by simp⟩
  keys_empty := by decide
  set_doc := by
    rintro d k v ⟨ms, rfl, hok⟩ hk hv
    refine ⟨upsert k v ms, ?_, upsert_ok k v ms hk hv hok⟩
    simp [flatSet, flatMembers_flatRender ms hok]
  set_new := by
    rintro d k v ⟨ms, rfl, hok⟩ hk hv hnew
    have hks : flatKeys (flatRender ms) = ms.map Prod.fst := by
      simp [flatKeys, flatMembers_flatRender ms hok]
    rw [hks] at hnew ⊢
    have hset : (flatSet (flatRender ms) k v).1 = flatRender (upsert k v ms) := by
      simp [flatSet, flatMembers_flatRender ms hok]
    rw [hset]
    simp [flatKeys, flatMembers_flatRender _ (upsert_ok k v ms hk hv hok), upsert_new k v ms hnew]

/-- The projection of `123 as p1, true (no alias), "g" as p2` with the
reference `set`: the field without alias leaves no trace and the keys stand in
declaration order. -/
theorem evalFieldListExpr_projection_witness :
    evalFieldListExpr fixedPointOps flatSet 7 (eval fixedPointOps EvalCallExpr exampleContext 2)
        exampleFields
      = .ret (.JSONNodeRef 7 exampleDocument)
    ∧ flatKeys exampleDocument.value = [str "p1", str "p2"] := by
  have h := evalFieldListExpr_projection fixedPointOps flatSet 7
    (eval fixedPointOps EvalCallExpr exampleContext 2) exampleFields fieldLiteral (by decide)
  have hp : projection fixedPointOps flatSet fieldLiteral exampleFields = exampleDocument := by
    decide
  have hk := h.2.2.2.2 flatKeys flatDoc flatKeyOk flatValueOk flatSet_contract (by decide)
    (by decide)
  rw [hp] at h hk
  exact ⟨h.1, hk.trans (by decide)⟩

/-! ## Theorems: where `evalBinary` does return -/

theorem evalBinaryInt_ne_outOfFuel {F : Type} (op : Op) (a b : Int) :
    (evalBinaryInt op a b : Exec (Node F)) ≠ .outOfFuel := by
  cases op <;> simp [evalBinaryInt] <;> split <;> simp

theorem StringNode_To_Number_cases {F : Type} (fo : Float64Ops F) (s : GoString) :
    (∃ i, StringNode.To fo s .Number = .IntNode i) ∨ (∃ f, StringNode.To fo s .Number = .FloatNode f)
    ∨ StringNode.To fo s .Number = UNDEFINED_RESULT := by
  simp only [StringNode.To, StringNode.toInt, StringNode.toFloat]
  split
  · cases parseInt s <;> simp
  · cases fo.parse s <;> simp

theorem StringNode_To_Bool_cases {F : Type} (fo : Float64Ops F) (s : GoString) :
    (∃ b, StringNode.To fo s .Bool = .BoolNode b) ∨ StringNode.To fo s .Bool = UNDEFINED_RESULT := by
  simp only [StringNode.To]
  cases parseBool s <;> simp

/-- With a left operand that is not a string, and outside the case of C1,
`evalBinary` returns or panics within a budget of two. -/
theorem evalBinary_nonstring_ne_outOfFuel {F : Type} (fo : Float64Ops F) (n : Nat) (op : Op)
    (lhs rhs : Node F) (hl : ∀ s, lhs ≠ .StringNode s)
    (h : ∀ b addr j, lhs = .BoolNode b → rhs = .JSONNodeRef addr j → isBooleanOP op = false) :
    evalBinary fo (n + 2) op lhs rhs ≠ .outOfFuel := by
  cases lhs with
  | StringNode s => exact absurd rfl (hl s)
  | JSONNode j => simp [evalBinary]
  | FloatNode l =>
    cases rhs <;> simp [evalBinary]
    split <;> simp
  | IntNode l =>
    cases rhs <;> simp [evalBinary, evalBinaryInt_ne_outOfFuel]
    split <;> simp [evalBinaryInt_ne_outOfFuel]
  | BoolNode l =>
    cases rhs with
    | JSONNodeRef addr j => simp [evalBinary, h l addr j rfl rfl]
    | StringNode r =>
      simp only [evalBinary]
      split <;> simp
    | _ => simp [evalBinary]
  | JSONNodeRef addr j =>
    simp only [evalBinary]
    split
    · simp
    · rename_i hb
      split
      · cases rhs with
        | JSONNodeRef addr j => simp [evalBinary, hb]
        | StringNode r =>
          simp only [evalBinary]
          split <;> simp
        | _ => simp [evalBinary]
      · simp

/-- Outside the case of C1 (a `BoolNode` on the left, a `*JSONNode` on the
right and a comparison operator) `evalBinary` returns a node or panics within
a budget of three, whatever the operator and the operands. -/
theorem evalBinary_ne_outOfFuel {F : Type} (fo : Float64Ops F) (n : Nat) (op : Op)
    (lhs rhs : Node F)
    (h : ∀ b addr j, lhs = .BoolNode b → rhs = .JSONNodeRef addr j → isBooleanOP op = false) :
    evalBinary fo (n + 3) op lhs rhs ≠ .outOfFuel := by
  cases lhs with
  | StringNode l =>
    have hnum : ∀ rhs2 : Node F,
        evalBinary fo (n + 2) op (StringNode.To fo l .Number) rhs2 ≠ .outOfFuel := by
      intro rhs2
      apply evalBinary_nonstring_ne_outOfFuel
      · intro s hs
        rcases StringNode_To_Number_cases fo l with ⟨i, hi⟩ | ⟨f, hf⟩ | hu <;> simp_all [UNDEFINED_RESULT]
      · intro b addr j hb
        rcases StringNode_To_Number_cases fo l with ⟨i, hi⟩ | ⟨f, hf⟩ | hu <;> simp_all [UNDEFINED_RESULT]
    cases rhs with
    | FloatNode r =>
      show evalBinary fo (n + 2) op (StringNode.To fo l .Number) (.FloatNode r) ≠ .outOfFuel
      exact hnum _
    | IntNode r =>
      show evalBinary fo (n + 2) op (StringNode.To fo l .Number) (.IntNode r) ≠ .outOfFuel
      exact hnum _
    | BoolNode r =>
      show evalBinary fo (n + 2) op (StringNode.To fo l .Bool) (.BoolNode r) ≠ .outOfFuel
      apply evalBinary_nonstring_ne_outOfFuel
      · intro s hs
        rcases StringNode_To_Bool_cases fo l with ⟨i, hi⟩ | hu <;> simp_all [UNDEFINED_RESULT]
      · intro b addr j _ hr
        cases hr
    | StringNode r =>
      show evalBinaryString fo (evalBinary fo (n + 2)) op l r ≠ .outOfFuel
      unfold evalBinaryString
      split
      · exact hnum _
      · split <;> simp
    | JSONNode j => simp [evalBinary]
    | JSONNodeRef addr j => simp [evalBinary]
  | BoolNode l => exact evalBinary_nonstring_ne_outOfFuel fo (n + 1) op _ rhs (by simp) h
  | IntNode l => exact evalBinary_nonstring_ne_outOfFuel fo (n + 1) op _ rhs (by simp) h
  | FloatNode l => exact evalBinary_nonstring_ne_outOfFuel fo (n + 1) op _ rhs (by simp) h
  | JSONNode l => exact evalBinary_nonstring_ne_outOfFuel fo (n + 1) op _ rhs (by simp) h
  | JSONNodeRef a l => exact evalBinary_nonstring_ne_outOfFuel fo (n + 1) op _ rhs (by simp) h

/-! ## Theorems: conversions always return -/

theorem StringNode_To_undefined_iff {F : Type} (fo : Float64Ops F) (s : GoString)
    (typ : NodeType) :
    (StringNode.To fo s typ = UNDEFINED_RESULT ↔ convertibleText fo s typ = false) := by
  cases typ <;> simp [StringNode.To, StringNode.toInt, StringNode.toFloat, convertibleText,
    UNDEFINED_RESULT]
  · cases parseBool s <;> simp
  · split
    · cases fo.parse s <;> simp
    · cases parseInt s <;> simp
  · cases parseInt s <;> simp
  · cases fo.parse s <;> simp

/-- C11. `To` is a total function: for every node `v` and every type tag `T`
it returns a node. The result is the shared sentinel `UNDEFINED_RESULT`
exactly when the conversion is impossible (no rule for the pair, or the text
does not parse as the target), in particular whenever `T` is `Null` or
`Undefined`; the sentinel has the type tag `Undefined` and carries no error. -/
theorem To_total_undefined {F : Type} (fo : Float64Ops F) (v : Node F) (T : NodeType) :
    (∃ n : Node F, v.To fo T = n)
    ∧ (v.To fo T = UNDEFINED_RESULT ↔ convertible fo v T = false)
    ∧ (T = .Null ∨ T = .Undefined → v.To fo T = UNDEFINED_RESULT)
    ∧ (UNDEFINED_RESULT : Node F).Type = .Undefined
    ∧ (UNDEFINED_RESULT : Node F).Error = none := by
  have hiff : v.To fo T = UNDEFINED_RESULT ↔ convertible fo v T = false := by
    cases v with
    | BoolNode b => cases T <;> simp [Node.To, BoolNode.To, convertible, UNDEFINED_RESULT]
    | IntNode i => cases T <;> simp [Node.To, IntNode.To, convertible, UNDEFINED_RESULT]
    | FloatNode f => cases T <;> simp [Node.To, FloatNode.To, convertible, UNDEFINED_RESULT]
    | StringNode s => simpa [Node.To, convertible] using StringNode_To_undefined_iff fo s T
    | JSONNode j =>
      cases T <;>
        simp only [Node.To, JSONNode.To, JSONNode.String, convertible,
          StringNode_To_undefined_iff] <;>
        simp [UNDEFINED_RESULT, convertibleText]
    | JSONNodeRef a j =>
      cases T <;>
        simp only [Node.To, JSONNode.To, JSONNode.String, convertible,
          StringNode_To_undefined_iff] <;>
        simp [UNDEFINED_RESULT, convertibleText]
  refine ⟨⟨_, rfl⟩, hiff, ?_, rfl, rfl⟩
  intro h
  rw [hiff]
  rcases h with h | h <;> subst h <;> cases v <;> simp [convertible, convertibleText]

/-! ## Theorems: type tags of constructed documents -/

/-- C13, counterexample. The document built from the JSON number `42` carries
the type tag `Number`: the scanner reports a number and the table
`jsonparserDatetype` maps it to `Number`. -/
theorem New_number_counterexample : (New refLib (str "42")).datatype = .Number := by
  decide

/-- C13, amended. For every input `d` the type tag of `New(d)` is one of
`Undefined`, `Null`, `Bool`, `Number`, `String`, `Object`, `Array`; it is never
`Int`, `Float` or `JSON`, it is `Undefined` when the scanner reports an error,
and it is `Number` when the scanner reports a number. -/
theorem New_datatype (lib : JSONLib) (d : List UInt8) :
    ((New lib d).datatype = .Undefined ∨ (New lib d).datatype = .Null
      ∨ (New lib d).datatype = .Bool ∨ (New lib d).datatype = .Number
      ∨ (New lib d).datatype = .String ∨ (New lib d).datatype = .Object
      ∨ (New lib d).datatype = .Array)
    ∧ (New lib d).datatype ≠ .Int ∧ (New lib d).datatype ≠ .Float
    ∧ (New lib d).datatype ≠ .JSON
    ∧ ((lib.jsonparserGet d).2 ≠ none → (New lib d).datatype = .Undefined)
    ∧ (lib.jsonparserGet d = (.Number, none) → (New lib d).datatype = .Number) := by
  have hnum : lib.jsonparserGet d = (.Number, none) → (New lib d).datatype = .Number := by
    intro h
    simp [New, newCollect, h, datetypeOfValueType, jsonparserDatetype]
  refine ⟨?_, ?_, ?_, ?_, ?_, hnum⟩ <;>
    simp only [New, newCollect] <;>
    cases h2 : (lib.jsonparserGet d).2 <;>
    cases h1 : (lib.jsonparserGet d).1 <;>
    simp [datetypeOfValueType, jsonparserDatetype]

/-- C16, counterexample. `Get` on the empty object with the path `a`, which is
absent from it, returns a node whose type tag is `Null`, not `Undefined`. -/
theorem Get_absent_counterexample :
    (Collect.Get refLib emptyObject [str "a"]).datatype = .Null
    ∧ (Collect.Get refLib emptyObject [str "a"]).datatype ≠ .Undefined := by
  decide

/-- C16, amended. For every document and every non-empty path, the node that
`Get` returns never has the type tag `Undefined`: the tag comes from the table
`gjsonDatetype`, and it is `Null` when the path engine finds nothing (a result
of type `Null`, as for an absent segment). -/
theorem Get_datatype (lib : JSONLib) (cc : JSONNode) (path : List GoString)
    (h : Join path (str ".") ≠ []) :
    (Collect.Get lib cc path).datatype ≠ .Undefined
    ∧ ((lib.gjsonGetBytes cc.value (lib.path2GJSON (Join path (str ".")))).typ = .Null →
        (Collect.Get lib cc path).datatype = .Null) := by
  simp only [Collect.Get, h, if_false, get, newCollectFromJsonResult, datetypeOfResult]
  constructor
  · cases (lib.gjsonGetBytes cc.value (lib.path2GJSON (Join path (str ".")))).typ <;>
      simp [gjsonDatetype]
    split <;> [simp; (split <;> simp)]
  · intro h0
    simp [h0, gjsonDatetype]

/-- The path `a` on the empty object: non-empty, and the tag of the result is
`Null`. -/
theorem Get_datatype_witness :
    (Collect.Get refLib emptyObject [str "a"]).datatype ≠ .Undefined
    ∧ ((refLib.gjsonGetBytes emptyObject.value (refLib.path2GJSON (Join [str "a"] (str ".")))).typ
        = .Null → (Collect.Get refLib emptyObject [str "a"]).datatype = .Null) :=
  Get_datatype refLib emptyObject [str "a"] (by decide)

/-! ## Theorems: datatype guards of the bulk operations -/

/-- The outcomes of `Merge` by the type tags: the guard raises the error only
when neither document is an `Object`; a `Null` receiver with an `Object`
argument returns the argument; an `Object` receiver with an argument that is
neither an `Object` nor an `Array` is returned as it was, without an error. -/
theorem Merge_guard (lib : JSONLib) (cc mc : JSONNode) :
    (cc.datatype ≠ .Object → mc.datatype ≠ .Object →
      (Collect.Merge lib cc mc).returnsOther = false
      ∧ (Collect.Merge lib cc mc).self.err = some (str "datatype is not object")
      ∧ (Collect.Merge lib cc mc).self.value = cc.value
      ∧ (Collect.Merge lib cc mc).self.datatype = cc.datatype)
    ∧ (cc.datatype = .Null → mc.datatype = .Object →
      (Collect.Merge lib cc mc).returnsOther = true
      ∧ (Collect.Merge lib cc mc).self = cc
      ∧ (Collect.Merge lib cc mc).node mc = mc)
    ∧ (cc.datatype = .Object → mc.datatype ≠ .Object → mc.datatype ≠ .Array →
      (Collect.Merge lib cc mc).returnsOther = false
      ∧ (Collect.Merge lib cc mc).self = cc) := by
  refine ⟨?_, ?_, ?_⟩
  · intro h1 h2
    simp [Collect.Merge, h1, h2]
  · intro h1 h2
    simp [Collect.Merge, h1, h2, MergeResult.node]
  · intro h1 h2 h3
    simp [Collect.Merge, h1, h2, h3, forEachEntries]

/-- C18. The guard of `Merge` joins its two tests with `&&`, so it lets the
mixed pairs through. With every library: a receiver that is an `Object` and an
argument that is neither an `Object` nor an `Array` give back the receiver as
it was, its error field included; a receiver that is neither an `Object` nor
`Null` and an argument that is an `Object` go on to the loop, which sets the
members of the argument in the receiver. On the object `{}` and the string
document `x`, `Merge` returns the object without an error. -/
theorem Merge_mixed_types_pass_guard :
    (∀ (lib : JSONLib) (cc mc : JSONNode), cc.datatype = .Object → mc.datatype ≠ .Object →
      mc.datatype ≠ .Array →
      (Collect.Merge lib cc mc).returnsOther = false
      ∧ (Collect.Merge lib cc mc).self.err = cc.err
      ∧ (Collect.Merge lib cc mc).self = cc)
    ∧ (∀ (lib : JSONLib) (cc mc : JSONNode), cc.datatype ≠ .Object → cc.datatype ≠ .Null →
      mc.datatype = .Object →
      (Collect.Merge lib cc mc).returnsOther = false
      ∧ (Collect.Merge lib cc mc).self
        = (forEachEntries lib mc.value mc.datatype).foldl
            (fun cc e => Collect.setRaw lib cc e.1 e.2.Raw) cc)
    ∧ emptyObject.datatype = .Object
    ∧ stringDocument.datatype = .String
    ∧ (Collect.Merge refLib emptyObject stringDocument).self.err = none
    ∧ (Collect.Merge refLib emptyObject stringDocument).self = emptyObject
    ∧ (Collect.Merge refLib emptyObject stringDocument).returnsOther = false := by
  refine ⟨?_, ?_, by decide, by decide, by decide, by decide, by decide⟩
  · intro lib cc mc h1 h2 h3
    simp [Collect.Merge, h1, h2, h3, forEachEntries]
  · intro lib cc mc h1 h2 h3
    simp [Collect.Merge, h1, h2, h3]

/-- C20. On a document whose type tag is not `Array`, `GroupBy` and `MergeBy`
set the error field and return that same document, bytes and type tag
unchanged; on a document whose type tag is neither `Array` nor `Object`,
`SortBy` sets the error field and leaves bytes and type tag unchanged. -/
theorem bulk_operations_datatype_guard (lib : JSONLib) (cc : JSONNode) (path : GoString)
    (paths : List GoString) (fn : JSONNode → JSONNode → Bool) :
    (cc.datatype ≠ .Array →
      (Collect.GroupBy lib cc path).returned = none
      ∧ (Collect.GroupBy lib cc path).receiver.err = some (str "datatype is not array")
      ∧ (Collect.GroupBy lib cc path).receiver.value = cc.value
      ∧ (Collect.GroupBy lib cc path).receiver.datatype = cc.datatype)
    ∧ (cc.datatype ≠ .Array →
      (Collect.MergeBy lib cc paths).returned = none
      ∧ (Collect.MergeBy lib cc paths).receiver.err
          = some (str "MergeBy: datatype is not array")
      ∧ (Collect.MergeBy lib cc paths).receiver.value = cc.value
      ∧ (Collect.MergeBy lib cc paths).receiver.datatype = cc.datatype)
    ∧ (cc.datatype ≠ .Array → cc.datatype ≠ .Object →
      (Collect.SortBy lib cc fn).err = some (str "SortBy:datatype is not array or object")
      ∧ (Collect.SortBy lib cc fn).value = cc.value
      ∧ (Collect.SortBy lib cc fn).datatype = cc.datatype) := by
  refine ⟨?_, ?_, ?_⟩
  · intro h
    simp [Collect.GroupBy, h]
  · intro h
    simp [Collect.MergeBy, h]
  · intro h1 h2
    simp [Collect.SortBy, h1, h2]

/-- The guards on concrete documents: `GroupBy` and `MergeBy` on the empty
object, `SortBy` on a string document. -/
theorem bulk_operations_datatype_guard_examples :
    (Collect.GroupBy refLib emptyObject (str "k")).returned = none
    ∧ (Collect.GroupBy refLib emptyObject (str "k")).receiver
        = { emptyObject with err := some (str "datatype is not array") }
    ∧ (Collect.MergeBy refLib emptyObject [str "a"]).returned = none
    ∧ (Collect.SortBy refLib stringDocument fun _ _ => true)
        = { stringDocument with err := some (str "SortBy:datatype is not array or object") } := by
  decide

/-! ## Theorems: `MergeBy` -/

/-- C17. An element that has the first path but lacks a later one is not
skipped by `MergeBy`: the loop over the paths stops (`break`) at the first
empty value and keeps the keys found so far, so the element is merged under
the key made of those. On `[{"a":"1","x":1}]` with the paths `a` and `b` the
result is `{"1":{"a":"1","x":1}}`, not the empty object. -/
theorem MergeBy_keeps_partial_key :
    (∀ (lib : JSONLib) (value : JSONNode) (p1 p2 : GoString),
      (Collect.Get lib value [p1]).String ≠ [] → (Collect.Get lib value [p2]).String = [] →
      mergeByKeys lib value [p1, p2] = [(Collect.Get lib value [p1]).String])
    ∧ forEachEntries refLib mergeByInput.value mergeByInput.datatype
        = [(str "[0]", mergeByElement)]
    ∧ (Collect.Get refLib mergeByElement [str "a"]).String = str "1"
    ∧ (Collect.Get refLib mergeByElement [str "b"]).String = []
    ∧ (Collect.MergeBy refLib mergeByInput [str "a", str "b"]).returned = some mergeByOutput := by
  refine ⟨?_, by decide, by decide, by decide, by decide⟩
  intro lib value p1 p2 h1 h2
  simp [mergeByKeys, h1, h2]

/-- The elements `MergeBy` does skip: those whose value at the first path is
empty. -/
theorem mergeByStep_skips_first_missing (lib : JSONLib) (paths : List GoString) (p : GoString)
    (ret value : JSONNode) (h : (Collect.Get lib value [p]).String = []) :
    mergeByStep lib (p :: paths) ret value = ret := by
  simp [mergeByStep, mergeByKeys, h]

/-! ## Theorems: errors of `Set` and `Append` -/

/-- `Collect.Set` stores the bytes and the error of the primitive as they come:
there is no test of the error in between. -/
theorem Collect_Set_stores_primitive {F : Type} (fo : Float64Ops F) (lib : JSONLib)
    (cc : JSONNode) (path : GoString) (value : Node F) :
    (Collect.Set fo lib.sjsonSetRawBytes cc path value).value
      = (lib.sjsonSetRawBytes cc.value path (value.Raw fo)).1
    ∧ (Collect.Set fo lib.sjsonSetRawBytes cc path value).err
      = (lib.sjsonSetRawBytes cc.value path (value.Raw fo)).2 := by
  simp [Collect.Set]

/-! ## Theorems: decimal text of an integer -/

theorem toDigitsCore_eq_append (fuel : Nat) :
    ∀ (m : Nat) (ds : List Char), m < fuel →
      Nat.toDigitsCore 10 fuel m ds = Nat.toDigitsCore 10 (m + 1) m [] ++ ds := by
  induction fuel using Nat.strong_induction_on with
  | _ fuel ih =>
    intro m ds hm
    obtain ⟨f, rfl⟩ : ∃ f, fuel = f + 1 := ⟨fuel - 1, by omega⟩
    simp only [Nat.toDigitsCore]
    by_cases h0 : m / 10 = 0
    · simp [h0]
    · simp only [h0, if_false]
      have hlt : m / 10 < m := Nat.div_lt_self (by omega) (by omega)
      rw [ih f (by omega) (m / 10) _ (by omega)]
      by_cases hmf : m = 0
      · omega
      · obtain ⟨m', rfl⟩ : ∃ m', m = m' + 1 := ⟨m - 1, by omega⟩
        rw [ih (m' + 1) (by omega) ((m' + 1) / 10) _ hlt]
        simp

theorem toDigits_of_lt_ten (n : Nat) (h : n < 10) : Nat.toDigits 10 n = [Nat.digitChar n] := by
  have h0 : n / 10 = 0 := Nat.div_eq_of_lt h
  simp [Nat.toDigits, Nat.toDigitsCore, h0, Nat.mod_eq_of_lt h]

theorem toDigits_of_ten_le (n : Nat) (h : 10 ≤ n) :
    Nat.toDigits 10 n = Nat.toDigits 10 (n / 10) ++ [Nat.digitChar (n % 10)] := by
  have h0 : n / 10 ≠ 0 := by
    intro h0
    have := (Nat.div_eq_zero_iff (by omega : 0 < 10)).mp h0
    omega
  have hlt : n / 10 < n := Nat.div_lt_self (by omega) (by omega)
  have h1 : Nat.toDigitsCore 10 (n + 1) n []
      = Nat.toDigitsCore 10 n (n / 10) [Nat.digitChar (n % 10)] := by
    rw [Nat.toDigitsCore]
    simp only [h0, if_false]
  show Nat.toDigitsCore 10 (n + 1) n [] = Nat.toDigitsCore 10 (n / 10 + 1) (n / 10) [] ++ _
  rw [h1, toDigitsCore_eq_append n (n / 10) _ hlt]

theorem digitChar_byte (k : Nat) (h : k < 10) :
    (Nat.digitChar k).toNat.toUInt8 = (48 + k).toUInt8
    ∧ 48 ≤ (Nat.digitChar k).toNat.toUInt8 ∧ (Nat.digitChar k).toNat.toUInt8 ≤ 57
    ∧ (Nat.digitChar k).toNat.toUInt8.toNat - 48 = k := by
  interval_cases k <;> decide

theorem parseDigits_append_digit (xs : GoString) (c : UInt8) (acc : Nat)
    (hc : 48 ≤ c ∧ c ≤ 57) :
    parseDigits (xs ++ [c]) acc
      = (parseDigits xs acc).map fun a => a * 10 + (c.toNat - 48) := by
  induction xs generalizing acc with
  | nil => simp [parseDigits, hc]
  | cons x xs ih =>
    simp only [List.cons_append, parseDigits]
    split
    · exact ih _
    · rfl

/-- The decimal digits of `n` read back as `n`. -/
theorem parseDigits_natDigits (n : Nat) : parseDigits (natDigits n) 0 = some n := by
  induction n using Nat.strong_induction_on with
  | _ n ih =>
    by_cases h : n < 10
    · have hd := digitChar_byte n h
      simp only [natDigits, toDigits_of_lt_ten n h, List.map, parseDigits, hd.2.1, hd.2.2.1,
        and_self, if_true, hd.2.2.2]
      simp
    · have h10 : 10 ≤ n := by omega
      have hlt : n / 10 < n := Nat.div_lt_self (by omega) (by omega)
      have hd := digitChar_byte (n % 10) (Nat.mod_lt _ (by omega))
      have hrec := ih (n / 10) hlt
      have hsplit : natDigits n = natDigits (n / 10) ++ [(Nat.digitChar (n % 10)).toNat.toUInt8] := by
        simp [natDigits, toDigits_of_ten_le n h10]
      rw [hsplit, parseDigits_append_digit _ _ _ ⟨hd.2.1, hd.2.2.1⟩, hrec, hd.2.2.2]
      simp only [Option.map_some']
      congr 1
      omega

theorem natDigits_head (n : Nat) :
    ∃ c cs, natDigits n = c :: cs ∧ 48 ≤ c ∧ c ≤ 57 := by
  induction n using Nat.strong_induction_on with
  | _ n ih =>
    by_cases h : n < 10
    · have hd := digitChar_byte n h
      exact ⟨_, [], by simp [natDigits, toDigits_of_lt_ten n h], hd.2.1, hd.2.2.1⟩
    · have h10 : 10 ≤ n := by omega
      have hlt : n / 10 < n := Nat.div_lt_self (by omega) (by omega)
      obtain ⟨c, cs, hcs, hc⟩ := ih (n / 10) hlt
      refine ⟨c, cs ++ [(Nat.digitChar (n % 10)).toNat.toUInt8], ?_, hc⟩
      have hsplit : natDigits n = natDigits (n / 10) ++ [(Nat.digitChar (n % 10)).toNat.toUInt8] := by
        simp [natDigits, toDigits_of_ten_le n h10]
      rw [hsplit, hcs]
      rfl

/-- The decimal text of an `int64` parses back to it. -/
theorem parseInt_formatInt (i : Int) (h : isInt64 i) : parseInt (formatInt i) = some i := by
  unfold isInt64 at h
  obtain ⟨c, cs, hcs, hc1, hc2⟩ := natDigits_head i.natAbs
  have hp := parseDigits_natDigits i.natAbs
  have hc43 : c ≠ 43 := by
    intro h43
    subst h43
    exact absurd hc1 (by decide)
  have hc45 : c ≠ 45 := by
    intro h45
    subst h45
    exact absurd hc1 (by decide)
  by_cases hneg : i < 0
  · simp only [formatInt, hneg, if_true, parseInt]
    simp only [hcs] at hp ⊢
    simp only [beq_self_eq_true, or_true, if_true, hp]
    have hr : ¬ (i.natAbs > 2 ^ 63) := by omega
    simp [hr, abs_of_neg hneg]
    omega
  · simp only [formatInt, hneg, if_false, hcs, parseInt]
    simp only [hcs] at hp
    have hb1 : (c == 43) = false := by simpa using hc43
    have hb2 : (c == 45) = false := by simpa using hc45
    simp only [hb1, hb2, Bool.false_eq_true, or_self, if_false, hp]
    have hr : ¬ (i.natAbs ≥ 2 ^ 63) := by omega
    simp [hr, abs_of_nonneg (not_lt.mp hneg)]
    omega

theorem parseDigits_acc_le (cs : GoString) :
    ∀ a b r, a ≤ b → parseDigits cs b = some r → ∃ r', parseDigits cs a = some r' ∧ r' ≤ r := by
  induction cs with
  | nil =>
    intro a b r hab h
    simp only [parseDigits, Option.some.injEq] at h
    exact ⟨a, rfl, by omega⟩
  | cons c cs ih =>
    intro a b r hab h
    simp only [parseDigits] at h ⊢
    split at h
    · rename_i hc
      simp only [hc, and_self, if_true]
      exact ih _ _ r (by omega) h
    · exact absurd h (by simp)

theorem parseDigits_head_digit (c : UInt8) (cs : GoString) (acc r : Nat)
    (h : parseDigits (c :: cs) acc = some r) : 48 ≤ c ∧ c ≤ 57 := by
  simp only [parseDigits] at h
  split at h
  · assumption
  · exact absurd h (by simp)

/-- A text that opens with a digit parses, if at all, to the natural number its
digits spell. -/
theorem parseInt_digits (c : UInt8) (cs : GoString) (v : Int) (hc : 48 ≤ c)
    (h : parseInt (c :: cs) = some v) :
    ∃ un : Nat, parseDigits (c :: cs) 0 = some un ∧ v = un := by
  have hc43 : c ≠ 43 := by
    intro h43
    subst h43
    exact absurd hc (by decide)
  have hc45 : c ≠ 45 := by
    intro h45
    subst h45
    exact absurd hc (by decide)
  have hb1 : (c == 43) = false := by simpa using hc43
  have hb2 : (c == 45) = false := by simpa using hc45
  simp only [parseInt, hb1, hb2, Bool.false_eq_true, or_self, if_false] at h
  cases hp : parseDigits (c :: cs) 0 with
  | none => simp [hp] at h
  | some un =>
    simp only [hp] at h
    refine ⟨un, rfl, ?_⟩
    split at h
    · exact absurd h (by simp)
    · simp at h
      exact h.symm

/-- The decimal text of an integer without its first and its last byte does not
parse back to the integer. -/
theorem parseInt_formatInt_stripped (i : Int) :
    parseInt (formatInt i).tail.dropLast ≠ some i := by
  intro h
  by_cases hneg : i < 0
  · obtain ⟨c, cs, hcs, hc1, _⟩ := natDigits_head i.natAbs
    simp only [formatInt, hneg, if_true, List.tail_cons, hcs] at h
    cases cs with
    | nil => simp [parseInt] at h
    | cons c2 cs2 =>
      rw [List.dropLast_cons_of_ne_nil (by simp)] at h
      obtain ⟨un, _, hv⟩ := parseInt_digits c _ i hc1 h
      omega
  · by_cases h10 : i.natAbs < 10
    · have hd : natDigits i.natAbs = [(Nat.digitChar i.natAbs).toNat.toUInt8] := by
        simp [natDigits, toDigits_of_lt_ten i.natAbs h10]
      simp [formatInt, hneg, hd, parseInt] at h
    · have hge : 10 ≤ i.natAbs := by omega
      have hsplit : natDigits i.natAbs
          = natDigits (i.natAbs / 10) ++ [(Nat.digitChar (i.natAbs % 10)).toNat.toUInt8] := by
        simp [natDigits, toDigits_of_ten_le i.natAbs hge]
      obtain ⟨c, cs, hcs, hc1, _⟩ := natDigits_head (i.natAbs / 10)
      have hp := parseDigits_natDigits (i.natAbs / 10)
      rw [hcs] at hp hsplit
      have hstrip : (formatInt i).tail.dropLast = cs := by
        simp [formatInt, hneg, hsplit]
      rw [hstrip] at h
      cases cs with
      | nil => simp [parseInt] at h
      | cons c2 cs2 =>
        have hp2 : parseDigits (c2 :: cs2) (0 * 10 + (c.toNat - 48)) = some (i.natAbs / 10) := by
          have hcd := parseDigits_head_digit c (c2 :: cs2) 0 _ hp
          rw [parseDigits] at hp
          simpa [hcd] using hp
        obtain ⟨r, hr, hle⟩ := parseDigits_acc_le (c2 :: cs2) 0 _ _ (Nat.zero_le _) hp2
        have hc2 := parseDigits_head_digit c2 cs2 0 r hr
        obtain ⟨un, hun, hv⟩ := parseInt_digits c2 cs2 i hc2.1 h
        rw [hr] at hun
        have : r = un := Option.some.inj hun
        have hlt : i.natAbs / 10 < i.natAbs := Nat.div_lt_self (by omega) (by omega)
        omega

/-! ## Theorems: round trip through the raw text -/

/-- C12, counterexample. The `FloatNode` 0.1234567 (in the decimal stand-in
with seven fractional digits) has the raw text `0.123457`, six fractional
digits as `%f` writes them, and the text parses back to 0.1234570: the round
trip does not return the node. -/
theorem roundTrip_float_counterexample :
    (Node.FloatNode 1234567 : Node Int).Raw sevenDigitOps = str "0.123457"
    ∧ roundTrip sevenDigitOps refLib (.FloatNode 1234567) = .FloatNode 1234570
    ∧ roundTrip sevenDigitOps refLib (.FloatNode 1234567) ≠ .FloatNode 1234567 := by
  decide

/-- A `StringNode` whose text ends in a backslash: the quoted raw text `"a\"`
does not close for the reference scanner, `New` records the error and keeps
the quotes, and the round trip returns the quoted text. -/
theorem roundTrip_string_backslash :
    (New refLib ((Node.StringNode (str "a\\") : Node Int).Raw fixedPointOps)).err
      = some (str "Value is string, but can't find closing '\"' symbol")
    ∧ roundTrip fixedPointOps refLib (.StringNode (str "a\\")) = .StringNode (str "\"a\\\"") := by
  decide

/-- Outside its `String` branch `newCollect` keeps the bytes it was given. -/
theorem New_value_of_not_string (lib : JSONLib) (d : List UInt8) (h : ¬ readsAsString lib d) :
    (New lib d).value = d := by
  simp only [New, newCollect]
  cases h2 : (lib.jsonparserGet d).2 with
  | some e => rfl
  | none =>
    have : datetypeOfValueType (lib.jsonparserGet d).1 ≠ .String := fun hs => h ⟨h2, hs⟩
    simp [this]

/-- In its `String` branch `newCollect` drops the first and the last byte. -/
theorem New_value_of_string (lib : JSONLib) (d : List UInt8) (h : readsAsString lib d) :
    (New lib d).value = (d.drop 1).dropLast := by
  simp [New, newCollect, h.1, h.2]

/-- C12, amended. For every scanner: a `BoolNode` and an `IntNode` (an `int64`)
come back from `New(n.Raw()).To(n.Type())` as themselves exactly when `New` does
not take its `String` branch on their text; a `StringNode` comes back as itself
exactly when `New` takes its `String` branch on its quoted text; a `FloatNode`
whose text does not take the `String` branch comes back as the `FloatNode`
parsed from its six-decimal text, which is the node itself exactly when that
text parses back to it. -/
theorem roundTrip_scalar {F : Type} (fo : Float64Ops F) (lib : JSONLib) :
    (∀ b : Bool, roundTrip fo lib (.BoolNode b) = .BoolNode b
        ↔ ¬ readsAsString lib (formatBool b))
    ∧ (∀ i : Int, isInt64 i →
        (roundTrip fo lib (.IntNode i) = .IntNode i ↔ ¬ readsAsString lib (formatInt i)))
    ∧ (∀ s : GoString, roundTrip fo lib (.StringNode s) = .StringNode s
        ↔ readsAsString lib ([34] ++ s ++ [34]))
    ∧ (∀ f : F, ¬ readsAsString lib (fo.format f) →
        roundTrip fo lib (.FloatNode f) = StringNode.toFloat fo (fo.format f)
        ∧ (roundTrip fo lib (.FloatNode f) = .FloatNode f ↔ fo.parse (fo.format f) = some f)) := by
  refine ⟨?_, ?_, ?_, ?_⟩
  · intro b
    have hp : parseBool (formatBool b) = some b := by cases b <;> decide
    have hq : parseBool (formatBool b).tail.dropLast = none := by cases b <;> decide
    by_cases h : readsAsString lib (formatBool b)
    · have hv := New_value_of_string lib (formatBool b) h
      simp [roundTrip, Node.Raw, Node.Type, JSONNode.To, JSONNode.String, hv, StringNode.To, hq, h,
        UNDEFINED_RESULT]
    · have hv := New_value_of_not_string lib (formatBool b) h
      simp [roundTrip, Node.Raw, Node.Type, JSONNode.To, JSONNode.String, hv, StringNode.To, hp, h]
  · intro i hi
    by_cases h : readsAsString lib (formatInt i)
    · have hv := New_value_of_string lib (formatInt i) h
      have hq := parseInt_formatInt_stripped i
      have hr : roundTrip fo lib (.IntNode i) = StringNode.toInt (formatInt i).tail.dropLast := by
        simp [roundTrip, Node.Raw, Node.Type, JSONNode.To, JSONNode.String, hv, StringNode.To]
      rw [hr]
      simp only [StringNode.toInt, h, not_true_eq_false, iff_false]
      cases hp : parseInt (formatInt i).tail.dropLast with
      | none => simp [UNDEFINED_RESULT]
      | some v =>
        have : v ≠ i := fun hvi => hq (hvi ▸ hp)
        simpa using this
    · have hv := New_value_of_not_string lib (formatInt i) h
      simp [roundTrip, Node.Raw, Node.Type, JSONNode.To, JSONNode.String, hv, StringNode.To,
        StringNode.toInt, parseInt_formatInt i hi, h]
  · intro s
    have hq : [34] ++ s ++ [34] = (34 : UInt8) :: (s ++ [34]) := by simp
    rw [hq]
    have hr : roundTrip fo lib (.StringNode s)
        = .StringNode (New lib ((34 : UInt8) :: (s ++ [34]))).value := by
      simp [roundTrip, Node.Raw, Node.Type, JSONNode.To, JSONNode.String]
    rw [hr]
    by_cases h : readsAsString lib ((34 : UInt8) :: (s ++ [34]))
    · have hv := New_value_of_string lib _ h
      have hd : (List.drop 1 ((34 : UInt8) :: (s ++ [34]))).dropLast = s := by simp
      rw [hd] at hv
      simp [hv, h]
    · have hv := New_value_of_not_string lib _ h
      have hne : (34 : UInt8) :: (s ++ [34]) ≠ s := by
        intro he
        have := congrArg List.length he
        simp at this
        omega
      simp [hv, h, hne]
  · intro f hf
    have hv := New_value_of_not_string lib (fo.format f) hf
    have h1 : roundTrip fo lib (.FloatNode f) = StringNode.toFloat fo (fo.format f) := by
      simp [roundTrip, Node.Raw, Node.Type, JSONNode.To, JSONNode.String, hv, StringNode.To]
    refine ⟨h1, ?_⟩
    rw [h1]
    simp only [StringNode.toFloat]
    cases fo.parse (fo.format f) <;> simp [UNDEFINED_RESULT]

/-- The round trip with the reference scanner: `true`, `-12` and the string
`abc` come back as themselves, and 1.5 comes back as itself in the decimal
stand-in with seven fractional digits. -/
theorem roundTrip_scalar_witness :
    roundTrip sevenDigitOps refLib (.BoolNode true) = .BoolNode true
    ∧ roundTrip sevenDigitOps refLib (.IntNode (-12)) = .IntNode (-12)
    ∧ roundTrip sevenDigitOps refLib (.StringNode (str "abc")) = .StringNode (str "abc")
    ∧ roundTrip sevenDigitOps refLib (.FloatNode 15000000) = .FloatNode 15000000 := by
  have h := roundTrip_scalar sevenDigitOps refLib
  exact ⟨(h.1 true).mpr (by decide), (h.2.1 (-12) (by decide)).mpr (by decide),
    (h.2.2.1 (str "abc")).mpr (by decide),
    ((h.2.2.2 15000000 (by decide)).2).mpr (by decide)⟩

/-! ## Theorems: `Append` on a missing path -/

theorem renderArray_singleton (v : List UInt8) : str "[" ++ v ++ str "]" = renderArray [v] := by
  have h1 : str "[" = [91] := by decide
  have h2 : str "]" = [93] := by decide
  simp [h1, h2, renderArray, renderElements]

theorem Join_singleton (k : GoString) : Join [k] (str ".") = k := rfl

theorem newCollectFromJsonResult_array (es : List (List UInt8)) :
    newCollectFromJsonResult (resultOfRaw (renderArray es))
      = { value := renderArray es, path := [], datatype := .Array, offset := 0, err := none } := by
  simp [newCollectFromJsonResult, resultOfRaw, renderArray, refValueType, datetypeOfResult,
    gjsonDatetype, Result.IsArray]

theorem appendRaw_missing (lib : JSONLib) (view : List UInt8 → List (GoString × List UInt8))
    (Doc : List UInt8 → Prop) (Simple : GoString → Prop) (Elem : List UInt8 → Prop)
    (hc : ObjectContract lib view Doc Simple Elem) (cc : JSONNode) (k : GoString)
    (v : List UInt8) (hd : Doc cc.value) (hk : Simple k) (hv : Elem v)
    (hmiss : k ∉ (view cc.value).map Prod.fst) :
    (Collect.appendRaw lib cc k v).err = none
    ∧ (Collect.appendRaw lib cc k v).value = (set lib cc.value k (renderArray [v])).1
    ∧ (Collect.appendRaw lib cc k v).datatype = cc.datatype
    ∧ Doc (Collect.appendRaw lib cc k v).value
    ∧ view (Collect.appendRaw lib cc k v).value = view cc.value ++ [(k, renderArray [v])] := by
  have hadd := hc.add_missing cc.value k v hd hk hv hmiss
  have hset := hc.set_missing cc.value k v hd hk hv hmiss
  simp only [Collect.appendRaw, hadd, if_true, renderArray_singleton]
  exact ⟨hset.1, trivial, trivial, hset.2.1, hset.2.2⟩

/-- C15. With primitives that meet the contract of `get`, `set` and `append`:
on a document of the class, for a key `p` the document does not have and a
value `v`, `Append(p, v)` leaves no error, `Get(p)` then returns the singleton
array `[v]`, and every member the document had before is still there with its
previous value. The bytes are those of `set(p, [v])` applied to the document as
it was before the failed append. -/
theorem Append_missing_path {F : Type} (fo : Float64Ops F) (lib : JSONLib)
    (view : List UInt8 → List (GoString × List UInt8)) (Doc : List UInt8 → Prop)
    (Simple : GoString → Prop) (Elem : List UInt8 → Prop)
    (hc : ObjectContract lib view Doc Simple Elem) (cc : JSONNode) (p : GoString)
    (value : Node F) (hd : Doc cc.value) (hp : Simple p) (hv : Elem (value.Raw fo))
    (hmiss : p ∉ (view cc.value).map Prod.fst) :
    (Collect.Append fo lib cc p value).err = none
    ∧ Collect.Get lib (Collect.Append fo lib cc p value) [p]
      = { value := str "[" ++ value.Raw fo ++ str "]", path := [], datatype := .Array,
          offset := 0, err := none }
    ∧ (∀ k r, (k, r) ∈ view cc.value → (k, r) ∈ view (Collect.Append fo lib cc p value).value)
    ∧ (∀ k r, Simple k → (k, r) ∈ view cc.value →
        Collect.Get lib (Collect.Append fo lib cc p value) [k] = Collect.Get lib cc [k])
    ∧ (Collect.Append fo lib cc p value).value
      = (set lib cc.value p (str "[" ++ value.Raw fo ++ str "]")).1 := by
  have h := appendRaw_missing lib view Doc Simple Elem hc cc p (value.Raw fo) hd hp hv hmiss
  simp only [Collect.Append]
  refine ⟨h.1, ?_, ?_, ?_, ?_⟩
  · have hmem : (p, renderArray [value.Raw fo])
        ∈ view (Collect.appendRaw lib cc p (value.Raw fo)).value := by
      rw [h.2.2.2.2]
      simp
    have hg := hc.get_present _ p _ h.2.2.2.1 hp hmem
    simp only [Collect.Get, Join_singleton, hc.simple_ne p hp, if_false, get, hg,
      newCollectFromJsonResult_array, renderArray_singleton]
  · intro k r hkr
    rw [h.2.2.2.2]
    exact List.mem_append_left _ hkr
  · intro k r hk hkr
    have hmem : (k, r) ∈ view (Collect.appendRaw lib cc p (value.Raw fo)).value := by
      rw [h.2.2.2.2]
      exact List.mem_append_left _ hkr
    simp only [Collect.Get, Join_singleton, hc.simple_ne k hk, if_false, get,
      hc.get_present _ k r h.2.2.2.1 hk hmem, hc.get_present _ k r hd hk hkr]
  · rw [h.2.1, renderArray_singleton]

/-! ## Theorems: `GroupBy` -/

theorem insertGroup_of_not_mem (k : GoString) (r : List UInt8)
    (gs : List (GoString × List (List UInt8))) (h : k ∉ gs.map Prod.fst) :
    insertGroup k r gs = gs ++ [(k, [r])] := by
  induction gs with
  | nil => rfl
  | cons g rest ih =>
    have h1 : g.1 ≠ k := fun e => h (by simp [e])
    have h2 : k ∉ rest.map Prod.fst := fun e => h (List.mem_cons_of_mem _ e)
    simp [insertGroup, h1, ih h2]

theorem insertGroup_keys (k : GoString) (r : List UInt8)
    (gs : List (GoString × List (List UInt8))) (h : k ∈ gs.map Prod.fst) :
    (insertGroup k r gs).map Prod.fst = gs.map Prod.fst := by
  induction gs with
  | nil => simp at h
  | cons g rest ih =>
    by_cases h1 : g.1 = k
    · simp [insertGroup, h1]
    · have h2 : k ∈ rest.map Prod.fst := by
        rcases List.mem_cons.mp h with e | e
        · exact absurd e.symm h1
        · exact e
      simp [insertGroup, h1, ih h2]

theorem insertGroup_nonempty (k : GoString) (r : List UInt8)
    (gs : List (GoString × List (List UInt8))) (h : ∀ g ∈ gs, g.2 ≠ []) :
    ∀ g ∈ insertGroup k r gs, g.2 ≠ [] := by
  induction gs with
  | nil =>
    intro g hg
    simp [insertGroup] at hg
    subst hg
    simp
  | cons a rest ih =>
    intro g hg
    simp only [insertGroup] at hg
    split at hg
    · rcases List.mem_cons.mp hg with e | e
      · subst e
        simp
      · exact h g (List.mem_cons_of_mem _ e)
    · rcases List.mem_cons.mp hg with e | e
      · subst e
        exact h _ (List.mem_cons_self _ _)
      · exact ih (fun x hx => h x (List.mem_cons_of_mem _ hx)) g e

theorem groupMembers_insertGroup (k : GoString) (r : List UInt8)
    (gs : List (GoString × List (List UInt8))) :
    List.Perm (groupMembers (insertGroup k r gs)) (groupMembers gs ++ [(k, r)]) := by
  induction gs with
  | nil => simp [insertGroup, groupMembers]
  | cons g rest ih =>
    by_cases h1 : g.1 = k
    · simp only [insertGroup, h1, if_true, groupMembers, List.flatMap_cons, List.map_append,
        List.map_cons, List.map_nil, List.append_assoc]
      apply List.Perm.append_left
      exact List.perm_append_comm
    · simp only [insertGroup, h1, if_false, groupMembers, List.flatMap_cons, List.append_assoc]
      exact List.Perm.append_left _ ih

theorem groupMembers_foldl (pairs : List (GoString × List UInt8))
    (gs : List (GoString × List (List UInt8))) :
    List.Perm (groupMembers (pairs.foldl (fun gs p => insertGroup p.1 p.2 gs) gs))
      (groupMembers gs ++ pairs) := by
  induction pairs generalizing gs with
  | nil => simp
  | cons p rest ih =>
    rw [List.foldl_cons]
    refine (ih _).trans ?_
    refine ((groupMembers_insertGroup p.1 p.2 gs).append_right rest).trans ?_
    simp

/-- The groups of a list of keyed elements hold exactly those elements, each
under its key. -/
theorem groupMembers_groupElements (pairs : List (GoString × List UInt8)) :
    List.Perm (groupMembers (groupElements pairs)) pairs := by
  simpa [groupElements, groupMembers] using groupMembers_foldl pairs []

theorem renderGroups_replace (k : GoString) (r : List UInt8) (es : List (List UInt8))
    (gs : List (GoString × List (List UInt8))) (hn : (gs.map Prod.fst).Nodup)
    (hm : (k, es) ∈ gs) :
    (renderGroups gs).map (fun m => if m.1 = k then (k, renderArray (es ++ [r])) else m)
      = renderGroups (insertGroup k r gs) := by
  induction gs with
  | nil => simp at hm
  | cons g rest ih =>
    have hn2 := List.nodup_cons.mp hn
    by_cases h1 : g.1 = k
    · have hg : g = (k, es) := by
        rcases List.mem_cons.mp hm with e | e
        · exact e.symm
        · exact absurd (h1 ▸ List.mem_map_of_mem Prod.fst e) hn2.1
      have hrest : ∀ m ∈ renderGroups rest, m.1 ≠ k := by
        intro m hmem hk
        simp only [renderGroups, List.mem_map] at hmem
        obtain ⟨a, ha, rfl⟩ := hmem
        exact hn2.1 (h1 ▸ hk ▸ List.mem_map_of_mem Prod.fst ha)
      subst hg
      simp only [renderGroups, List.map_cons, insertGroup, if_true]
      congr 1
      have := List.map_congr_left (f := fun m => if m.1 = k then (k, renderArray (es ++ [r])) else m)
        (g := id) (l := renderGroups rest) (fun m hmem => by simp [hrest m hmem])
      simpa [renderGroups] using this
    · have hmr : (k, es) ∈ rest := by
        rcases List.mem_cons.mp hm with e | e
        · exact absurd (by rw [← e]) h1
        · exact e
      have := ih hn2.2 hmr
      simp only [renderGroups, List.map_cons, insertGroup, h1, if_false] at this ⊢
      rw [this]

theorem renderGroups_keys (gs : List (GoString × List (List UInt8))) :
    (renderGroups gs).map Prod.fst = gs.map Prod.fst := by
  simp [renderGroups]

theorem appendRaw_group (lib : JSONLib) (view : List UInt8 → List (GoString × List UInt8))
    (Doc : List UInt8 → Prop) (Simple : GoString → Prop) (Elem : List UInt8 → Prop)
    (hc : ObjectContract lib view Doc Simple Elem) (ret : JSONNode)
    (gs : List (GoString × List (List UInt8))) (k : GoString) (r : List UInt8)
    (hd : Doc ret.value) (hview : view ret.value = renderGroups gs)
    (hne : ∀ g ∈ gs, g.2 ≠ []) (hk : Simple k) (hr : Elem r) :
    (Collect.appendRaw lib ret k r).err = none
    ∧ Doc (Collect.appendRaw lib ret k r).value
    ∧ view (Collect.appendRaw lib ret k r).value = renderGroups (insertGroup k r gs) := by
  by_cases hmem : k ∈ gs.map Prod.fst
  · obtain ⟨g, hg, hgk⟩ := List.mem_map.mp hmem
    have hg2 : (k, g.2) ∈ gs := by
      rw [← hgk]
      exact hg
    have hv : (k, renderArray g.2) ∈ view ret.value := by
      rw [hview]
      exact List.mem_map.mpr ⟨(k, g.2), hg2, rfl⟩
    have hadd := hc.add_present ret.value k r g.2 hd hk hr hv (hne g hg)
    have hnodup : (gs.map Prod.fst).Nodup := by
      have := hc.view_nodup ret.value hd
      rwa [hview, renderGroups_keys] at this
    have hnk : (add lib ret.value k r).2 ≠ some KeyPathNotFoundError := by
      rw [hadd.1]
      simp
    simp only [Collect.appendRaw, hnk, if_false]
    refine ⟨hadd.1, hadd.2.1, ?_⟩
    rw [hadd.2.2, hview]
    exact renderGroups_replace k r g.2 gs hnodup hg2
  · have hmiss : k ∉ (view ret.value).map Prod.fst := by
      rw [hview, renderGroups_keys]
      exact hmem
    have h := appendRaw_missing lib view Doc Simple Elem hc ret k r hd hk hr hmiss
    refine ⟨h.1, h.2.2.2.1, ?_⟩
    rw [h.2.2.2.2, hview, insertGroup_of_not_mem k r gs hmem]
    simp [renderGroups]

theorem groupBy_foldl (lib : JSONLib) (view : List UInt8 → List (GoString × List UInt8))
    (Doc : List UInt8 → Prop) (Simple : GoString → Prop) (Elem : List UInt8 → Prop)
    (hc : ObjectContract lib view Doc Simple Elem) (path : GoString)
    (entries : List (GoString × JSONNode)) (ret : JSONNode)
    (gs : List (GoString × List (List UInt8)))
    (herr : ret.err = none) (hd : Doc ret.value) (hview : view ret.value = renderGroups gs)
    (hne : ∀ g ∈ gs, g.2 ≠ [])
    (hok : ∀ p ∈ groupPairs lib path entries, Simple p.1 ∧ Elem p.2) :
    (entries.foldl (fun ret e => groupByStep lib path ret e.2) ret).err = none
    ∧ Doc (entries.foldl (fun ret e => groupByStep lib path ret e.2) ret).value
    ∧ view (entries.foldl (fun ret e => groupByStep lib path ret e.2) ret).value
      = renderGroups ((groupPairs lib path entries).foldl (fun gs p => insertGroup p.1 p.2 gs) gs)
    := by
  induction entries generalizing ret gs with
  | nil => exact ⟨herr, hd, by simpa [groupPairs] using hview⟩
  | cons e rest ih =>
    rw [List.foldl_cons]
    by_cases hempty : (groupKeyValue lib path e.2).length = 0
    · have hnil : groupKeyValue lib path e.2 = [] := List.length_eq_zero.mp hempty
      have hstep : groupByStep lib path ret e.2 = ret := by
        show (if (groupKeyValue lib path e.2).length = 0 then ret else _) = ret
        rw [if_pos hempty]
      have hpairs : groupPairs lib path (e :: rest) = groupPairs lib path rest := by
        simp [groupPairs, List.filterMap_cons, hnil]
      rw [hstep, hpairs]
      rw [hpairs] at hok
      exact ih ret gs herr hd hview hne hok
    · have hnn : groupKeyValue lib path e.2 ≠ [] := fun h => hempty (by simp [h])
      have hstep : groupByStep lib path ret e.2
          = Collect.appendRaw lib ret (replaceDots (groupKeyValue lib path e.2)) e.2.Raw := by
        show (if (groupKeyValue lib path e.2).length = 0 then ret else _) = _
        rw [if_neg hempty]
        rfl
      have hpairs : groupPairs lib path (e :: rest)
          = (replaceDots (groupKeyValue lib path e.2), e.2.Raw) :: groupPairs lib path rest := by
        simp [groupPairs, List.filterMap_cons, hnn]
      rw [hstep, hpairs, List.foldl_cons]
      rw [hpairs] at hok
      have hp := hok _ (List.mem_cons_self _ _)
      have h := appendRaw_group lib view Doc Simple Elem hc ret gs _ _ hd hview hne hp.1 hp.2
      exact ih _ _ h.1 h.2.1 h.2.2 (insertGroup_nonempty _ _ gs hne)
        fun p hpm => hok p (List.mem_cons_of_mem _ hpm)

/-- C19, amended. With primitives that meet the contract of `get`, `set` and
`append`: on an array document, `GroupBy(p)` returns a new object without an
error whose members are the groups of the elements it keeps, each group stored
as an array under its key. It keeps exactly the elements whose stringified
value at `p` is not empty, each under that value with every `.` replaced by
`_`: the keyed elements of all groups are, as a multiset, the kept elements
with their keys, and so the elements of all groups are the kept elements. -/
theorem GroupBy_partition (lib : JSONLib) (view : List UInt8 → List (GoString × List UInt8))
    (Doc : List UInt8 → Prop) (Simple : GoString → Prop) (Elem : List UInt8 → Prop)
    (hc : ObjectContract lib view Doc Simple Elem) (cc : JSONNode) (path : GoString)
    (harr : cc.datatype = .Array)
    (hok : ∀ p ∈ groupPairs lib path (forEachEntries lib cc.value cc.datatype),
      Simple p.1 ∧ Elem p.2) :
    ∃ ret : JSONNode,
      (Collect.GroupBy lib cc path).returned = some ret
      ∧ ret.err = none
      ∧ view ret.value
        = renderGroups (groupElements (groupPairs lib path (forEachEntries lib cc.value cc.datatype)))
      ∧ List.Perm
          (groupMembers (groupElements (groupPairs lib path (forEachEntries lib cc.value cc.datatype))))
          (groupPairs lib path (forEachEntries lib cc.value cc.datatype))
      ∧ List.Perm
          ((groupElements (groupPairs lib path (forEachEntries lib cc.value cc.datatype))).flatMap
            Prod.snd)
          ((groupPairs lib path (forEachEntries lib cc.value cc.datatype)).map Prod.snd) := by
  have h := groupBy_foldl lib view Doc Simple Elem hc path
    (forEachEntries lib cc.value cc.datatype) emptyObject [] rfl
    (by simpa [emptyObject] using hc.doc_empty)
    (by simpa [emptyObject, renderGroups] using hc.view_empty) (by simp) hok
  refine ⟨_, by simp [Collect.GroupBy, harr], h.1, h.2.2, groupMembers_groupElements _, ?_⟩
  have hp := (groupMembers_groupElements
    (groupPairs lib path (forEachEntries lib cc.value cc.datatype))).map Prod.snd
  have he : ∀ gs : List (GoString × List (List UInt8)),
      (groupMembers gs).map Prod.snd = gs.flatMap Prod.snd := by
    intro gs
    induction gs with
    | nil => rfl
    | cons g rest ih =>
      simp only [groupMembers, List.flatMap_cons, List.map_append, List.map_map] at ih ⊢
      rw [ih]
      congr 1
      simp [Function.comp_def]
  rwa [he] at hp

/-! ## Theorems: the reference library meets the contract on group documents -/

theorem renderElements_body (es : List (List UInt8)) (h : ∀ e ∈ es, refElemOk e) :
    ∃ body, renderElements es = body ++ [93] ∧ ∀ b ∈ body, b ≠ 93 := by
  induction es with
  | nil => exact ⟨[], rfl, by simp⟩
  | cons e rest ih =>
    have he := h e (List.mem_cons_self _ _)
    obtain ⟨body, hb, hbody⟩ := ih fun x hx => h x (List.mem_cons_of_mem _ hx)
    cases rest with
    | nil => exact ⟨e, rfl, he.2⟩
    | cons e2 rest2 =>
      refine ⟨e ++ [44] ++ body, by simp [renderElements, hb], ?_⟩
      intro b hbm
      simp only [List.append_assoc, List.mem_append, List.mem_singleton] at hbm
      rcases hbm with hbm | hbm | hbm
      · exact he.2 b hbm
      · subst hbm
        decide
      · exact hbody b hbm

theorem refReadValue_renderArray (es : List (List UInt8)) (h : ∀ e ∈ es, refElemOk e)
    (rest : List UInt8) :
    refReadValue (renderArray es ++ rest) = some (renderArray es, rest) := by
  obtain ⟨body, hb, hbody⟩ := renderElements_body es h
  have hspan : (body ++ 93 :: rest).span (fun c => c != 93) = (body, 93 :: rest) :=
    span_append_stop _ body 93 rest (fun b hbm => by simpa using hbody b hbm) (by decide)
  have hrw : renderArray es ++ rest = 91 :: (body ++ 93 :: rest) := by
    simp [renderArray, hb]
  rw [hrw]
  rw [List.span_eq_take_drop] at hspan
  have ht := congrArg Prod.fst hspan
  have hd := congrArg Prod.snd hspan
  simp only at ht hd
  simp [refReadValue, List.span_eq_take_drop, ht, hd, renderArray, hb]

theorem refReadMembers_renderMembers (ms : List (GoString × List UInt8)) (n : Nat)
    (hne : ms ≠ []) (hlen : ms.length ≤ n)
    (hok : ∀ m ∈ ms, flatKeyOk m.1
      ∧ ∀ rest, refReadValue (m.2 ++ rest) = some (m.2, rest)) :
    refReadMembers n (renderMembers ms) = some ms := by
  induction ms generalizing n with
  | nil => exact absurd rfl hne
  | cons m rest ih =>
    obtain ⟨n, rfl⟩ : ∃ n', n = n' + 1 := ⟨n - 1, by simp at hlen; omega⟩
    have hm := hok m (List.mem_cons_self _ _)
    have hkey : ∀ b ∈ m.1, (b != 34) = true := fun b hb => by simpa using hm.1.2 b hb
    rw [renderMembers_cons]
    simp only [refReadMembers, ne_eq, not_true_eq_false, if_false]
    rw [span_append_stop (fun c => c != 34) m.1 34 _ hkey (by decide)]
    simp only [ne_eq, not_true_eq_false, if_false, hm.2]
    cases rest with
    | nil => simp
    | cons m2 rest2 =>
      have hrec := ih n (by simp) (by simpa using hlen)
        fun x hx => hok x (List.mem_cons_of_mem _ hx)
      simp [hrec]

theorem refMembers_flatRender (ms : List (GoString × List UInt8))
    (hok : ∀ m ∈ ms, flatKeyOk m.1
      ∧ ∀ rest, refReadValue (m.2 ++ rest) = some (m.2, rest)) :
    refMembers (flatRender ms) = some ms := by
  cases ms with
  | nil => simp [refMembers, flatRender, renderMembers]
  | cons m rest =>
    have hne : renderMembers (m :: rest) ≠ [125] := by
      rw [renderMembers_cons]
      simp
    simp only [refMembers, flatRender, ne_eq, not_true_eq_false, if_false, hne]
    exact refReadMembers_renderMembers _ _ (by simp) (length_le_renderMembers _) hok

theorem renderGroups_ok (gs : List (GoString × List (List UInt8)))
    (hok : ∀ g ∈ gs, flatKeyOk g.1 ∧ g.2 ≠ [] ∧ ∀ e ∈ g.2, refElemOk e) :
    ∀ m ∈ renderGroups gs, flatKeyOk m.1
      ∧ ∀ rest, refReadValue (m.2 ++ rest) = some (m.2, rest) := by
  intro m hm
  simp only [renderGroups, List.mem_map] at hm
  obtain ⟨g, hg, rfl⟩ := hm
  exact ⟨(hok g hg).1, refReadValue_renderArray g.2 (hok g hg).2.2⟩

theorem refView_groupDoc (gs : List (GoString × List (List UInt8)))
    (hok : ∀ g ∈ gs, flatKeyOk g.1 ∧ g.2 ≠ [] ∧ ∀ e ∈ g.2, refElemOk e) :
    refMembers (flatRender (renderGroups gs)) = some (renderGroups gs)
    ∧ refView (flatRender (renderGroups gs)) = renderGroups gs := by
  have h := refMembers_flatRender (renderGroups gs) (renderGroups_ok gs hok)
  exact ⟨h, by simp [refView, h]⟩

theorem lookupMember_of_mem (k : GoString) (r : List UInt8) (ms : List (GoString × List UInt8))
    (hn : (ms.map Prod.fst).Nodup) (hm : (k, r) ∈ ms) : lookupMember k ms = some r := by
  induction ms with
  | nil => simp at hm
  | cons m rest ih =>
    have hn2 := List.nodup_cons.mp hn
    by_cases h1 : m.1 = k
    · have : m = (k, r) := by
        rcases List.mem_cons.mp hm with e | e
        · exact e.symm
        · exact absurd (h1 ▸ List.mem_map_of_mem Prod.fst e) hn2.1
      subst this
      simp [lookupMember]
    · have hmr : (k, r) ∈ rest := by
        rcases List.mem_cons.mp hm with e | e
        · exact absurd (by rw [← e]) h1
        · exact e
      simp [lookupMember, h1, ih hn2.2 hmr]

theorem lookupMember_of_not_mem (k : GoString) (ms : List (GoString × List UInt8))
    (h : k ∉ ms.map Prod.fst) : lookupMember k ms = none := by
  induction ms with
  | nil => rfl
  | cons m rest ih =>
    have h1 : m.1 ≠ k := fun e => h (by simp [e])
    have h2 : k ∉ rest.map Prod.fst := fun e => h (List.mem_cons_of_mem _ e)
    simp [lookupMember, h1, ih h2]

theorem upsert_of_not_mem (k : GoString) (v : List UInt8) (ms : List (GoString × List UInt8))
    (h : k ∉ ms.map Prod.fst) : upsert k v ms = ms ++ [(k, v)] := by
  induction ms with
  | nil => rfl
  | cons m rest ih =>
    have h1 : m.1 ≠ k := fun e => h (by simp [e])
    have h2 : k ∉ rest.map Prod.fst := fun e => h (List.mem_cons_of_mem _ e)
    simp [upsert, h1, ih h2]

theorem upsert_of_mem (k : GoString) (v : List UInt8) (ms : List (GoString × List UInt8))
    (hn : (ms.map Prod.fst).Nodup) (h : k ∈ ms.map Prod.fst) :
    upsert k v ms = ms.map fun m => if m.1 = k then (k, v) else m := by
  induction ms with
  | nil => simp at h
  | cons m rest ih =>
    have hn2 := List.nodup_cons.mp hn
    by_cases h1 : m.1 = k
    · have hrest : ∀ x ∈ rest, x.1 ≠ k := fun x hx hk =>
        hn2.1 (h1 ▸ hk ▸ List.mem_map_of_mem Prod.fst hx)
      have hid : rest.map (fun m => if m.1 = k then (k, v) else m) = rest := by
        conv_rhs => rw [← List.map_id rest]
        exact List.map_congr_left fun x hx => by simp [hrest x hx]
      simp [upsert, h1, hid]
    · have h2 : k ∈ rest.map Prod.fst := by
        rcases List.mem_cons.mp h with e | e
        · exact absurd e.symm h1
        · exact e
      simp [upsert, h1, ih hn2.2 h2]

theorem renderElements_snoc (es : List (List UInt8)) (v : List UInt8) (hne : es ≠ []) :
    renderElements (es ++ [v]) = (renderElements es).dropLast ++ 44 :: (v ++ [93]) := by
  induction es with
  | nil => exact absurd rfl hne
  | cons e rest ih =>
    cases rest with
    | nil => simp [renderElements]
    | cons e2 rest2 =>
      have h2 := ih (by simp)
      have hne2 : renderElements (e2 :: rest2) ≠ [] := by
        cases rest2 <;> simp [renderElements]
      show e ++ [44] ++ renderElements (e2 :: rest2 ++ [v]) = _
      rw [h2]
      show _ = (e ++ [44] ++ renderElements (e2 :: rest2)).dropLast ++ 44 :: (v ++ [93])
      rw [List.dropLast_append_of_ne_nil _ hne2]
      simp

theorem renderArray_ne_empty (es : List (List UInt8)) (hne : es ≠ [])
    (hok : ∀ e ∈ es, refElemOk e) : renderArray es ≠ [91, 93] := by
  cases es with
  | nil => exact absurd rfl hne
  | cons e rest =>
    have he := hok e (List.mem_cons_self _ _)
    cases e with
    | nil => exact absurd rfl he.1
    | cons b bs =>
      have hb : b ≠ 93 := he.2 b (List.mem_cons_self _ _)
      cases rest <;> simp [renderArray, renderElements, hb]

theorem arrayPush_renderArray (es : List (List UInt8)) (v : List UInt8) (hne : es ≠ [])
    (hnot : renderArray es ≠ [91, 93]) :
    arrayPush (renderArray es) v = renderArray (es ++ [v]) := by
  have hne2 : renderElements es ≠ [] := by
    cases es with
    | nil => exact absurd rfl hne
    | cons e rest => cases rest <;> simp [renderElements]
  unfold arrayPush
  rw [if_neg hnot]
  simp only [renderArray, renderElements_snoc es v hne]
  rw [List.dropLast_cons_of_ne_nil hne2]
  simp

theorem renderGroups_keys_eq (gs : List (GoString × List (List UInt8))) :
    (renderGroups gs).map Prod.fst = gs.map Prod.fst := by
  simp [renderGroups, Function.comp_def]

theorem refValueType_renderArray (es : List (List UInt8)) :
    refValueType (renderArray es) = .Array := by
  simp [renderArray, refValueType]

theorem refLib_object_contract :
    ObjectContract refLib refView groupDoc flatKeyOk refElemOk where
  doc_empty := ⟨[], by decide, by simp, by simp⟩
  view_empty := by decide
  simple_ne := fun _ h => h.1
  view_nodup := by
    rintro d ⟨gs, rfl, hn, hok⟩
    rw [(refView_groupDoc gs hok).2, renderGroups_keys_eq]
    exact hn
  get_present := by
    rintro d k r ⟨gs, rfl, hn, hok⟩ _ hm
    rw [(refView_groupDoc gs hok).2] at hm
    have hl := lookupMember_of_mem k r (renderGroups gs)
      (by rw [renderGroups_keys_eq]; exact hn) hm
    simp [refLib, refGetBytes, (refView_groupDoc gs hok).1, hl]
  add_missing := by
    rintro d k v ⟨gs, rfl, hn, hok⟩ hk _ hmiss
    rw [(refView_groupDoc gs hok).2] at hmiss
    have hl := lookupMember_of_not_mem k (renderGroups gs) hmiss
    simp [add, refLib, refAppend, hk.1, (refView_groupDoc gs hok).1, hl]
  set_missing := by
    rintro d k v ⟨gs, rfl, hn, hok⟩ hk hv hmiss
    rw [(refView_groupDoc gs hok).2] at hmiss
    have hup := upsert_of_not_mem k (renderArray [v]) (renderGroups gs) hmiss
    have hren : renderGroups gs ++ [(k, renderArray [v])] = renderGroups (gs ++ [(k, [v])]) := by
      simp [renderGroups]
    have hok2 : ∀ g ∈ gs ++ [(k, [v])], flatKeyOk g.1 ∧ g.2 ≠ [] ∧ ∀ e ∈ g.2, refElemOk e := by
      intro g hg
      rcases List.mem_append.mp hg with h | h
      · exact hok g h
      · simp only [List.mem_singleton] at h
        subst h
        exact ⟨hk, by simp, by simpa using hv⟩
    have hval : (set refLib (flatRender (renderGroups gs)) k (renderArray [v]))
        = (flatRender (renderGroups (gs ++ [(k, [v])])), none) := by
      simp [set, refLib, refSet, hk.1, (refView_groupDoc gs hok).1, hup, hren]
    rw [hval]
    refine ⟨rfl, ⟨gs ++ [(k, [v])], rfl, ?_, hok2⟩, ?_⟩
    · rw [renderGroups_keys_eq] at hmiss
      rw [List.map_append, List.nodup_append]
      refine ⟨hn, by simp, ?_⟩
      intro a ha hb
      simp only [List.map_cons, List.map_nil, List.mem_singleton] at hb
      exact hmiss (hb ▸ ha)
    · rw [(refView_groupDoc _ hok2).2, (refView_groupDoc gs hok).2, hren]
  add_present := by
    rintro d k v es ⟨gs, rfl, hn, hok⟩ hk hv hm hes
    rw [(refView_groupDoc gs hok).2] at hm
    have hn2 : ((renderGroups gs).map Prod.fst).Nodup := by
      rw [renderGroups_keys_eq]
      exact hn
    have hl := lookupMember_of_mem k (renderArray es) (renderGroups gs) hn2 hm
    have hsame : ∀ g ∈ gs, g.1 = k → renderArray g.2 = renderArray es := by
      intro g hg hgk
      have hmem : (k, renderArray g.2) ∈ renderGroups gs := by
        rw [← hgk]
        exact List.mem_map_of_mem (fun g => (g.1, renderArray g.2)) hg
      have := lookupMember_of_mem k (renderArray g.2) (renderGroups gs) hn2 hmem
      rw [hl] at this
      exact (Option.some.inj this).symm
    have hpush : ∀ g ∈ gs, g.1 = k → renderArray (g.2 ++ [v]) = renderArray (es ++ [v]) := by
      intro g hg hgk
      have hne := renderArray_ne_empty g.2 (hok g hg).2.1 (hok g hg).2.2
      rw [← arrayPush_renderArray g.2 v (hok g hg).2.1 hne, hsame g hg hgk,
        arrayPush_renderArray es v hes (by rw [← hsame g hg hgk]; exact hne)]
    have hnot : renderArray es ≠ [91, 93] := by
      simp only [renderGroups, List.mem_map] at hm
      obtain ⟨g, hg, he⟩ := hm
      have h1 : g.1 = k := congrArg Prod.fst he
      rw [← hsame g hg h1]
      exact renderArray_ne_empty g.2 (hok g hg).2.1 (hok g hg).2.2
    have hup := upsert_of_mem k (renderArray (es ++ [v])) (renderGroups gs) hn2
      (List.mem_map_of_mem Prod.fst hm)
    have hren : (renderGroups gs).map (fun m => if m.1 = k then (k, renderArray (es ++ [v])) else m)
        = renderGroups (gs.map fun g => if g.1 = k then (k, g.2 ++ [v]) else g) := by
      simp only [renderGroups, List.map_map]
      apply List.map_congr_left
      intro g hg
      by_cases hgk : g.1 = k
      · simp [hgk, hpush g hg hgk]
      · simp [hgk]
    have hok2 : ∀ g ∈ gs.map (fun g => if g.1 = k then (k, g.2 ++ [v]) else g),
        flatKeyOk g.1 ∧ g.2 ≠ [] ∧ ∀ e ∈ g.2, refElemOk e := by
      intro g hg
      obtain ⟨g0, hg0, rfl⟩ := List.mem_map.mp hg
      by_cases hgk : g0.1 = k
      · simp only [hgk, if_true]
        refine ⟨hk, by simp, ?_⟩
        intro e he
        rcases List.mem_append.mp he with h | h
        · exact (hok g0 hg0).2.2 e h
        · simp only [List.mem_singleton] at h
          exact h ▸ hv
      · simp only [hgk, if_false]
        exact hok g0 hg0
    have hkeys : (gs.map fun g => if g.1 = k then (k, g.2 ++ [v]) else g).map Prod.fst
        = gs.map Prod.fst := by
      rw [List.map_map]
      apply List.map_congr_left
      intro g _
      by_cases hgk : g.1 = k
      · simp [hgk]
      · simp [hgk]
    have hval : add refLib (flatRender (renderGroups gs)) k v
        = (flatRender (renderGroups (gs.map fun g => if g.1 = k then (k, g.2 ++ [v]) else g)),
            none) := by
      simp [add, refLib, refAppend, hk.1, (refView_groupDoc gs hok).1, hl,
        refValueType_renderArray, arrayPush_renderArray es v hes hnot, hup, hren]
    rw [hval]
    refine ⟨rfl, ⟨_, rfl, by rw [hkeys]; exact hn, hok2⟩, ?_⟩
    rw [(refView_groupDoc _ hok2).2, (refView_groupDoc gs hok).2, hren]

/-- On the object `{"x":[1,2]}` with the reference primitives, `Append("y", 5)`:
no error, `Get("y")` is the array `[5]`, the member `x` is kept, and the bytes
are those of `set("y", [5])`. -/
theorem Append_missing_path_witness :
    (Collect.Append fixedPointOps refLib appendInput (str "y") (.IntNode 5)).err = none
    ∧ Collect.Get refLib (Collect.Append fixedPointOps refLib appendInput (str "y") (.IntNode 5))
        [str "y"]
      = { value := str "[" ++ (Node.IntNode 5).Raw fixedPointOps ++ str "]", path := [],
          datatype := .Array, offset := 0, err := none }
    ∧ (∀ k r, (k, r) ∈ refView appendInput.value →
        (k, r) ∈ refView
          (Collect.Append fixedPointOps refLib appendInput (str "y") (.IntNode 5)).value)
    ∧ (∀ k r, flatKeyOk k → (k, r) ∈ refView appendInput.value →
        Collect.Get refLib
          (Collect.Append fixedPointOps refLib appendInput (str "y") (.IntNode 5)) [k]
          = Collect.Get refLib appendInput [k])
    ∧ (Collect.Append fixedPointOps refLib appendInput (str "y") (.IntNode 5)).value
      = (set refLib appendInput.value (str "y")
          (str "[" ++ (Node.IntNode 5).Raw fixedPointOps ++ str "]")).1 :=
  Append_missing_path fixedPointOps refLib refView groupDoc flatKeyOk refElemOk
    refLib_object_contract appendInput (str "y") (.IntNode 5)
    ⟨[(str "x", [str "1", str "2"])], by decide, by decide, by decide⟩
    (by decide) (by decide) (by decide)

/-- C19, counterexample. In the one element of the array `[{"k":""}]` the member
`k` is present, a string, and `GroupBy("k")` with the reference primitives
still drops the element: the stringified value at `k` is empty, and the groups
are the empty object. -/
theorem GroupBy_empty_value_counterexample :
    forEachEntries refLib groupByEmptyInput.value groupByEmptyInput.datatype
      = [(str "[0]", groupByEmptyElement)]
    ∧ (get refLib groupByEmptyElement.Raw (str "k")).datatype = .String
    ∧ groupKeyValue refLib (str "k") groupByEmptyElement = []
    ∧ (Collect.GroupBy refLib groupByEmptyInput (str "k")).returned = some emptyObject := by
  decide

/-- On the array `[{"k":"x","v":1},{"k":"y","v":2},{"k":"x","v":3}]` with the
reference primitives, `GroupBy("k")` returns the groups of the three elements. -/
theorem GroupBy_partition_witness :
    ∃ ret : JSONNode, (Collect.GroupBy refLib groupByInput (str "k")).returned = some ret
      ∧ ret.err = none
      ∧ refView ret.value = renderGroups (groupElements (groupPairs refLib (str "k")
          (forEachEntries refLib groupByInput.value groupByInput.datatype)))
      ∧ List.Perm (groupMembers (groupElements (groupPairs refLib (str "k")
          (forEachEntries refLib groupByInput.value groupByInput.datatype))))
          (groupPairs refLib (str "k")
            (forEachEntries refLib groupByInput.value groupByInput.datatype))
      ∧ List.Perm ((groupElements (groupPairs refLib (str "k")
          (forEachEntries refLib groupByInput.value groupByInput.datatype))).flatMap Prod.snd)
          ((groupPairs refLib (str "k")
            (forEachEntries refLib groupByInput.value groupByInput.datatype)).map Prod.snd) :=
  GroupBy_partition refLib refView groupDoc flatKeyOk refElemOk refLib_object_contract
    groupByInput (str "k") (by decide) (by decide)

set_option maxRecDepth 100000 in
/-- On the array `[{"k":"x","v":1},{"k":"y","v":2},{"k":"x","v":3}]` with the
reference primitives, `GroupBy("k")` returns the object
`{"x":[{"k":"x","v":1},{"k":"x","v":3}],"y":[{"k":"y","v":2}]}` and leaves the
receiver as it was. -/
theorem GroupBy_example :
    Collect.GroupBy refLib groupByInput (str "k")
      = { receiver := groupByInput,
          returned := some
            { value := str "\x7b\"x\":[\x7b\"k\":\"x\",\"v\":1\x7d,\x7b\"k\":\"x\",\"v\":3\x7d],\"y\":[\x7b\"k\":\"y\",\"v\":2\x7d]\x7d",
              path := [], datatype := .Object, offset := 0, err := none } } := by
  decide

/-! ## Theorems: the typed constructors -/

/-- C26. The typed constructors agree with the scalar nodes: for every `int64`
`n`, `NewInt64(n).Node()` is `IntNode n`; for every `b`, `NewBool(b).Node()` is
`BoolNode b`; for every `s`, `NewString(s).Node()` is `StringNode s`; and
`IntNode(n).To(String).To(Int)` is `IntNode n`, `BoolNode(b).To(String).To(Bool)`
is `BoolNode b`. -/
theorem typed_constructors_agree {F : Type} (fo : Float64Ops F) (n : Int) (hn : isInt64 n)
    (b : Bool) (s : GoString) :
    Collect.Node fo (NewInt64 n) = .IntNode n
    ∧ Collect.Node fo (NewBool b) = .BoolNode b
    ∧ Collect.Node fo (NewString s) = .StringNode s
    ∧ ((Node.IntNode n : Node F).To fo .String).To fo .Int = .IntNode n
    ∧ ((Node.BoolNode b : Node F).To fo .String).To fo .Bool = .BoolNode b := by
  have hi := parseInt_formatInt n hn
  have hb : parseBool (formatBool b) = some b := by cases b <;> decide
  refine ⟨?_, ?_, ?_, ?_, ?_⟩
  · simp [Collect.Node, NewInt64, JSONNode.To, JSONNode.String, StringNode.To, StringNode.toInt, hi]
  · simp [Collect.Node, NewBool, JSONNode.To, JSONNode.String, StringNode.To, hb]
  · simp [Collect.Node, NewString, JSONNode.To, JSONNode.String]
  · simp [Node.To, IntNode.To, StringNode.To, StringNode.toInt, hi]
  · simp [Node.To, BoolNode.To, StringNode.To, hb]

/-- The constructors on the smallest `int64`, on `false` and on the text `a.b`. -/
theorem typed_constructors_agree_witness :
    Collect.Node fixedPointOps (NewInt64 (-9223372036854775808)) = .IntNode (-9223372036854775808)
    ∧ Collect.Node fixedPointOps (NewBool false) = .BoolNode false
    ∧ Collect.Node fixedPointOps (NewString (str "a.b")) = .StringNode (str "a.b")
    ∧ ((Node.IntNode (-9223372036854775808) : Node Int).To fixedPointOps .String).To
        fixedPointOps .Int = .IntNode (-9223372036854775808)
    ∧ ((Node.BoolNode false : Node Int).To fixedPointOps .String).To fixedPointOps .Bool
        = .BoolNode false :=
  typed_constructors_agree fixedPointOps (-9223372036854775808) (by decide) false (str "a.b")

/-! ## Theorems: the generic entry point and the value evaluator -/

/-- C24. With a budget of `fuel` for the calls it makes, `evalRuleQL` agrees
with `eval` on every expression that is not a select statement, a field list or
a switch: on a filter, a binary expression, a call, a JSON path, a literal and
on the shapes neither knows. On a switch it does not: `evalRuleQL` has no case
for it and returns the Undefined sentinel, whatever `eval` returns. -/
theorem evalRuleQL_eval_agreement {F : Type} (fo : Float64Ops F) (set : SetFn) (addr : Nat)
    (hook : Context F → CallExpr F → Node F) (ctx : Context F) (fuel : Nat) :
    (∀ e : Expr F, (∀ fs fl t d, e ≠ .Select fs fl t d) → (∀ l, e ≠ .Fields l) →
      (∀ s, e ≠ .Switch s) →
      evalRuleQL fo set addr hook ctx fuel e = eval fo hook ctx (fuel + 1) e)
    ∧ (∀ s : SwitchExpr F,
      evalRuleQL fo set addr hook ctx fuel (.Switch s) = .ret UNDEFINED_RESULT
      ∧ eval fo hook ctx (fuel + 1) (.Switch s)
        = evalSwitchExpr fo (eval fo hook ctx fuel) s) := by
  refine ⟨?_, fun s => ⟨rfl, rfl⟩⟩
  intro e h1 h2 h3
  cases e with
  | Select fs fl t d => exact absurd rfl (h1 fs fl t d)
  | Fields l => exact absurd rfl (h2 l)
  | Switch s => exact absurd rfl (h3 s)
  | Lit n => cases n <;> rfl
  | _ => rfl

/-- The switch `switch e.k case "a" then 1 case "b" then 2 else 0` where `e.k`
is `"c"`: `eval` returns `IntNode 0`, `evalRuleQL` the Undefined sentinel. -/
theorem evalRuleQL_switch_example :
    eval fixedPointOps EvalCallExpr exampleContext 4 (.Switch exampleSwitch) = .ret (.IntNode 0)
    ∧ evalRuleQL fixedPointOps flatSet 1 EvalCallExpr exampleContext 3 (.Switch exampleSwitch)
      = .ret UNDEFINED_RESULT := by
  decide

/-! ## Theorems: symmetry of `EQ` -/

/-- C25, counterexample. The string `x` parses neither as a number nor as a
boolean. With the string on the left `EQ` returns `BoolNode false`, with the
string on the right it returns the Undefined sentinel. -/
theorem evalBinary_EQ_asymmetric_counterexample :
    evalBinary fixedPointOps 2 .EQ (.StringNode (str "x")) (.IntNode 1) = .ret (.BoolNode false)
    ∧ evalBinary fixedPointOps 2 .EQ (.IntNode 1) (.StringNode (str "x")) = .ret UNDEFINED_RESULT
    ∧ evalBinary fixedPointOps 2 .EQ (.StringNode (str "x")) (.BoolNode true)
      = .ret (.BoolNode false)
    ∧ evalBinary fixedPointOps 2 .EQ (.BoolNode true) (.StringNode (str "x"))
      = .ret UNDEFINED_RESULT := by
  decide

/-- C25, amended. For `a` and `b` among `BoolNode`, `IntNode` and `StringNode`,
with a budget of two or more: when, in a pair of a string and another variant,
the string parses as the other side's type, `evalBinary(EQ, a, b)` and
`evalBinary(EQ, b, a)` return the same node. When the string does not parse,
the call with the string on the left returns `BoolNode false` and the call with
the string on the right returns the Undefined sentinel. -/
theorem evalBinary_EQ_symmetric {F : Type} (fo : Float64Ops F)
    (hsym : ∀ x y, fo.eq x y = fo.eq y x) (fuel : Nat) (a b : Node F)
    (ha : a.isBoolIntString = true) (hb : b.isBoolIntString = true) :
    (parsesAsOther fo a b = true →
      ∃ n, evalBinary fo (fuel + 2) .EQ a b = .ret n ∧ evalBinary fo (fuel + 2) .EQ b a = .ret n)
    ∧ (∀ s, a = .StringNode s → (∀ t, b ≠ .StringNode t) → parsesAsOther fo a b = false →
      evalBinary fo (fuel + 2) .EQ a b = .ret (.BoolNode false)
      ∧ evalBinary fo (fuel + 2) .EQ b a = .ret UNDEFINED_RESULT) := by
  cases a with
  | BoolNode x =>
    cases b with
    | BoolNode y =>
      refine ⟨fun _ => ⟨.BoolNode (x == y), ?_, ?_⟩, fun s h => by simp at h⟩
      · simp [evalBinary, evalBinaryBool]
      · simp [evalBinary, evalBinaryBool, Bool.beq_comm]
    | IntNode y =>
      refine ⟨fun _ => ⟨UNDEFINED_RESULT, ?_, ?_⟩, fun s h => by simp at h⟩
      · simp [evalBinary]
      · simp [evalBinary]
    | StringNode t =>
      refine ⟨fun hp => ?_, fun s h => by simp at h⟩
      rcases StringNode_To_Bool_cases fo t with ⟨y, h⟩ | h
      · refine ⟨.BoolNode (x == y), ?_, ?_⟩
        · simp [evalBinary, evalBinaryBool, h]
        · simp [evalBinary, evalBinaryBool, h, Bool.beq_comm]
      · simp [parsesAsOther, h, UNDEFINED_RESULT, Node.isScalar] at hp
    | _ => simp [Node.isBoolIntString] at hb
  | IntNode x =>
    cases b with
    | BoolNode y =>
      refine ⟨fun _ => ⟨UNDEFINED_RESULT, ?_, ?_⟩, fun s h => by simp at h⟩
      · simp [evalBinary]
      · simp [evalBinary]
    | IntNode y =>
      refine ⟨fun _ => ⟨.BoolNode (x == y), ?_, ?_⟩, fun s h => by simp at h⟩
      · simp [evalBinary, evalBinaryInt]
      · simp [evalBinary, evalBinaryInt, eq_comm]
    | StringNode t =>
      refine ⟨fun hp => ?_, fun s h => by simp at h⟩
      rcases StringNode_To_Number_cases fo t with ⟨y, h⟩ | ⟨f, h⟩ | h
      · refine ⟨.BoolNode (x == y), ?_, ?_⟩
        · simp [evalBinary, evalBinaryInt, h]
        · simp [evalBinary, evalBinaryInt, h, eq_comm]
      · refine ⟨.BoolNode (fo.eq (fo.ofInt x) f), ?_, ?_⟩
        · simp [evalBinary, evalBinaryFloat, h]
        · simp [evalBinary, evalBinaryFloat, h, hsym f]
      · simp [parsesAsOther, h, UNDEFINED_RESULT, Node.isScalar] at hp
    | _ => simp [Node.isBoolIntString] at hb
  | StringNode s =>
    cases b with
    | BoolNode y =>
      rcases StringNode_To_Bool_cases fo s with ⟨x, h⟩ | h
      · refine ⟨fun _ => ⟨.BoolNode (x == y), ?_, ?_⟩, fun s0 _ _ hp => ?_⟩
        · simp [evalBinary, evalBinaryBool, h]
        · simp [evalBinary, evalBinaryBool, h, Bool.beq_comm]
        · simp [parsesAsOther, h, Node.isScalar] at hp
      · refine ⟨fun hp => ?_, fun s0 _ _ _ => ⟨?_, ?_⟩⟩
        · simp [parsesAsOther, h, UNDEFINED_RESULT, Node.isScalar] at hp
        · simp [evalBinary, h, UNDEFINED_RESULT, isBooleanOP]
        · simp [evalBinary, h, UNDEFINED_RESULT]
    | IntNode y =>
      rcases StringNode_To_Number_cases fo s with ⟨x, h⟩ | ⟨f, h⟩ | h
      · refine ⟨fun _ => ⟨.BoolNode (x == y), ?_, ?_⟩, fun s0 _ _ hp => ?_⟩
        · simp [evalBinary, evalBinaryInt, h]
        · simp [evalBinary, evalBinaryInt, h, eq_comm]
        · simp [parsesAsOther, h, Node.isScalar] at hp
      · refine ⟨fun _ => ⟨.BoolNode (fo.eq f (fo.ofInt y)), ?_, ?_⟩, fun s0 _ _ hp => ?_⟩
        · simp [evalBinary, evalBinaryFloat, h]
        · simp [evalBinary, evalBinaryFloat, h, hsym f]
        · simp [parsesAsOther, h, Node.isScalar] at hp
      · refine ⟨fun hp => ?_, fun s0 _ _ _ => ⟨?_, ?_⟩⟩
        · simp [parsesAsOther, h, UNDEFINED_RESULT, Node.isScalar] at hp
        · simp [evalBinary, h, UNDEFINED_RESULT, isBooleanOP]
        · simp [evalBinary, h, UNDEFINED_RESULT]
    | StringNode t =>
      refine ⟨fun _ => ⟨.BoolNode (Compare s t == 0), ?_, ?_⟩, fun s0 _ hne => absurd rfl (hne t)⟩
      · simp [evalBinary, evalBinaryString, isBooleanOP]
      · have h1 := Compare_eq_zero_iff s t
        have h2 := Compare_eq_zero_iff t s
        have : (Compare t s == 0) = (Compare s t == 0) := by
          by_cases hst : s = t
          · simp [h1.mpr hst, h2.mpr hst.symm]
          · have n1 : Compare s t ≠ 0 := fun h => hst (h1.mp h)
            have n2 : Compare t s ≠ 0 := fun h => hst (h2.mp h).symm
            simp [n1, n2]
        simp [evalBinary, evalBinaryString, isBooleanOP, this]
    | _ => simp [Node.isBoolIntString] at hb
  | _ => simp [Node.isBoolIntString] at ha

/-- The string `1` next to the integer `1`: the string parses as a number, and
`EQ` returns the same node in both orders. -/
theorem evalBinary_EQ_symmetric_witness :
    ∃ n, evalBinary fixedPointOps 2 .EQ (.StringNode (str "1")) (.IntNode 1) = .ret n
      ∧ evalBinary fixedPointOps 2 .EQ (.IntNode 1) (.StringNode (str "1")) = .ret n :=
  (evalBinary_EQ_symmetric fixedPointOps (fun x y => by simp [fixedPointOps, eq_comm]) 0
    (.StringNode (str "1")) (.IntNode 1) (by decide) (by decide)).1 (by decide)

/-! ## Theorems: `Foreach` and `Map` on a document that is not JSON -/

/-- C23. On the string document `x`, which has no error, `Foreach` and `Map`
call nothing and set no error: the error field stays empty. `Map` still takes
the bytes and the type tag of its copy, here the tag `Undefined`. -/
theorem Foreach_Map_set_no_error :
    stringDocument.datatype = .String
    ∧ stringDocument.err = none
    ∧ (Collect.Foreach refLib stringDocument).calls = []
    ∧ (Collect.Foreach refLib stringDocument).receiver.err = none
    ∧ (Collect.Map fixedPointOps refLib stringDocument fun _ _ => .IntNode 1).calls = []
    ∧ (Collect.Map fixedPointOps refLib stringDocument fun _ _ => .IntNode 1).receiver.err = none
    ∧ (Collect.Map fixedPointOps refLib stringDocument fun _ _ => .IntNode 1).receiver.datatype
      = .Undefined := by
  decide

/-- On a document whose type tag is neither `Object` nor `Array`, with every
library, `Foreach` and `Map` never call the callback and leave the error field
as it was. `Foreach` leaves the whole document as it was; `Map` gives it the
bytes and the type tag of its copy `New(bytes)`. -/
theorem Foreach_Map_not_json {F : Type} (fo : Float64Ops F) (lib : JSONLib) (cc : JSONNode)
    (handle : GoString → JSONNode → Node F) (ho : cc.datatype ≠ .Object)
    (ha : cc.datatype ≠ .Array) :
    (Collect.Foreach lib cc).calls = []
    ∧ (Collect.Foreach lib cc).receiver = cc
    ∧ (Collect.Map fo lib cc handle).calls = []
    ∧ (Collect.Map fo lib cc handle).receiver.err = cc.err
    ∧ (Collect.Map fo lib cc handle).receiver.value = (newCollect lib cc.value).value
    ∧ (Collect.Map fo lib cc handle).receiver.datatype = (newCollect lib cc.value).datatype := by
  have h : forEachEntries lib cc.value cc.datatype = [] := by simp [forEachEntries, ho, ha]
  simp [Collect.Foreach, Collect.Map, Collect.Copy, h]

/-! ## Theorems: `KeyBy` -/

/-- C21. On the object `{"a":{"id":"x"}}` with the reference primitives,
`KeyBy("id")` sets the error field of the document and goes on: it returns the
object `{"x":{"id":"x"}}`, built from the member of the document. -/
theorem KeyBy_object_builds_from_members :
    (Collect.KeyBy refLib keyByInput (str "id")).receiver
      = { keyByInput with err := some (str "KeyBy:datatype is not array") }
    ∧ (Collect.KeyBy refLib keyByInput (str "id")).returned = some keyByOutput := by
  decide

/-- On a document whose type tag is not `Array`, `KeyBy` sets the error field,
leaves bytes and type tag as they were and returns a new document: the empty
object when the tag is not `Object` either, otherwise what its loop builds from
the members. -/
theorem KeyBy_not_array (lib : JSONLib) (c : JSONNode) (path : GoString)
    (h : c.datatype ≠ .Array) :
    (Collect.KeyBy lib c path).receiver
      = { c with err := some (str "KeyBy:datatype is not array") }
    ∧ (c.datatype ≠ .Object → (Collect.KeyBy lib c path).returned = some emptyObject)
    ∧ (c.datatype = .Object → (Collect.KeyBy lib c path).returned
        = some (((lib.jsonparserObjectEach c.value).map fun e =>
            newCollectFromJsonparserResult e.2.2 e.2.1).foldl
            (fun ret value => keyByStep lib path ret value) emptyObject)) := by
  refine ⟨by simp [Collect.KeyBy, h], ?_, ?_⟩
  · intro ho
    simp [Collect.KeyBy, h, ho, forEachEntries]
  · intro ho
    simp [Collect.KeyBy, ho, forEachEntries, List.foldl_map]

/-! ## Theorems: `Combine` -/

/-- C22, counterexample. The keys `["a"]` and the values `["x","y"]` are arrays
of lengths 1 and 2, and the empty array `[]` and `["x","y"]` are arrays of
lengths 0 and 2: with the reference primitives `Combine` returns the objects
`{"a":"x"}` and `{}`, each without an error. -/
theorem Combine_unequal_length_counterexample :
    Combine refLibIndexed combineShortKeys combineValues
      = { cKey := combineShortKeys, ret := str "\x7b\"a\":\"x\"\x7d", err := none }
    ∧ Combine refLibIndexed emptyArray combineValues
      = { cKey := emptyArray, ret := str "\x7b\x7d", err := none } := by
  decide

/-- The keys `["a","b"]` and the values `["x","y"]` with the reference
primitives: `Combine` returns the object `{"a":"x","b":"y"}`. -/
theorem Combine_example :
    Combine refLibIndexed combineKeys combineValues
      = { cKey := combineKeys, ret := str "\x7b\"a\":\"x\",\"b\":\"y\"\x7d", err := none } := by
  decide

theorem combinePairsFrom_cons (lib : JSONLib) (cValue : JSONNode) (k : Nat)
    (e : GoString × JSONNode) (rest : List (GoString × JSONNode)) :
    combinePairsFrom lib cValue k (e :: rest)
      = (e.2.String, (get lib cValue.value (indexPath k)).Raw)
        :: combinePairsFrom lib cValue (k + 1) rest := by
  simp [combinePairsFrom, List.enumFrom_cons]

/-- The loop of `Combine` under the contract of `jsonparser.Set`: from a state
without an error whose bytes are a document of the class, the loop ends without
an error on a document of the class whose members are those at the start with
the entries set one after the other. -/
theorem combine_foldl (lib : JSONLib) (view : List UInt8 → List (GoString × List UInt8))
    (Doc : List UInt8 → Prop) (Simple : GoString → Prop) (RawValue : List UInt8 → Prop)
    (hc : KeySetContract lib view Doc Simple RawValue) (cValue : JSONNode)
    (entries : List (GoString × JSONNode)) (st : CombineState) (hd : Doc st.ret)
    (he : st.keyErr = none)
    (hok : ∀ p ∈ combinePairsFrom lib cValue st.idx entries, Simple p.1 ∧ RawValue p.2) :
    (entries.foldl (fun st e => combineStep lib cValue st e.2) st).keyErr = none
    ∧ Doc (entries.foldl (fun st e => combineStep lib cValue st e.2) st).ret
    ∧ view (entries.foldl (fun st e => combineStep lib cValue st e.2) st).ret
      = setAll (view st.ret) (combinePairsFrom lib cValue st.idx entries) := by
  induction entries generalizing st with
  | nil => exact ⟨he, hd, rfl⟩
  | cons e rest ih =>
    rw [combinePairsFrom_cons] at hok ⊢
    have hp := hok _ (List.mem_cons_self _ _)
    obtain ⟨h1, h2, h3⟩ := hc.set_key st.ret e.2.String
      (get lib cValue.value (indexPath st.idx)).Raw hd hp.1 hp.2
    have hidx : (combineStep lib cValue st e.2).idx = st.idx + 1 := rfl
    have hret : (combineStep lib cValue st e.2).ret
        = (lib.jsonparserSet st.ret (get lib cValue.value (indexPath st.idx)).Raw
            [e.2.String]).1 := rfl
    have herr : (combineStep lib cValue st e.2).keyErr = none := by
      simp [combineStep, h1, he]
    have hrec := ih (combineStep lib cValue st e.2) (by rw [hret]; exact h2) herr
      (by
        rw [hidx]
        exact fun p hm => hok p (List.mem_cons_of_mem _ hm))
    rw [List.foldl_cons]
    refine ⟨hrec.1, hrec.2.1, ?_⟩
    rw [hrec.2.2, hidx, hret, h3]
    rfl

/-- C22, amended. `Combine` returns the error `datatype is not array` and no
bytes when the keys or the values are not an `Array`, and it does not compare
lengths. When both are `Array`s, the keys carry no earlier error, and for every
index `i` of the keys the text of `keys[i]` is a key and `get(values, "[i]")` a
raw value that the contract of `jsonparser.Set` covers, it returns without an
error an object whose members are the entries `keys[i] (as string) ->
get(values, "[i]")`, for every element of the keys, set one after the other in
the empty object. -/
theorem Combine_entries (lib : JSONLib) (view : List UInt8 → List (GoString × List UInt8))
    (Doc : List UInt8 → Prop) (Simple : GoString → Prop) (RawValue : List UInt8 → Prop)
    (hc : KeySetContract lib view Doc Simple RawValue) (cKey cValue : JSONNode) :
    (cKey.datatype ≠ .Array ∨ cValue.datatype ≠ .Array →
      Combine lib cKey cValue
        = { cKey := cKey, ret := [], err := some (str "datatype is not array") })
    ∧ (cKey.datatype = .Array → cValue.datatype = .Array → cKey.err = none →
      (∀ p ∈ combinePairs lib cKey cValue, Simple p.1 ∧ RawValue p.2) →
      (Combine lib cKey cValue).err = none
      ∧ (Combine lib cKey cValue).cKey = cKey
      ∧ Doc (Combine lib cKey cValue).ret
      ∧ view (Combine lib cKey cValue).ret = setAll [] (combinePairs lib cKey cValue)) := by
  constructor
  · intro h
    by_cases hk : cKey.datatype = .Array
    · have hv : cValue.datatype ≠ .Array := h.resolve_left fun hn => hn hk
      simp [Combine, hk, hv]
    · simp [Combine, hk]
  · intro hk hv he hok
    have h := combine_foldl lib view Doc Simple RawValue hc cValue
      (forEachEntries lib cKey.value cKey.datatype)
      { ret := str "{}", keyErr := cKey.err, idx := 0 } hc.doc_empty he hok
    simp only [hc.view_empty] at h
    have hC : Combine lib cKey cValue
        = { cKey := { cKey with
              err := ((forEachEntries lib cKey.value cKey.datatype).foldl
                (fun st e => combineStep lib cValue st e.2)
                { ret := str "{}", keyErr := cKey.err, idx := 0 }).keyErr },
            ret := ((forEachEntries lib cKey.value cKey.datatype).foldl
                (fun st e => combineStep lib cValue st e.2)
                { ret := str "{}", keyErr := cKey.err, idx := 0 }).ret,
            err := ((forEachEntries lib cKey.value cKey.datatype).foldl
                (fun st e => combineStep lib cValue st e.2)
                { ret := str "{}", keyErr := cKey.err, idx := 0 }).keyErr } := by
      simp [Combine, hk, hv, Collect.Foreach]
    rw [hC]
    refine ⟨h.1, ?_, h.2.1, h.2.2⟩
    simp only [h.1]
    cases cKey
    simp_all

/-! ## Theorems: the reference library meets the contract of `jsonparser.Set` -/

theorem mem_upsert (k : GoString) (v : List UInt8) (ms : List (GoString × List UInt8))
    (m : GoString × List UInt8) (h : m ∈ upsert k v ms) : m = (k, v) ∨ m ∈ ms := by
  induction ms with
  | nil =>
    left
    simpa [upsert] using h
  | cons a rest ih =>
    by_cases ha : a.1 = k
    · simp only [upsert, ha, if_true, List.mem_cons] at h
      rcases h with h | h
      · exact Or.inl h
      · exact Or.inr (List.mem_cons_of_mem _ h)
    · simp only [upsert, ha, if_false, List.mem_cons] at h
      rcases h with h | h
      · exact Or.inr (h ▸ List.mem_cons_self _ _)
      · rcases ih h with h2 | h2
        · exact Or.inl h2
        · exact Or.inr (List.mem_cons_of_mem _ h2)

/-- A quoted text without a quote inside is taken whole by the reader. -/
theorem selfDelimited_quoted (s : List UInt8) (h : ∀ b ∈ s, b ≠ 34) :
    selfDelimited ([34] ++ s ++ [34]) := by
  intro rest
  have hspan : (s ++ 34 :: rest).span (fun c => c != 34) = (s, 34 :: rest) :=
    span_append_stop _ s 34 rest (fun b hbm => by simpa using h b hbm) (by decide)
  rw [List.span_eq_take_drop] at hspan
  have ht := congrArg Prod.fst hspan
  have hd := congrArg Prod.snd hspan
  simp only at ht hd
  simp [refReadValue, List.span_eq_take_drop, ht, hd]

theorem refLibIndexed_key_set_contract :
    KeySetContract refLibIndexed refView keyedDoc flatKeyOk selfDelimited where
  doc_empty := ⟨[], by decide, by simp⟩
  view_empty := by decide
  set_key := by
    rintro d k v ⟨ms, rfl, hok⟩ hk hv
    have hm := refMembers_flatRender ms hok
    have hok2 : ∀ m ∈ upsert k v ms, flatKeyOk m.1 ∧ selfDelimited m.2 := by
      intro m hmem
      rcases mem_upsert k v ms m hmem with h | h
      · subst h
        exact ⟨hk, hv⟩
      · exact hok m h
    have hval : refLibIndexed.jsonparserSet (flatRender ms) v [k]
        = (flatRender (upsert k v ms), none) := by
      simp [refLibIndexed, refLib, refJsonparserSet, refSet, hk.1, hm]
    rw [hval]
    refine ⟨rfl, ⟨_, rfl, hok2⟩, ?_⟩
    simp [refView, refMembers_flatRender _ hok2, hm]

/-- The keys `["a","b"]` and the values `["x","y"]` with the reference
primitives: no error, the keys as they were, and the members `a -> "x"`,
`b -> "y"`. -/
theorem Combine_entries_witness :
    (Combine refLibIndexed combineKeys combineValues).err = none
    ∧ (Combine refLibIndexed combineKeys combineValues).cKey = combineKeys
    ∧ keyedDoc (Combine refLibIndexed combineKeys combineValues).ret
    ∧ refView (Combine refLibIndexed combineKeys combineValues).ret
      = setAll [] (combinePairs refLibIndexed combineKeys combineValues) :=
  (Combine_entries refLibIndexed refView keyedDoc flatKeyOk selfDelimited
    refLibIndexed_key_set_contract combineKeys combineValues).2 (by decide) (by decide)
    (by decide) (by
      have hp : combinePairs refLibIndexed combineKeys combineValues
          = [(str "a", [34, 120, 34]), (str "b", [34, 121, 34])] := by decide
      intro p hm
      rw [hp] at hm
      simp only [List.mem_cons, List.mem_singleton, List.not_mem_nil, or_false] at hm
      rcases hm with rfl | rfl
      · exact ⟨by decide, selfDelimited_quoted [120] (by decide)⟩
      · exact ⟨by decide, selfDelimited_quoted [121] (by decide)⟩)

end Tdtl
